import Mathlib

/-!
# Content.cpp (awkward-1.0): Form schema parsing

A shallow embedding of `src/libawkward/Content.cpp`.  This part covers the
`Form` section of the file: `fromjson_part` (lines 33-482) and
`Form::fromjson` (lines 484-489).

Conventions of the embedding

* a thrown `std::invalid_argument` / `std::runtime_error` is an
  `Except.error` carrying a `Failure` with the `what()` text;
* a `rapidjson` value is a `JSON` tree; `HasMember` / `operator[]` find the
  first member with the given name;
* everything the file uses but does not define (the target ABI, the
  `rapidjson` reader and writers, `Index::str2form`) is a field of `Env`;
* `int64_t` values are `Int`; no arithmetic is done on them in this part.
-/

namespace Awkward

/-! ## Failures -/

/-- The two exception classes thrown in `Content.cpp`, with their message. -/
inductive Failure where
  | invalid_argument (what : String)
  | runtime_error (what : String)
  deriving DecidableEq, Repr

/-- Whether a failure is a `std::invalid_argument`. -/
def Failure.is_invalid_argument : Failure → Bool
  | .invalid_argument _ => true
  | .runtime_error _ => false

/-! ## rapidjson values -/

/-- A `rapidjson` value.  A number is either an integer literal (`int`) or
anything else (`double`, kept as its text); an object keeps its members in
document order and may repeat a name.  A string is the C string that
`GetString()` yields: `fromjson_part` never reads `GetStringLength()`, so
strings are taken without NUL characters. -/
inductive JSON where
  | null
  | bool (b : Bool)
  | int (n : Int)
  | double (text : String)
  | str (s : String)
  | arr (items : List JSON)
  | obj (members : List (String × JSON))

namespace JSON

/-- The members of an object: `FindMember`, the first member named `key`.
`HasMember(key)` is `(member ms key).isSome` and `json[key]` is its value. -/
def member : List (String × JSON) → String → Option JSON
  | [], _ => none
  | (k, v) :: rest, key => if k = key then some v else member rest key

/-- The test `IsInt()` of rapidjson: an integer literal that fits in a 32-bit
signed `int`. -/
def IsInt : JSON → Bool
  | .int n => decide (-2147483648 ≤ n ∧ n ≤ 2147483647)
  | _ => false

/-- The test `json.HasMember(key) && json[key].IsString()`, giving
`json[key].GetString()`. -/
def string_at (ms : List (String × JSON)) (key : String) : Option String :=
  match member ms key with
  | some (.str s) => some s
  | _ => none

/-- The test `json.HasMember(key) && json[key].IsBool()`, giving
`json[key].GetBool()`. -/
def bool_at (ms : List (String × JSON)) (key : String) : Option Bool :=
  match member ms key with
  | some (.bool b) => some b
  | _ => none

/-- The test `json.HasMember(key) && json[key].IsInt()`, giving
`json[key].GetInt64()`. -/
def int_at (ms : List (String × JSON)) (key : String) : Option Int :=
  match member ms key with
  | some (.int n) => if IsInt (.int n) then some n else none
  | _ => none

end JSON

/-! ## Index forms, parameters and Forms -/

/-- Modelled from the spec: the enumeration `Index::Form` is declared outside
`Content.cpp`.  The file names `i8`, `i32`, `u32`, `i64` and the end marker
`kNumIndexForm`; `u8` is the remaining index buffer of the 8/32/64-bit signed
and unsigned ones. -/
inductive IndexForm where
  | i8
  | u8
  | i32
  | u32
  | i64
  | kNumIndexForm
  deriving DecidableEq, Repr

/-- The type `util::Parameters`, a `std::map<std::string, std::string>`, as
the list of its entries in key order. -/
abbrev Parameters := List (String × String)

namespace Parameters

/-- The assignment `p[key] = value` of `std::map`: replaces the value of an
existing key, otherwise inserts the entry at its place in key order. -/
def assign : Parameters → String → String → Parameters
  | [], key, value => [(key, value)]
  | (k, v) :: rest, key, value =>
    if key = k then (k, value) :: rest
    else if key.data < k.data then (key, value) :: (k, v) :: rest
    else (k, v) :: assign rest key value

/-- The lookup `p.find(key)`, `none` standing for `p.end()`. -/
def find : Parameters → String → Option String
  | [], _ => none
  | (k, v) :: rest, key => if k = key then some v else find rest key

/-- The call `p.erase(key)`. -/
def erase : Parameters → String → Parameters
  | [], _ => []
  | (k, v) :: rest, key => if k = key then rest else (k, v) :: erase rest key

end Parameters

/-- The classes derived from `Form`, each with the arguments of its
constructor in the order `Content.cpp` passes them.  A null `FormPtr` or
`RecordLookupPtr` is `none`. -/
inductive Form where
  | NumpyForm (has_identities : Bool) (parameters : Parameters)
      (inner_shape : List Int) (itemsize : Int) (format : String)
  | RecordForm (has_identities : Bool) (parameters : Parameters)
      (recordlookup : Option (List String)) (contents : List Form)
  | ListOffsetForm (has_identities : Bool) (parameters : Parameters)
      (offsets : IndexForm) (content : Form)
  | ListForm (has_identities : Bool) (parameters : Parameters)
      (starts : IndexForm) (stops : IndexForm) (content : Form)
  | RegularForm (has_identities : Bool) (parameters : Parameters)
      (content : Form) (size : Int)
  | IndexedOptionForm (has_identities : Bool) (parameters : Parameters)
      (index : IndexForm) (content : Form)
  | IndexedForm (has_identities : Bool) (parameters : Parameters)
      (index : IndexForm) (content : Form)
  | ByteMaskedForm (has_identities : Bool) (parameters : Parameters)
      (mask : IndexForm) (content : Form) (valid_when : Bool)
  | BitMaskedForm (has_identities : Bool) (parameters : Parameters)
      (mask : IndexForm) (content : Form) (valid_when : Bool)
      (lsb_order : Bool)
  | UnmaskedForm (has_identities : Bool) (parameters : Parameters)
      (content : Form)
  | UnionForm (has_identities : Bool) (parameters : Parameters)
      (tags : IndexForm) (index : IndexForm) (contents : List Form)
  | EmptyForm (has_identities : Bool) (parameters : Parameters)
  | VirtualForm (has_identities : Bool) (parameters : Parameters)
      (form : Option Form) (has_length : Bool)

namespace Form

/-- The accessor `Form::has_identities()` (lines 514-517). -/
def has_identities : Form → Bool
  | NumpyForm h _ _ _ _ => h
  | RecordForm h _ _ _ => h
  | ListOffsetForm h _ _ _ => h
  | ListForm h _ _ _ _ => h
  | RegularForm h _ _ _ => h
  | IndexedOptionForm h _ _ _ => h
  | IndexedForm h _ _ _ => h
  | ByteMaskedForm h _ _ _ _ => h
  | BitMaskedForm h _ _ _ _ _ => h
  | UnmaskedForm h _ _ => h
  | UnionForm h _ _ _ _ => h
  | EmptyForm h _ => h
  | VirtualForm h _ _ _ => h

/-- The accessor `Form::parameters()` (lines 519-522). -/
def parameters : Form → Parameters
  | NumpyForm _ p _ _ _ => p
  | RecordForm _ p _ _ => p
  | ListOffsetForm _ p _ _ => p
  | ListForm _ p _ _ _ => p
  | RegularForm _ p _ _ => p
  | IndexedOptionForm _ p _ _ => p
  | IndexedForm _ p _ _ => p
  | ByteMaskedForm _ p _ _ _ => p
  | BitMaskedForm _ p _ _ _ _ => p
  | UnmaskedForm _ p _ => p
  | UnionForm _ p _ _ _ => p
  | EmptyForm _ p => p
  | VirtualForm _ p _ _ => p

end Form

/-! ## What `Content.cpp` takes from outside -/

/-- Everything `fromjson_part` depends on that is not defined in
`Content.cpp`.

* `msc_or_i386`: the preprocessor test `defined _MSC_VER || defined __i386__`
  (true on the LLP64 and i386 targets, false on LP64);
* `str2form`: the function `Index::str2form`, defined outside this file: the
  index form it returns for a text, or the `what()` of the exception it
  throws, taken to be a `std::invalid_argument` as every schema validation
  failure is;
* `Writer`, `PrettyWriter`: the text `rj::Writer` and `rj::PrettyWriter`
  produce for a value;
* `Parse`: the document `rj::Document::Parse` leaves for a text;
* `isgen_indet`, `is64_indet`, `isU32_indet`, `is32_indet`: the
  indeterminate values of the locals `isgen`, `is64`, `isU32`, `is32`, which
  lines 118-121 declare without an initialiser. -/
structure Env where
  msc_or_i386 : Bool
  str2form : String → Except String IndexForm
  Writer : JSON → String
  PrettyWriter : JSON → String
  Parse : String → JSON
  isgen_indet : Bool
  is64_indet : Bool
  isU32_indet : Bool
  is32_indet : Bool

/-- The locals `isgen`, `is64`, `isU32`, `is32` of `fromjson_part`
(lines 118-121). -/
structure Flags where
  isgen : Bool
  is64 : Bool
  isU32 : Bool
  is32 : Bool
  deriving DecidableEq, Repr

/-- The values of the four locals right after their declaration. -/
def Env.flags (env : Env) : Flags :=
  ⟨env.isgen_indet, env.is64_indet, env.isU32_indet, env.is32_indet⟩

/-! ## `fromjson_part` (lines 33-482) -/

/-- Lines 476-481: the exception thrown when no case applied. -/
def unrecognized (env : Env) (json : JSON) : Failure :=
  .invalid_argument
    ("JSON cannot be recognized as a Form:\n\n" ++ env.PrettyWriter json)

/-- Lines 40-88: the item size and the format that each primitive name gives
to the `NumpyForm` it builds; `none` when the string is none of the names. -/
def primitive (env : Env) (s : String) : Option (Int × String) :=
  if s = "float64" then some (8, "d")
  else if s = "float32" then some (4, "f")
  else if s = "int64" then
    (if env.msc_or_i386 then some (8, "q") else some (8, "l"))
  else if s = "uint64" then
    (if env.msc_or_i386 then some (8, "Q") else some (8, "L"))
  else if s = "int32" then
    (if env.msc_or_i386 then some (4, "l") else some (4, "i"))
  else if s = "uint32" then
    (if env.msc_or_i386 then some (4, "L") else some (4, "I"))
  else if s = "int16" then some (2, "h")
  else if s = "uint16" then some (2, "H")
  else if s = "int8" then some (1, "b")
  else if s = "uint8" then some (1, "B")
  else if s = "bool" then some (1, "?")
  else none

/-- The call `fromjson_part(json)` for a `json` that is a string: lines 36-89
return `NumpyForm(false, p, s, itemsize, format)` with empty `p` and `s`;
otherwise the value is no object and lines 476-481 throw. -/
def fromjson_string (env : Env) (s : String) : Except Failure Form :=
  match primitive env s with
  | some (itemsize, format) => .ok (.NumpyForm false [] [] itemsize format)
  | none => .error (unrecognized env (.str s))

/-- Lines 97-102: the loop over the members of `json["parameters"]`, each
assigning `p[name]` the compact text of the value. -/
def parameters_loop (env : Env) :
    List (String × JSON) → Parameters → Parameters
  | [], p => p
  | (name, value) :: rest, p =>
    parameters_loop env rest (p.assign name (env.Writer value))

/-- Lines 94-107: the parameters of the Form. -/
def fromjson_parameters (env : Env) (ms : List (String × JSON)) :
    Except Failure Parameters :=
  match JSON.member ms "parameters" with
  | none => .ok []
  | some (.obj pairs) => .ok (parameters_loop env pairs [])
  | some _ =>
    .error (.invalid_argument "'parameters' must be a JSON object")

/-- Lines 108-116: the flag `h`. -/
def fromjson_has_identities (ms : List (String × JSON)) :
    Except Failure Bool :=
  match JSON.member ms "has_identities" with
  | none => .ok false
  | some (.bool b) => .ok b
  | some _ => .error (.invalid_argument "'has_identities' must be boolean")

namespace Flags

/-- The condition `(isgen = (cls == g)) || (is64 = (cls == n64)) ||
(isU32 = (cls == nU32)) || (is32 = (cls == n32))` of lines 179-182, 208-211,
295-298 and 402-405: its value and the locals after it.  The operator is
short-circuit, so an assignment right of the first true one does not
happen. -/
def or4 (fl : Flags) (cls g n64 nU32 n32 : String) : Bool × Flags :=
  let fl1 : Flags := ⟨decide (cls = g), fl.is64, fl.isU32, fl.is32⟩
  if fl1.isgen then (true, fl1) else
  let fl2 : Flags := ⟨fl1.isgen, decide (cls = n64), fl1.isU32, fl1.is32⟩
  if fl2.is64 then (true, fl2) else
  let fl3 : Flags := ⟨fl2.isgen, fl2.is64, decide (cls = nU32), fl2.is32⟩
  if fl3.isU32 then (true, fl3) else
  let fl4 : Flags := ⟨fl3.isgen, fl3.is64, fl3.isU32, decide (cls = n32)⟩
  (fl4.is32, fl4)

/-- The condition `(isgen = (cls == g)) || (is64 = (cls == n64)) ||
(is32 = (cls == n32))` of lines 268-270. -/
def or3 (fl : Flags) (cls g n64 n32 : String) : Bool × Flags :=
  let fl1 : Flags := ⟨decide (cls = g), fl.is64, fl.isU32, fl.is32⟩
  if fl1.isgen then (true, fl1) else
  let fl2 : Flags := ⟨fl1.isgen, decide (cls = n64), fl1.isU32, fl1.is32⟩
  if fl2.is64 then (true, fl2) else
  let fl3 : Flags := ⟨fl2.isgen, fl2.is64, fl2.isU32, decide (cls = n32)⟩
  (fl3.is32, fl3)

/-- The expression `is64 ? i64 : isU32 ? u32 : is32 ? i32 : kNumIndexForm`
(lines 183, 212, 216, 299, 325, 357, 419). -/
def width (fl : Flags) : IndexForm :=
  if fl.is64 then .i64 else if fl.isU32 then .u32
  else if fl.is32 then .i32 else .kNumIndexForm

/-- The expression `is64 ? i64 : is32 ? i32 : kNumIndexForm` (line 271). -/
def width_option (fl : Flags) : IndexForm :=
  if fl.is64 then .i64 else if fl.is32 then .i32 else .kNumIndexForm

/-- The expression `is64 ? i8 : isU32 ? i8 : is32 ? i8 : kNumIndexForm`
(line 406). -/
def width_tags (fl : Flags) : IndexForm :=
  if fl.is64 then .i8 else if fl.isU32 then .i8
  else if fl.is32 then .i8 else .kNumIndexForm

end Flags

/-- The block repeated for each width key (lines 187-195, 220-228, 229-237,
274-282, 303-311, 329-337, 361-369, 410-418, 423-431): when `json[key]` is a
string, `tmp = Index::str2form(json[key].GetString())`; a width `w` already
set and different from `tmp` throws `cls + conflicting + json[key]`;
otherwise the width becomes `tmp`.  Without a string under `key` the width
stays `w`. -/
def explicit_width (env : Env) (cls key conflicting : String)
    (ms : List (String × JSON)) (w : IndexForm) : Except Failure IndexForm :=
  match JSON.string_at ms key with
  | some s =>
    match env.str2form s with
    | .error what => .error (.invalid_argument what)
    | .ok tmp =>
      if w ≠ .kNumIndexForm ∧ w ≠ tmp then
        .error (.invalid_argument (cls ++ conflicting ++ s))
      else .ok tmp
  | none => .ok w

/-- The block `if (w == Index::Form::kNumIndexForm) throw
std::invalid_argument(cls + missing)` (lines 196-199, 238-245, 283-286,
312-315, 338-341, 370-373, 432-439). -/
def require_width (cls missing : String) (w : IndexForm) :
    Except Failure Unit :=
  if w = .kNumIndexForm then .error (.invalid_argument (cls ++ missing))
  else .ok ()

/-- Lines 144-152: the loop over `json["inner_shape"].GetArray()`. -/
def inner_shape_loop : List JSON → Except Failure (List Int)
  | [] => .ok []
  | .int n :: rest =>
    if JSON.IsInt (.int n) then
      (inner_shape_loop rest).map (fun s => n :: s)
    else
      .error (.invalid_argument
        "NumpyForm 'inner_shape' must only contain integers")
  | _ :: _ =>
    .error (.invalid_argument
      "NumpyForm 'inner_shape' must only contain integers")

/-- Lines 124-155: the class `NumpyArray`.  The nested call
`fromjson_part(json["primitive"])` is on a string, so it either builds a
`NumpyForm` from `primitive` or throws as `fromjson_string` does. -/
def fromjson_NumpyArray (env : Env) (ms : List (String × JSON))
    (h : Bool) (p : Parameters) : Except Failure Form := do
  let (itemsize, format) ←
    (match JSON.string_at ms "primitive" with
     | some s =>
       match primitive env s with
       | some r => (.ok r : Except Failure (Int × String))
       | none => .error (unrecognized env (.str s))
     | none =>
       match JSON.string_at ms "format", JSON.int_at ms "itemsize" with
       | some format, some itemsize => .ok (itemsize, format)
       | _, _ =>
         .error (.invalid_argument
           "NumpyForm must have a 'primitive' field or 'format' and 'itemsize'"))
  let s ←
    (match JSON.member ms "inner_shape" with
     | some (.arr items) => inner_shape_loop items
     | _ => .ok [])
  pure (.NumpyForm h p s itemsize format)

/-- The throw `std::invalid_argument(cls + what)`. -/
def missing (cls what : String) : Failure :=
  .invalid_argument (cls ++ what)

/-! ### The class blocks

Each block below is the body of one `if (cls == ...)` statement of
`fromjson_part`.  The results of the recursive calls the body makes are
arguments: `content` and `form` hold, when the member exists, its value and
the result of `fromjson_part` on it; `contents_array` and `contents_object`
hold the result of the loop over `json["contents"]` when that is an array or
an object.  `fl` holds the locals `isgen`, `is64`, `isU32`, `is32` as the
condition of the `if` left them. -/

/-- Lines 158-176: the class `RecordArray`. -/
def fromjson_RecordArray (h : Bool) (p : Parameters)
    (contents_array : Option (Except Failure (List Form)))
    (contents_object : Option (List String × Except Failure (List Form))) :
    Except Failure Form :=
  match contents_array, contents_object with
  | some r, _ => do
    let contents ← r
    pure (.RecordForm h p none contents)
  | none, some (names, r) => do
    let contents ← r
    pure (.RecordForm h p (some names) contents)
  | none, none =>
    .error (.invalid_argument
      "RecordArray 'contents' must be a JSON list or a JSON object")

/-- Lines 183-205: the classes `ListOffsetArray`, `ListOffsetArray64`,
`ListOffsetArrayU32`, `ListOffsetArray32`. -/
def fromjson_ListOffsetArray (env : Env) (cls : String)
    (ms : List (String × JSON)) (h : Bool) (p : Parameters) (fl : Flags)
    (content : Option (JSON × Except Failure Form)) :
    Except Failure Form := do
  let offsets ← explicit_width env cls "offsets"
    " has conflicting 'offsets' type: " ms fl.width
  require_width cls " is missing an 'offsets' specification" offsets
  match content with
  | none => .error (missing cls " is missing its 'content'")
  | some (_, r) => do
    let content ← r
    pure (.ListOffsetForm h p offsets content)

/-- Lines 212-251: the classes `ListArray`, `ListArray64`, `ListArrayU32`,
`ListArray32`. -/
def fromjson_ListArray (env : Env) (cls : String)
    (ms : List (String × JSON)) (h : Bool) (p : Parameters) (fl : Flags)
    (content : Option (JSON × Except Failure Form)) :
    Except Failure Form := do
  let starts ← explicit_width env cls "starts"
    " has conflicting 'starts' type: " ms fl.width
  let stops ← explicit_width env cls "stops"
    " has conflicting 'stops' type: " ms fl.width
  require_width cls " is missing a 'starts' specification" starts
  require_width cls " is missing a 'stops' specification" stops
  match content with
  | none => .error (missing cls " is missing its 'content'")
  | some (_, r) => do
    let content ← r
    pure (.ListForm h p starts stops content)

/-- Lines 255-265: the class `RegularArray`. -/
def fromjson_RegularArray (cls : String)
    (ms : List (String × JSON)) (h : Bool) (p : Parameters)
    (content : Option (JSON × Except Failure Form)) :
    Except Failure Form :=
  match content with
  | none => .error (missing cls " is missing its 'content'")
  | some (_, r) => do
    let content ← r
    match JSON.int_at ms "size" with
    | none => .error (missing cls " is missing its 'size'")
    | some size => pure (.RegularForm h p content size)

/-- Lines 271-292: the classes `IndexedOptionArray`, `IndexedOptionArray64`,
`IndexedOptionArray32`. -/
def fromjson_IndexedOptionArray (env : Env) (cls : String)
    (ms : List (String × JSON)) (h : Bool) (p : Parameters) (fl : Flags)
    (content : Option (JSON × Except Failure Form)) :
    Except Failure Form := do
  let index ← explicit_width env cls "index"
    " has conflicting 'index' type: " ms fl.width_option
  require_width cls " is missing an 'index' specification" index
  match content with
  | none => .error (missing cls " is missing its 'content'")
  | some (_, r) => do
    let content ← r
    pure (.IndexedOptionForm h p index content)

/-- Lines 299-321: the classes `IndexedArray`, `IndexedArray64`,
`IndexedArrayU32`, `IndexedArray32`. -/
def fromjson_IndexedArray (env : Env) (cls : String)
    (ms : List (String × JSON)) (h : Bool) (p : Parameters) (fl : Flags)
    (content : Option (JSON × Except Failure Form)) :
    Except Failure Form := do
  let index ← explicit_width env cls "index"
    " has conflicting 'index' type: " ms fl.width
  require_width cls " is missing an 'index' specification" index
  match content with
  | none => .error (missing cls " is missing its 'content'")
  | some (_, r) => do
    let content ← r
    pure (.IndexedForm h p index content)

/-- Lines 325-353: the class `ByteMaskedArray`. -/
def fromjson_ByteMaskedArray (env : Env) (cls : String)
    (ms : List (String × JSON)) (h : Bool) (p : Parameters) (fl : Flags)
    (content : Option (JSON × Except Failure Form)) :
    Except Failure Form := do
  let mask ← explicit_width env cls "mask"
    " has conflicting 'mask' type: " ms fl.width
  require_width cls " is missing a 'mask' specification" mask
  match content with
  | none => .error (missing cls " is missing its 'content'")
  | some (_, r) => do
    let content ← r
    match JSON.bool_at ms "valid_when" with
    | none => .error (missing cls " is missing its 'valid_when'")
    | some valid_when => pure (.ByteMaskedForm h p mask content valid_when)

/-- Lines 357-390: the class `BitMaskedArray`. -/
def fromjson_BitMaskedArray (env : Env) (cls : String)
    (ms : List (String × JSON)) (h : Bool) (p : Parameters) (fl : Flags)
    (content : Option (JSON × Except Failure Form)) :
    Except Failure Form := do
  let mask ← explicit_width env cls "mask"
    " has conflicting 'mask' type: " ms fl.width
  require_width cls " is missing a 'mask' specification" mask
  match content with
  | none => .error (missing cls " is missing its 'content'")
  | some (_, r) => do
    let content ← r
    match JSON.bool_at ms "valid_when" with
    | none => .error (missing cls " is missing its 'valid_when'")
    | some valid_when =>
      match JSON.bool_at ms "lsb_order" with
      | none => .error (missing cls " is missing its 'lsb_order'")
      | some lsb_order =>
        pure (.BitMaskedForm h p mask content valid_when lsb_order)

/-- Lines 394-399: the class `UnmaskedArray`. -/
def fromjson_UnmaskedArray (cls : String) (h : Bool) (p : Parameters)
    (content : Option (JSON × Except Failure Form)) :
    Except Failure Form :=
  match content with
  | none => .error (missing cls " is missing its 'content'")
  | some (_, r) => do
    let content ← r
    pure (.UnmaskedForm h p content)

/-- Lines 406-450: the classes `UnionArray`, `UnionArray8_64`,
`UnionArray8_U32`, `UnionArray8_32`. -/
def fromjson_UnionArray (env : Env) (cls : String)
    (ms : List (String × JSON)) (h : Bool) (p : Parameters) (fl : Flags)
    (contents_array : Option (Except Failure (List Form))) :
    Except Failure Form := do
  let tags ← explicit_width env cls "tags"
    " has conflicting 'tags' type: " ms fl.width_tags
  let index ← explicit_width env cls "index"
    " has conflicting 'index' type: " ms fl.width
  require_width cls " is missing a 'tags' specification" tags
  require_width cls " is missing an 'index' specification" index
  match contents_array with
  | some r => do
    let contents ← r
    pure (.UnionForm h p tags index contents)
  | none => .error (missing cls " 'contents' must be a JSON list")

/-- Lines 458-471: the class `VirtualArray`. -/
def fromjson_VirtualArray (cls : String)
    (ms : List (String × JSON)) (h : Bool) (p : Parameters)
    (form : Option (JSON × Except Failure Form)) :
    Except Failure Form :=
  match form with
  | none => .error (missing cls " is missing its 'form'")
  | some (value, r) => do
    let form ← (match value with
      | .null => (.ok none : Except Failure (Option Form))
      | _ => r.map some)
    match JSON.bool_at ms "has_length" with
    | none => .error (missing cls " is missing its 'has_length'")
    | some has_length => pure (.VirtualForm h p form has_length)

/-- Lines 118-474: the chain of `if` statements on `cls`, once the
parameters `p` and the flag `h` are read. -/
def fromjson_class (env : Env) (cls : String) (ms : List (String × JSON))
    (h : Bool) (p : Parameters)
    (content form : Option (JSON × Except Failure Form))
    (contents_array : Option (Except Failure (List Form)))
    (contents_object : Option (List String × Except Failure (List Form))) :
    Except Failure Form :=
  let fl0 := env.flags
  if cls = "NumpyArray" then
    fromjson_NumpyArray env ms h p
  else if cls = "RecordArray" then
    fromjson_RecordArray h p contents_array contents_object
  else
  let c1 := fl0.or4 cls "ListOffsetArray" "ListOffsetArray64"
    "ListOffsetArrayU32" "ListOffsetArray32"
  if c1.1 then
    fromjson_ListOffsetArray env cls ms h p c1.2 content
  else
  let c2 := c1.2.or4 cls "ListArray" "ListArray64" "ListArrayU32"
    "ListArray32"
  if c2.1 then
    fromjson_ListArray env cls ms h p c2.2 content
  else if cls = "RegularArray" then
    fromjson_RegularArray cls ms h p content
  else
  let c3 := c2.2.or3 cls "IndexedOptionArray" "IndexedOptionArray64"
    "IndexedOptionArray32"
  if c3.1 then
    fromjson_IndexedOptionArray env cls ms h p c3.2 content
  else
  let c4 := c3.2.or4 cls "IndexedArray" "IndexedArray64" "IndexedArrayU32"
    "IndexedArray32"
  if c4.1 then
    fromjson_IndexedArray env cls ms h p c4.2 content
  else if cls = "ByteMaskedArray" then
    fromjson_ByteMaskedArray env cls ms h p c4.2 content
  else if cls = "BitMaskedArray" then
    fromjson_BitMaskedArray env cls ms h p c4.2 content
  else if cls = "UnmaskedArray" then
    fromjson_UnmaskedArray cls h p content
  else
  let c5 := c4.2.or4 cls "UnionArray" "UnionArray8_64" "UnionArray8_U32"
    "UnionArray8_32"
  if c5.1 then
    fromjson_UnionArray env cls ms h p c5.2 contents_array
  else if cls = "EmptyArray" then
    pure (.EmptyForm h p)
  else if cls = "VirtualArray" then
    fromjson_VirtualArray cls ms h p form
  else
    .error (unrecognized env (.obj ms))

/-- Lines 91-474 for an object `json` with members `ms`: the test that
`json["class"]` is a string, the parameters, the flag `h`, then the chain on
`cls`; lines 476-481 when there is no string `class`. -/
def fromjson_object (env : Env) (ms : List (String × JSON))
    (content form : Option (JSON × Except Failure Form))
    (contents_array : Option (Except Failure (List Form)))
    (contents_object : Option (List String × Except Failure (List Form))) :
    Except Failure Form :=
  match JSON.string_at ms "class" with
  | none => .error (unrecognized env (.obj ms))
  | some cls => do
    let p ← fromjson_parameters env ms
    let h ← fromjson_has_identities ms
    fromjson_class env cls ms h p content form contents_array
      contents_object

mutual

/-- The function `fromjson_part` (lines 33-482).  A string goes through
lines 36-89, an object through lines 91-474, and every value that did not
return ends at the throw of lines 476-481. -/
def fromjson_part (env : Env) : JSON → Except Failure Form
  | .str s => fromjson_string env s
  | .obj ms =>
    fromjson_object env ms (fromjson_at env "content" ms)
      (fromjson_at env "form" ms) (fromjson_array_at env "contents" ms)
      (fromjson_object_at env "contents" ms)
  | .null => .error (unrecognized env .null)
  | .bool b => .error (unrecognized env (.bool b))
  | .int n => .error (unrecognized env (.int n))
  | .double t => .error (unrecognized env (.double t))
  | .arr items => .error (unrecognized env (.arr items))

/-- The loop `for (auto& x : json[...].GetArray())
contents.push_back(fromjson_part(x))` (lines 161-163, 442-444). -/
def fromjson_array (env : Env) : List JSON → Except Failure (List Form)
  | [] => .ok []
  | x :: rest => do
    let form ← fromjson_part env x
    let forms ← fromjson_array env rest
    pure (form :: forms)

/-- The calls `contents.push_back(fromjson_part(pair.value))` of the loop
over `json["contents"].GetObject()` (lines 167-170). -/
def fromjson_values (env : Env) :
    List (String × JSON) → Except Failure (List Form)
  | [] => .ok []
  | (_, value) :: rest => do
    let form ← fromjson_part env value
    let forms ← fromjson_values env rest
    pure (form :: forms)

/-- When `json.HasMember(key)`: the value `json[key]` and the result of
`fromjson_part(json[key])`. -/
def fromjson_at (env : Env) (key : String) :
    List (String × JSON) → Option (JSON × Except Failure Form)
  | [] => none
  | (k, v) :: rest =>
    if k = key then some (v, fromjson_part env v)
    else fromjson_at env key rest

/-- When `json.HasMember(key) && json[key].IsArray()`: the result of the
loop over `json[key].GetArray()`. -/
def fromjson_array_at (env : Env) (key : String) :
    List (String × JSON) → Option (Except Failure (List Form))
  | [] => none
  | (k, .arr items) :: rest =>
    if k = key then some (fromjson_array env items)
    else fromjson_array_at env key rest
  | (k, _) :: rest =>
    if k = key then none else fromjson_array_at env key rest

/-- When `json.HasMember(key) && json[key].IsObject()`: the names pushed to
`recordlookup` and the result of the loop over `json[key].GetObject()`. -/
def fromjson_object_at (env : Env) (key : String) :
    List (String × JSON) →
      Option (List String × Except Failure (List Form))
  | [] => none
  | (k, .obj pairs) :: rest =>
    if k = key then some (pairs.map Prod.fst, fromjson_values env pairs)
    else fromjson_object_at env key rest
  | (k, _) :: rest =>
    if k = key then none else fromjson_object_at env key rest

end

/-- The function `Form::fromjson` (lines 484-489). -/
def Form.fromjson (env : Env) (data : String) : Except Failure Form :=
  fromjson_part env (env.Parse data)

/-! ## Sample environments -/

/-- Modelled from the spec: `Index::str2form` is defined outside
`Content.cpp`.  The width names are those the schema text uses for the
8/32/64-bit signed and unsigned index buffers; any other text is a schema
validation failure. -/
def str2form_model (s : String) : Except String IndexForm :=
  if s = "i8" then .ok .i8
  else if s = "u8" then .ok .u8
  else if s = "i32" then .ok .i32
  else if s = "u32" then .ok .u32
  else if s = "i64" then .ok .i64
  else .error ("unrecognized Index::Form: " ++ s)

/-- A stand-in for the `rapidjson` writers, enough to tell apart the values
used in the examples below. -/
def writer_model : JSON → String
  | .null => "null"
  | .bool true => "true"
  | .bool false => "false"
  | .str s => "\"" ++ s ++ "\""
  | .double text => text
  | .int _ => "<int>"
  | .arr _ => "<array>"
  | .obj _ => "<object>"

/-- An LP64 target on which the uninitialised locals happen to hold
`false`. -/
def lp64 : Env :=
  ⟨false, str2form_model, writer_model, writer_model, fun _ => JSON.null,
    false, false, false, false⟩

/-- An LLP64 target on which the uninitialised locals happen to hold
`false`. -/
def llp64 : Env :=
  ⟨true, str2form_model, writer_model, writer_model, fun _ => JSON.null,
    false, false, false, false⟩

/-- An LP64 target on which the uninitialised local `is64` happens to hold
`true`. -/
def lp64_dirty : Env :=
  ⟨false, str2form_model, writer_model, writer_model, fun _ => JSON.null,
    false, true, false, false⟩

/-! ## Vocabulary of the statements -/

/-- The accessor `NumpyForm::itemsize()` (line 131); `none` on the other
classes. -/
def Form.itemsize : Form → Option Int
  | .NumpyForm _ _ _ itemsize _ => some itemsize
  | _ => none

/-- The accessor `NumpyForm::format()` (line 130); `none` on the other
classes. -/
def Form.format : Form → Option String
  | .NumpyForm _ _ _ _ format => some format
  | _ => none

/-- The strings lines 40-86 compare a JSON string with. -/
def primitive_names : List String :=
  ["float64", "float32", "int64", "uint64", "int32", "uint32", "int16",
    "uint16", "int8", "uint8", "bool"]

/-- The strings lines 124-457 compare `cls` with. -/
def class_names : List String :=
  ["NumpyArray", "RecordArray",
    "ListOffsetArray", "ListOffsetArray64", "ListOffsetArrayU32",
    "ListOffsetArray32",
    "ListArray", "ListArray64", "ListArrayU32", "ListArray32",
    "RegularArray",
    "IndexedOptionArray", "IndexedOptionArray64", "IndexedOptionArray32",
    "IndexedArray", "IndexedArray64", "IndexedArrayU32", "IndexedArray32",
    "ByteMaskedArray", "BitMaskedArray", "UnmaskedArray",
    "UnionArray", "UnionArray8_64", "UnionArray8_U32", "UnionArray8_32",
    "EmptyArray", "VirtualArray"]

/-- Every exception the computation throws is a `std::invalid_argument`. -/
def only_invalid_argument {α : Type} (r : Except Failure α) : Prop :=
  ∀ e, r = .error e → e.is_invalid_argument = true

/-- The computation throws a `std::invalid_argument`. -/
def throws_invalid_argument {α : Type} (r : Except Failure α) : Prop :=
  ∃ what, r = .error (.invalid_argument what)

/-- The results handed to a class block only throw
`std::invalid_argument`. -/
def child_oia (c : Option (JSON × Except Failure Form)) : Prop :=
  ∀ v r, c = some (v, r) → only_invalid_argument r

/-- The object without its members named `key`. -/
def JSON.remove_member (ms : List (String × JSON)) (key : String) :
    List (String × JSON) :=
  ms.filter (fun m => decide (m.1 ≠ key))

/-- The class names with a width suffix; each with its width keys, in the
order `fromjson_part` reads them, and the width the suffix gives the key
before it is read (lines 183, 212-219, 271, 299, 406, 419). -/
def suffixed_classes : List (String × List (String × IndexForm)) :=
  [("ListOffsetArray64", [("offsets", .i64)]),
    ("ListOffsetArrayU32", [("offsets", .u32)]),
    ("ListOffsetArray32", [("offsets", .i32)]),
    ("ListArray64", [("starts", .i64), ("stops", .i64)]),
    ("ListArrayU32", [("starts", .u32), ("stops", .u32)]),
    ("ListArray32", [("starts", .i32), ("stops", .i32)]),
    ("IndexedOptionArray64", [("index", .i64)]),
    ("IndexedOptionArray32", [("index", .i32)]),
    ("IndexedArray64", [("index", .i64)]),
    ("IndexedArrayU32", [("index", .u32)]),
    ("IndexedArray32", [("index", .i32)]),
    ("UnionArray8_64", [("tags", .i8), ("index", .i64)]),
    ("UnionArray8_U32", [("tags", .i8), ("index", .u32)]),
    ("UnionArray8_32", [("tags", .i8), ("index", .i32)])]

/-- The class names whose width comes from the keys alone: on each of
them the locals `is64`, `isU32`, `is32` were assigned `false` by an earlier
condition, so every width starts as `kNumIndexForm`. -/
def keyed_classes : List (String × List (String × IndexForm)) :=
  [("ListArray", [("starts", .kNumIndexForm), ("stops", .kNumIndexForm)]),
    ("IndexedOptionArray", [("index", .kNumIndexForm)]),
    ("IndexedArray", [("index", .kNumIndexForm)]),
    ("ByteMaskedArray", [("mask", .kNumIndexForm)]),
    ("BitMaskedArray", [("mask", .kNumIndexForm)]),
    ("UnionArray", [("tags", .kNumIndexForm), ("index", .kNumIndexForm)])]

/-- The class names that read a `content` member, each with its width keys
and the width each key starts from.  On `ListOffsetArray` the start is what
the uninitialised locals hold (line 183 reads them unassigned). -/
def content_classes (env : Env) :
    List (String × List (String × IndexForm)) :=
  [("ListOffsetArray", [("offsets", env.flags.width)]),
    ("ListOffsetArray64", [("offsets", .i64)]),
    ("ListOffsetArrayU32", [("offsets", .u32)]),
    ("ListOffsetArray32", [("offsets", .i32)]),
    ("ListArray", [("starts", .kNumIndexForm), ("stops", .kNumIndexForm)]),
    ("ListArray64", [("starts", .i64), ("stops", .i64)]),
    ("ListArrayU32", [("starts", .u32), ("stops", .u32)]),
    ("ListArray32", [("starts", .i32), ("stops", .i32)]),
    ("RegularArray", []),
    ("IndexedOptionArray", [("index", .kNumIndexForm)]),
    ("IndexedOptionArray64", [("index", .i64)]),
    ("IndexedOptionArray32", [("index", .i32)]),
    ("IndexedArray", [("index", .kNumIndexForm)]),
    ("IndexedArray64", [("index", .i64)]),
    ("IndexedArrayU32", [("index", .u32)]),
    ("IndexedArray32", [("index", .i32)]),
    ("ByteMaskedArray", [("mask", .kNumIndexForm)]),
    ("BitMaskedArray", [("mask", .kNumIndexForm)]),
    ("UnmaskedArray", [])]

/-- The width key `key`, read when the width so far is `start`, is
resolved to `w`: a string under `key` that `Index::str2form` turns into `w`
without conflict with `start`, or no string under `key` and `w = start`;
and `w` is a width, not `kNumIndexForm`. -/
def resolves (env : Env) (ms : List (String × JSON)) (key : String)
    (start w : IndexForm) : Prop :=
  w ≠ .kNumIndexForm ∧
  match JSON.string_at ms key with
  | some s => env.str2form s = .ok w ∧ (start = .kNumIndexForm ∨ start = w)
  | none => start = w

/-- The `size` of a `RegularForm` fits a 32-bit signed `int`. -/
def Form.size_fits_int : Form → Prop
  | .RegularForm _ _ _ size => -2147483648 ≤ size ∧ size ≤ 2147483647
  | _ => True

/-- Every value the computation returns satisfies `P`. -/
def all_ok {α : Type} (P : α → Prop) (r : Except Failure α) : Prop :=
  ∀ a, r = .ok a → P a

/-- The Form carries the flag `h` and the parameters `p`, and its `size`,
if it has one, fits an `int`. -/
def header_kept (h : Bool) (p : Parameters) (f : Form) : Prop :=
  f.has_identities = h ∧ f.parameters = p ∧ f.size_fits_int

/-- The keys an object is read at apart from the width keys. -/
def fixed_keys : List String :=
  ["class", "parameters", "has_identities", "content", "form", "contents"]

/-- What a string `s` under the width key `key` does to an object of class
`cls`, when `Index::str2form` turns `s` into `w`, the suffix of `cls` gave
the key the width `start`, and `earlier` are the width keys read before
`key`: a `w` other than `start` makes `fromjson_part` throw a
`std::invalid_argument`, which is `cls + conflicting + s` once the
parameters and `has_identities` are read and the earlier keys agree with
the suffix; a `w` equal to `start` gives what the object without the
member gives. -/
def width_key_outcome (env : Env) (ms : List (String × JSON))
    (cls key conflicting : String) (start : IndexForm)
    (earlier : List (String × IndexForm)) (s : String) (w : IndexForm) :
    Prop :=
  (w ≠ start →
    throws_invalid_argument (fromjson_part env (.obj ms)) ∧
    ∀ p h, fromjson_parameters env ms = .ok p →
      fromjson_has_identities ms = .ok h →
      (∀ kw ∈ earlier, resolves env ms kw.1 kw.2 kw.2) →
      fromjson_part env (.obj ms)
        = .error (.invalid_argument (cls ++ conflicting ++ s))) ∧
  (w = start →
    fromjson_part env (.obj (JSON.remove_member ms key))
      = fromjson_part env (.obj ms))

/-- The outcome of an object of class `cls` that has no `content`: a
`std::invalid_argument`, which names the class and `content` once the
parameters and `has_identities` are read and the width keys `keys` of the
class are resolved. -/
def no_content_outcome (env : Env) (ms : List (String × JSON))
    (cls : String) (keys : List (String × IndexForm)) : Prop :=
  throws_invalid_argument (fromjson_part env (.obj ms)) ∧
  ∀ p h, fromjson_parameters env ms = .ok p →
    fromjson_has_identities ms = .ok h →
    (∀ kw ∈ keys, ∃ w, resolves env ms kw.1 kw.2 w) →
    fromjson_part env (.obj ms)
      = .error (.invalid_argument (cls ++ " is missing its 'content'"))

/-! ## Writing a Form (lines 495-558) -/

/-- The calls `Content.cpp` makes on a `ToJson` builder.  The builder classes
are declared outside the file, so a call is kept as it is made. -/
inductive ToJsonCall where
  | field (x : String)
  | boolean (x : Bool)
  | json (data : String)
  | beginrecord
  | endrecord
  | beginlist
  | endlist
  deriving DecidableEq, Repr

/-- A `ToJson` builder: the calls made on it so far, oldest first. -/
structure ToJson where
  calls : List ToJsonCall
  deriving DecidableEq, Repr

namespace ToJson

/-- The call `builder.field(x)`. -/
def field (builder : ToJson) (x : String) : ToJson :=
  ⟨builder.calls ++ [.field x]⟩

/-- The call `builder.boolean(x)`. -/
def boolean (builder : ToJson) (x : Bool) : ToJson :=
  ⟨builder.calls ++ [.boolean x]⟩

/-- The call `builder.json(data)`. -/
def json (builder : ToJson) (data : String) : ToJson :=
  ⟨builder.calls ++ [.json data]⟩

/-- The call `builder.beginrecord()`. -/
def beginrecord (builder : ToJson) : ToJson :=
  ⟨builder.calls ++ [.beginrecord]⟩

/-- The call `builder.endrecord()`. -/
def endrecord (builder : ToJson) : ToJson :=
  ⟨builder.calls ++ [.endrecord]⟩

end ToJson

/-- The function `Form::identities_tojson` (lines 539-545). -/
def Form.identities_tojson (f : Form) (builder : ToJson) (verbose : Bool) :
    ToJson :=
  if verbose || f.has_identities then
    (builder.field "has_identities").boolean f.has_identities
  else builder

/-- The loop of lines 552-555 over the entries of `parameters_`, in key
order. -/
def Form.parameters_tojson_loop : Parameters → ToJson → ToJson
  | [], builder => builder
  | pair :: rest, builder =>
    Form.parameters_tojson_loop rest ((builder.field pair.1).json pair.2)

/-- The function `Form::parameters_tojson` (lines 547-558). -/
def Form.parameters_tojson (f : Form) (builder : ToJson) (verbose : Bool) :
    ToJson :=
  if verbose || !f.parameters.isEmpty then
    let builder := (builder.field "parameters").beginrecord
    let builder := Form.parameters_tojson_loop f.parameters builder
    builder.endrecord
  else builder

/-- The function `Form::tojson` (lines 500-512).  The virtual `tojson_part`
and the `tostring` of the two string builders are defined outside
`Content.cpp` and are taken as arguments; both builders start with no call
made. -/
def Form.tojson (tojson_part : Form → ToJson → Bool → ToJson)
    (pretty_tostring plain_tostring : ToJson → String)
    (f : Form) (pretty verbose : Bool) : String :=
  if pretty then pretty_tostring (tojson_part f ⟨[]⟩ verbose)
  else plain_tostring (tojson_part f ⟨[]⟩ verbose)

/-- The function `Form::tostring` (lines 495-498). -/
def Form.tostring (tojson_part : Form → ToJson → Bool → ToJson)
    (pretty_tostring plain_tostring : ToJson → String) (f : Form) : String :=
  Form.tojson tojson_part pretty_tostring plain_tostring f true false

/-! ## Nodes and slices -/

/-- Modelled from the spec: the classes `Index8`, `Index32`, `Index64` are
declared outside `Content.cpp`.  An index is a view of `length` integers of
a buffer; it is kept as the list of the integers it views. -/
abbrev Index := List Int

/-- Modelled from the spec: the optional identity handle every node carries,
`none` for `Identities::none()`. -/
abbrev Identities := Option Nat

/-- Modelled from the spec: the classes derived from `SliceItem` are declared
outside `Content.cpp`.  These are the nine kinds the file casts to, each with
the data the file or the spec names; `none` for a bound of a range is
`Slice::none()`.  The last constructor stands for an item of any other
class. -/
inductive SliceItem where
  | SliceAt (at_ : Int)
  | SliceRange (start stop : Option Int) (step : Int)
  | SliceEllipsis
  | SliceNewAxis
  | SliceArray64 (index : Index) (shape strides : List Int) (frombool : Bool)
  | SliceField (key : String)
  | SliceFields (keys : List String)
  | SliceMissing64 (index originalmask : Index) (content : SliceItem)
  | SliceJagged64 (offsets : Index) (content : SliceItem)
  | other (name : String)
  deriving DecidableEq, Repr

/-- Modelled from the spec: a `Slice` is an ordered sequence of slice
items. -/
structure Slice where
  items : List SliceItem
  deriving DecidableEq, Repr

namespace Slice

/-- Modelled from the spec: `Slice::head()`, the first item, null
(`none`) when there is none. -/
def head (s : Slice) : Option SliceItem := s.items.head?

/-- Modelled from the spec: `Slice::tail()`, the items after the first. -/
def tail (s : Slice) : Slice := ⟨s.items.tail⟩

/-- Modelled from the spec: `Slice::length()`, the number of items. -/
def length (s : Slice) : Int := s.items.length

end Slice

/-- Modelled from the spec: the node classes are declared outside
`Content.cpp`.  These are the classes the file constructs or casts to, each
with the arguments of its constructor: in the order the file passes them for
the first five, the key fields of the spec for the three the file only casts
to.  A null `RecordLookupPtr` is `none`.  The last constructor stands for a
node of any other class, kept as its class name, its identities and
parameters, and the rest of its state. -/
inductive Content where
  | RegularArray (identities : Identities) (parameters : Parameters)
      (content : Content) (size : Int)
  | RecordArray (identities : Identities) (parameters : Parameters)
      (contents : List Content) (recordlookup : Option (List String))
  | UnionArray8_64 (identities : Identities) (parameters : Parameters)
      (tags : Index) (index : Index) (contents : List Content)
  | IndexedArray64 (identities : Identities) (parameters : Parameters)
      (index : Index) (content : Content)
  | IndexedOptionArray64 (identities : Identities) (parameters : Parameters)
      (index : Index) (content : Content)
  | IndexedOptionArray32 (identities : Identities) (parameters : Parameters)
      (index : Index) (content : Content)
  | ByteMaskedArray (identities : Identities) (parameters : Parameters)
      (mask : Index) (content : Content) (valid_when : Bool)
  | BitMaskedArray (identities : Identities) (parameters : Parameters)
      (mask : Index) (content : Content) (valid_when : Bool) (length : Int)
      (lsb_order : Bool)
  | other (classname : String) (identities : Identities)
      (parameters : Parameters) (state : List Int)

/-- Modelled from the spec: a `Reducer`, of which `Content.cpp` uses nothing;
it is known by its name. -/
structure Reducer where
  name : String
  deriving DecidableEq, Repr

/-- Everything the `Content` half of `Content.cpp` calls that is defined
outside the file: the virtual methods of the node classes (a call on a node
is resolved by the class of the node, so each takes the node), a method of
`Slice`, a kernel, and the content of fresh memory.

* `length`, `shallow_copy`, `classname`, `tostring`: the virtual methods of
  these names (`tostring` is `tostring_part("", "", "")`, line 578);
* `minmax_depth`, `branch_depth`: what `form(true).get()->minmax_depth()` and
  `form(true).get()->branch_depth()` return, which is what
  `Content::minmax_depth` and `Content::branch_depth` return (lines 644-652);
* `reduce_next`, `getitem_at_nowrap`, `getitem_nothing`, `getitem_field`,
  `getitem_fields`: the virtual methods of these names;
* `getitem_next`: the virtual `getitem_next(head, tail, advanced)`, which a
  class may inherit from `Content` (lines 914-960) or override;
* `getitem_next_SliceAt` to `getitem_next_SliceJagged64`: the virtual
  `getitem_next(item, tail, advanced)` for an item of that class;
* `simplify_optiontype`, `project`, `bytemask`: the methods of these names of
  the option-type classes;
* `dimlength`: the method `Slice::dimlength`;
* `awkward_regulararray_combinations_64 n replacement size length j i`: what
  the kernel of that name leaves in slot `i` of the buffer `tocarry[j]`;
* `fresh_memory i`: what slot `i` of a freshly allocated buffer holds. -/
structure Methods where
  length : Content → Int
  shallow_copy : Content → Content
  classname : Content → String
  tostring : Content → String
  minmax_depth : Content → Int × Int
  branch_depth : Content → Bool × Int
  reduce_next : Content → Reducer → Int → Index → Index → Int → Bool → Bool →
    Except Failure Content
  getitem_at_nowrap : Content → Int → Except Failure Content
  getitem_nothing : Content → Except Failure Content
  getitem_field : Content → String → Except Failure Content
  getitem_fields : Content → List String → Except Failure Content
  getitem_next : Content → Option SliceItem → Slice → Index →
    Except Failure Content
  getitem_next_SliceAt : Content → SliceItem → Slice → Index →
    Except Failure Content
  getitem_next_SliceRange : Content → SliceItem → Slice → Index →
    Except Failure Content
  getitem_next_SliceEllipsis : Content → SliceItem → Slice → Index →
    Except Failure Content
  getitem_next_SliceNewAxis : Content → SliceItem → Slice → Index →
    Except Failure Content
  getitem_next_SliceArray64 : Content → SliceItem → Slice → Index →
    Except Failure Content
  getitem_next_SliceField : Content → SliceItem → Slice → Index →
    Except Failure Content
  getitem_next_SliceFields : Content → SliceItem → Slice → Index →
    Except Failure Content
  getitem_next_SliceMissing64 : Content → SliceItem → Slice → Index →
    Except Failure Content
  getitem_next_SliceJagged64 : Content → SliceItem → Slice → Index →
    Except Failure Content
  simplify_optiontype : Content → Except Failure Content
  project : Content → Except Failure Content
  bytemask : Content → Index
  dimlength : Slice → Int
  awkward_regulararray_combinations_64 : Int → Bool → Int → Int → Nat → Nat →
    Int
  fresh_memory : Nat → Int

/-- The constructor `Index64(length)` (and `Index8(length)`): a view of
`length` slots of fresh memory. -/
def Index.allocate (M : Methods) (length : Int) : Index :=
  (List.range length.toNat).map M.fresh_memory

/-- The call `index.setitem_at_nowrap(at, value)`. -/
def Index.setitem_at_nowrap (index : Index) (at_ : Int) (value : Int) :
    Index :=
  index.set at_.toNat value

/-! ## Kernels -/

/-- A loop `for (i = 0; i < length; i++) toptr[offset + i] = value(i)` over a
buffer. -/
def fill_loop (toptr : Index) (offset length : Int) (value : Nat → Int) :
    Index :=
  (List.range length.toNat).foldl
    (fun buffer i => buffer.set (offset.toNat + i) (value i)) toptr

/-- Modelled from the spec: the kernel
`awkward_content_reduce_zeroparents_64(toparents, length)` is defined outside
`Content.cpp`; it assigns every element to group 0. -/
def awkward_content_reduce_zeroparents_64 (toparents : Index)
    (length : Int) : Index :=
  fill_loop toparents 0 length (fun _ => 0)

/-- Modelled from the spec: the kernel
`awkward_unionarray_filltags_to8_const(totags, totagsoffset, length, base)`
is defined outside `Content.cpp`; it writes `base` in `length` slots from
`totagsoffset` on. -/
def awkward_unionarray_filltags_to8_const (totags : Index)
    (totagsoffset length base : Int) : Index :=
  fill_loop totags totagsoffset length (fun _ => base)

/-- Modelled from the spec: the kernel
`awkward_unionarray_fillindex_to64_count(toindex, toindexoffset, length)` is
defined outside `Content.cpp`; it writes `0, 1, ..., length - 1` in `length`
slots from `toindexoffset` on. -/
def awkward_unionarray_fillindex_to64_count (toindex : Index)
    (toindexoffset length : Int) : Index :=
  fill_loop toindex toindexoffset length (fun i => (i : Int))

/-- Modelled from the spec: the kernel
`awkward_index_rpad_and_clip_axis0_64(toindex, target, length)` is defined
outside `Content.cpp`; slot `i` of the `target` slots refers to element `i`
while there is one and is `-1` after the last. -/
def awkward_index_rpad_and_clip_axis0_64 (toindex : Index)
    (target length : Int) : Index :=
  let shorter := if target < length then target else length
  let toindex := fill_loop toindex 0 shorter (fun i => (i : Int))
  fill_loop toindex shorter (target - shorter) (fun _ => -1)

/-! ## Content (lines 560-1257) -/

/-- The text `std::to_string(n)` of an `int64_t`. -/
def to_string (n : Int) : String := toString n

/-- The axis validation of `Content::reduce` (lines 659-690): the `negaxis`
handed on, or the exception thrown.  The integers are unbounded;
`reduce_negaxis_int64` below is the validation on `int64_t`. -/
def reduce_negaxis (axis : Int) (branchdepth : Bool × Int) :
    Except Failure Int :=
  let negaxis := -axis
  let branch := branchdepth.1
  let depth := branchdepth.2
  if branch then
    if negaxis ≤ 0 then
      .error (.invalid_argument
        ("cannot use non-negative axis on a nested list structure "
        ++ "of variable depth (negative axis counts from the leaves of the tree; "
        ++ "non-negative from the root)"))
    else if negaxis > depth then
      .error (.invalid_argument
        ("cannot use axis=" ++ to_string axis
        ++ (" on a nested list structure that splits into "
            ++ "different depths, the minimum of which is depth=")
        ++ to_string depth ++ " from the leaves"))
    else .ok negaxis
  else
    let negaxis := if negaxis ≤ 0 then negaxis + depth else negaxis
    if ¬ (0 < negaxis ∧ negaxis ≤ depth) then
      .error (.invalid_argument
        ("axis=" ++ to_string axis
        ++ (" exceeds the depth of the nested list structure "
            ++ "(which is ")
        ++ to_string depth ++ ")"))
    else .ok negaxis

/-- The function `Content::reduce` (lines 654-709).  The kernel of line 696
reports no error. -/
def Content.reduce (M : Methods) (c : Content) (reducer : Reducer)
    (axis : Int) (mask keepdims : Bool) : Except Failure Content := do
  let negaxis ← reduce_negaxis axis (M.branch_depth c)
  let starts := Index.setitem_at_nowrap (Index.allocate M 1) 0 0
  let parents := awkward_content_reduce_zeroparents_64
    (Index.allocate M (M.length c)) (M.length c)
  let next ← M.reduce_next c reducer negaxis starts parents 1 mask keepdims
  M.getitem_at_nowrap next 0

/-! ## `Content::reduce` on `int64_t` (lines 654-709)

`reduce_negaxis` and `Content.reduce` above compute on unbounded integers.
Here the arithmetic of lines 659 and 681 is that of `int64_t`: where the
mathematical result is no `int64_t` (signed overflow) C++ defines no
behaviour, and the result is `none`. -/

/-- The least `int64_t`. -/
def INT64_MIN : Int := -9223372036854775808

/-- The greatest `int64_t`. -/
def INT64_MAX : Int := 9223372036854775807

/-- The negation `-axis` of an `int64_t` (line 659), defined for every value
but the least, whose negation is no `int64_t`. -/
def negate_int64 (axis : Int) : Option Int :=
  if axis = INT64_MIN then none else some (-axis)

/-- The sum of two `int64_t` (line 681), defined where it is an `int64_t`. -/
def add_int64 (a b : Int) : Option Int :=
  if INT64_MIN ≤ a + b ∧ a + b ≤ INT64_MAX then some (a + b) else none

/-- The `int64_t` that a two's complement register holds for the integer
`x`. -/
def wrap_int64 (x : Int) : Int :=
  (x - INT64_MIN) % 18446744073709551616 + INT64_MIN

/-- Lines 660-690 of `Content::reduce`, from the `negaxis` that line 659
left: the `negaxis` handed on or the exception thrown, `none` where the sum
of line 681 overflows. -/
def reduce_validate (axis negaxis : Int) (branchdepth : Bool × Int) :
    Option (Except Failure Int) :=
  let branch := branchdepth.1
  let depth := branchdepth.2
  if branch then
    if negaxis ≤ 0 then
      some (.error (.invalid_argument
        ("cannot use non-negative axis on a nested list structure "
        ++ "of variable depth (negative axis counts from the leaves of the tree; "
        ++ "non-negative from the root)")))
    else if negaxis > depth then
      some (.error (.invalid_argument
        ("cannot use axis=" ++ to_string axis
        ++ (" on a nested list structure that splits into "
            ++ "different depths, the minimum of which is depth=")
        ++ to_string depth ++ " from the leaves")))
    else some (.ok negaxis)
  else
    match (if negaxis ≤ 0 then add_int64 negaxis depth else some negaxis) with
    | none => none
    | some negaxis =>
      if ¬ (0 < negaxis ∧ negaxis ≤ depth) then
        some (.error (.invalid_argument
          ("axis=" ++ to_string axis
          ++ (" exceeds the depth of the nested list structure "
              ++ "(which is ")
          ++ to_string depth ++ ")")))
      else some (.ok negaxis)

/-- The axis validation of `Content::reduce` (lines 659-690) on `int64_t`:
the `negaxis` handed on or the exception thrown, `none` where line 659 or
line 681 overflows. -/
def reduce_negaxis_int64 (axis : Int) (branchdepth : Bool × Int) :
    Option (Except Failure Int) :=
  match negate_int64 axis with
  | none => none
  | some negaxis => reduce_validate axis negaxis branchdepth

/-- The function `Content::reduce` (lines 654-709) on `int64_t`: its result
or exception, `none` where line 659 or line 681 overflows.  The kernel of
line 696 reports no error. -/
def Content.reduce_int64 (M : Methods) (c : Content) (reducer : Reducer)
    (axis : Int) (mask keepdims : Bool) : Option (Except Failure Content) :=
  match reduce_negaxis_int64 axis (M.branch_depth c) with
  | none => none
  | some (.error e) => some (.error e)
  | some (.ok negaxis) =>
    let starts := Index.setitem_at_nowrap (Index.allocate M 1) 0 0
    let parents := awkward_content_reduce_zeroparents_64
      (Index.allocate M (M.length c)) (M.length c)
    some (do
      let next ← M.reduce_next c reducer negaxis starts parents 1 mask keepdims
      M.getitem_at_nowrap next 0)

/-! ## Content, continued (lines 766-1257) -/

/-- The function `Content::merge_as_union` (lines 766-804).  The kernels
report no error. -/
def Content.merge_as_union (M : Methods) (c other : Content) : Content :=
  let mylength := M.length c
  let theirlength := M.length other
  let tags := Index.allocate M (mylength + theirlength)
  let index := Index.allocate M (mylength + theirlength)
  let contents := [M.shallow_copy c, other]
  let tags := awkward_unionarray_filltags_to8_const tags 0 mylength 0
  let index := awkward_unionarray_fillindex_to64_count index 0 mylength
  let tags :=
    awkward_unionarray_filltags_to8_const tags mylength theirlength 1
  let index :=
    awkward_unionarray_fillindex_to64_count index mylength theirlength
  .UnionArray8_64 none [] tags index contents

/-- The function `Content::rpad_axis0` (lines 806-823).  The kernel reports
no error. -/
def Content.rpad_axis0 (M : Methods) (c : Content) (target : Int)
    (clip : Bool) : Except Failure Content :=
  if !clip && target < M.length c then .ok (M.shallow_copy c)
  else
    let index := Index.allocate M target
    let index := awkward_index_rpad_and_clip_axis0_64 index target (M.length c)
    let next := Content.IndexedOptionArray64 none [] index (M.shallow_copy c)
    M.simplify_optiontype next

/-- The loop of lines 857-860: `j` runs from 2 to `thisn`, and `/=` on
`int64_t` truncates. -/
def combinationslen_loop (size thisn : Int) (combinationslen : Int) : Int :=
  (List.range (thisn - 1).toNat).foldl
    (fun (combinationslen : Int) (i : Nat) =>
      let j : Int := (i : Int) + 2
      (combinationslen * (size - j + 1)).tdiv j)
    combinationslen

/-- The local `combinationslen` of `Content::combinations_axis0` as lines
844-861 compute it from `size` and `n`.  The integers are unbounded: the
count is the one the code computes as long as no `int64_t` overflows. -/
def combinationslen (size n : Int) : Int :=
  let thisn := n
  if thisn > size then 0
  else if thisn = size then 1
  else
    let thisn := if thisn * 2 > size then size - thisn else thisn
    combinationslen_loop size thisn size

/-- The function `Content::combinations_axis0` (lines 835-891).  The kernel
reports no error; `Index64(ptr, 0, combinationslen)` views the whole of a
buffer of `combinationslen` slots. -/
def Content.combinations_axis0 (M : Methods) (c : Content) (n : Int)
    (replacement : Bool) (recordlookup : Option (List String))
    (parameters : Parameters) : Content :=
  let size := M.length c
  let size := if replacement then size + (n - 1) else size
  let combinationslen := combinationslen size n
  let tocarry : List Index := (List.range n.toNat).map (fun j =>
    (List.range combinationslen.toNat).map
      (M.awkward_regulararray_combinations_64 n replacement (M.length c) 1 j))
  let contents := tocarry.map (fun ptr =>
    Content.IndexedArray64 none [] ptr (M.shallow_copy c))
  .RecordArray none parameters contents recordlookup

/-- The function `Content::getitem` (lines 893-912). -/
def Content.getitem (M : Methods) (c : Content) (where_ : Slice) :
    Except Failure Content := do
  let next := Content.RegularArray none [] (M.shallow_copy c) (M.length c)
  let nexthead := where_.head
  let nexttail := where_.tail
  let nextadvanced := Index.allocate M 0
  let out ← M.getitem_next next nexthead nexttail nextadvanced
  if M.length out = 0 then M.getitem_nothing out
  else M.getitem_at_nowrap out 0

/-- The function `Content::getitem_next(head, tail, advanced)` (lines
914-960): every call it makes is a virtual call on the node. -/
def Content.getitem_next (M : Methods) (c : Content)
    (head : Option SliceItem) (tail : Slice) (advanced : Index) :
    Except Failure Content :=
  match head with
  | none => .ok (M.shallow_copy c)
  | some (.SliceAt x) => M.getitem_next_SliceAt c (.SliceAt x) tail advanced
  | some (.SliceRange a b s) =>
    M.getitem_next_SliceRange c (.SliceRange a b s) tail advanced
  | some .SliceEllipsis =>
    M.getitem_next_SliceEllipsis c .SliceEllipsis tail advanced
  | some .SliceNewAxis =>
    M.getitem_next_SliceNewAxis c .SliceNewAxis tail advanced
  | some (.SliceArray64 i sh st b) =>
    M.getitem_next_SliceArray64 c (.SliceArray64 i sh st b) tail advanced
  | some (.SliceField k) =>
    M.getitem_next_SliceField c (.SliceField k) tail advanced
  | some (.SliceFields ks) =>
    M.getitem_next_SliceFields c (.SliceFields ks) tail advanced
  | some (.SliceMissing64 i m x) =>
    M.getitem_next_SliceMissing64 c (.SliceMissing64 i m x) tail advanced
  | some (.SliceJagged64 o x) =>
    M.getitem_next_SliceJagged64 c (.SliceJagged64 o x) tail advanced
  | some (.other _) => .error (.runtime_error "unrecognized slice type")

/-- The function `Content::getitem_next(ellipsis, tail, advanced)` (lines
985-1016). -/
def Content.getitem_next_SliceEllipsis (M : Methods) (c : Content)
    (tail : Slice) (advanced : Index) : Except Failure Content :=
  let minmax := M.minmax_depth c
  let mindepth := minmax.1
  let maxdepth := minmax.2
  if tail.length = 0 ∨
      (mindepth - 1 = M.dimlength tail ∧ maxdepth - 1 = M.dimlength tail) then
    let nexthead := tail.head
    let nexttail := tail.tail
    M.getitem_next c nexthead nexttail advanced
  else if mindepth - 1 = M.dimlength tail ∨
      maxdepth - 1 = M.dimlength tail then
    .error (.invalid_argument
      ("ellipsis (...) can't be used on a data structure of "
      ++ "different depths"))
  else
    let tailitems := tail.items
    let items := [SliceItem.SliceEllipsis] ++ tailitems
    let nexthead := SliceItem.SliceRange none none 1
    let nexttail : Slice := ⟨items⟩
    M.getitem_next c (some nexthead) nexttail advanced

/-! ## A small model of the node classes

The examples run on this model: trees of `RegularArray` nodes over a leaf,
and unions of them. -/

/-- Modelled from the spec: the number of list levels of a tree of
`RegularArray` nodes over a leaf. -/
def model_depth : Content → Nat
  | .RegularArray _ _ content _ => model_depth content + 1
  | _ => 1

/-- Modelled from the spec: the virtual `length()`.  A `RegularArray` has as
many rows of `size` elements as its content holds, an indexed, option or
union node one element per slot of its index, mask or tags, a leaf one per
integer of its state; a record is not modelled. -/
def model_length : Content → Int
  | .RegularArray _ _ content size =>
    if size = 0 then 0 else (model_length content).tdiv size
  | .RecordArray _ _ _ _ => 0
  | .UnionArray8_64 _ _ tags _ _ => tags.length
  | .IndexedArray64 _ _ index _ => index.length
  | .IndexedOptionArray64 _ _ index _ => index.length
  | .IndexedOptionArray32 _ _ index _ => index.length
  | .ByteMaskedArray _ _ mask _ _ => mask.length
  | .BitMaskedArray _ _ _ _ _ length _ => length
  | .other _ _ _ state => state.length

mutual

/-- Modelled from the spec: `minmax_depth()`, the least and the greatest
number of list levels down to a leaf. -/
def model_minmax_depth : Content → Int × Int
  | .RegularArray _ _ content _ =>
    ((model_minmax_depth content).1 + 1, (model_minmax_depth content).2 + 1)
  | .RecordArray _ _ contents _ => model_minmax_depth_list contents
  | .UnionArray8_64 _ _ _ _ contents => model_minmax_depth_list contents
  | .IndexedArray64 _ _ _ content => model_minmax_depth content
  | .IndexedOptionArray64 _ _ _ content => model_minmax_depth content
  | .IndexedOptionArray32 _ _ _ content => model_minmax_depth content
  | .ByteMaskedArray _ _ _ content _ => model_minmax_depth content
  | .BitMaskedArray _ _ _ content _ _ _ => model_minmax_depth content
  | .other _ _ _ _ => (1, 1)

/-- Modelled from the spec: the least and the greatest depth over the
branches of a node. -/
def model_minmax_depth_list : List Content → Int × Int
  | [] => (1, 1)
  | [content] => model_minmax_depth content
  | content :: rest =>
    (min (model_minmax_depth content).1 (model_minmax_depth_list rest).1,
     max (model_minmax_depth content).2 (model_minmax_depth_list rest).2)

end

/-- Modelled from the spec: the virtual `getitem_range_nowrap(start, stop)`
on a tree of `RegularArray` nodes over a leaf. -/
def model_getitem_range_nowrap : Content → Int → Int → Except Failure Content
  | .RegularArray identities parameters content size, start, stop =>
    (model_getitem_range_nowrap content (start * size) (stop * size)).map
      fun next => .RegularArray identities parameters next size
  | .other classname identities parameters state, start, stop =>
    .ok (.other classname identities parameters
      ((state.drop start.toNat).take (stop - start).toNat))
  | _, _, _ => .error (.runtime_error "not modelled")

/-- Modelled from the spec: `Slice::dimlength()`, one dimension per
position, range or array. -/
def model_dimlength (s : Slice) : Int :=
  (s.items.filter fun item =>
    match item with
    | .SliceAt _ => true
    | .SliceRange _ _ _ => true
    | .SliceArray64 _ _ _ _ => true
    | _ => false).length

/-- The length of a slice together with its head. -/
def model_slice_size (head : Option SliceItem) (tail : Slice) : Nat :=
  (if head.isSome then 1 else 0) + tail.items.length

/-- Modelled from the spec: the virtual `getitem_next(head, tail, advanced)`
with its handlers, on a tree of `RegularArray` nodes over a leaf: a position
on the innermost level, a full range on any level, an ellipsis anywhere. -/
def model_getitem_next (c : Content) (head : Option SliceItem) (tail : Slice)
    (advanced : Index) : Except Failure Content :=
  match head with
  | none => .ok c
  | some (.SliceAt x) =>
    match c with
    | .RegularArray _ _ (.other classname identities parameters state) size =>
      if 0 ≤ x ∧ x < size then
        model_getitem_next
          (.other classname identities parameters
            ((List.range (state.length / size.toNat)).map fun row =>
              state.getD (row * size.toNat + x.toNat) 0))
          tail.head tail.tail advanced
      else .error (.invalid_argument "index out of range")
    | _ => .error (.runtime_error "not modelled")
  | some (.SliceRange none none 1) =>
    match c with
    | .RegularArray _ _ content size =>
      (model_getitem_next content tail.head tail.tail advanced).map
        fun next => .RegularArray none [] next size
    | _ => .error (.runtime_error "not modelled")
  | some .SliceEllipsis =>
    if tail.length = 0 ∨
        ((model_minmax_depth c).1 - 1 = model_dimlength tail ∧
         (model_minmax_depth c).2 - 1 = model_dimlength tail) then
      model_getitem_next c tail.head tail.tail advanced
    else if (model_minmax_depth c).1 - 1 = model_dimlength tail ∨
        (model_minmax_depth c).2 - 1 = model_dimlength tail then
      .error (.invalid_argument
        "ellipsis (...) can't be used on a data structure of different depths")
    else
      match c with
      | .RegularArray _ _ content size =>
        (model_getitem_next content (some .SliceEllipsis) tail advanced).map
          fun next => .RegularArray none [] next size
      | _ => .error (.runtime_error "not modelled")
  | some (.other _) => .error (.runtime_error "unrecognized slice type")
  | some _ => .error (.runtime_error "not modelled")
termination_by (model_depth c, model_slice_size head tail)
decreasing_by
  all_goals simp_wf
  · apply Prod.Lex.left
    simp [model_depth]
  · apply Prod.Lex.left
    simp [model_depth]
  · apply Prod.Lex.right
    cases tail with
    | mk items =>
      cases items <;> simp [model_slice_size, Slice.head, Slice.tail]
  · apply Prod.Lex.left
    simp [model_depth]

/-- Modelled from the spec: the virtual `classname()`. -/
def model_classname : Content → String
  | .RegularArray _ _ _ _ => "RegularArray"
  | .RecordArray _ _ _ _ => "RecordArray"
  | .UnionArray8_64 _ _ _ _ _ => "UnionArray8_64"
  | .IndexedArray64 _ _ _ _ => "IndexedArray64"
  | .IndexedOptionArray64 _ _ _ _ => "IndexedOptionArray64"
  | .IndexedOptionArray32 _ _ _ _ => "IndexedOptionArray32"
  | .ByteMaskedArray _ _ _ _ _ => "ByteMaskedArray"
  | .BitMaskedArray _ _ _ _ _ _ _ => "BitMaskedArray"
  | .other classname _ _ _ => classname

/-- Modelled from the spec: the virtual `getitem_at_nowrap(i)`.  Row `i` of a
`RegularArray` is the rows `i * size` to `(i + 1) * size` of its content. -/
def model_getitem_at_nowrap : Content → Int → Except Failure Content
  | .RegularArray _ _ content size, i =>
    model_getitem_range_nowrap content (i * size) ((i + 1) * size)
  | .other classname identities parameters state, i =>
    .ok (.other classname identities parameters
      ((state.drop i.toNat).take 1))
  | _, _ => .error (.runtime_error "not modelled")

/-- Modelled from the spec: the virtual `getitem_nothing()`.  The empty
selection of a `RegularArray` is no row of its content. -/
def model_getitem_nothing : Content → Except Failure Content
  | .RegularArray _ _ content _ => model_getitem_range_nowrap content 0 0
  | _ => .error (.runtime_error "not modelled")

/-- Modelled from the spec: `simplify_optiontype()`.  An option-type node
over a content that is not itself of option or indexed type is already
simple. -/
def model_simplify_optiontype : Content → Except Failure Content
  | .IndexedOptionArray64 identities parameters index
      (.RegularArray i p content size) =>
    .ok (.IndexedOptionArray64 identities parameters index
      (.RegularArray i p content size))
  | .IndexedOptionArray64 identities parameters index
      (.other classname i p state) =>
    .ok (.IndexedOptionArray64 identities parameters index
      (.other classname i p state))
  | _ => .error (.runtime_error "not modelled")

/-- Modelled from the spec: a small model of the node classes, for trees of
`RegularArray` nodes over a leaf: a reduction answers with a one-element node that records the reducer
and the `negaxis` it was given, a tree branches when its leaves lie at
different depths, fresh memory holds `-7`. -/
def model : Methods :=
  ⟨model_length, fun c => c, model_classname, model_classname,
    model_minmax_depth,
    fun c => (decide ((model_minmax_depth c).1 ≠ (model_minmax_depth c).2),
      (model_minmax_depth c).1),
    fun _ reducer negaxis _ _ _ _ _ =>
      .ok (.other reducer.name none [] [negaxis]),
    model_getitem_at_nowrap, model_getitem_nothing,
    fun _ _ => .error (.runtime_error "not modelled"),
    fun _ _ => .error (.runtime_error "not modelled"),
    model_getitem_next,
    fun c item => model_getitem_next c (some item),
    fun c item => model_getitem_next c (some item),
    fun c item => model_getitem_next c (some item),
    fun c item => model_getitem_next c (some item),
    fun c item => model_getitem_next c (some item),
    fun c item => model_getitem_next c (some item),
    fun c item => model_getitem_next c (some item),
    fun c item => model_getitem_next c (some item),
    fun c item => model_getitem_next c (some item),
    model_simplify_optiontype,
    fun _ => .error (.runtime_error "not modelled"),
    fun _ => [],
    model_dimlength,
    fun _ _ _ _ _ _ => 0,
    fun _ => -7⟩

/-- The numbers 1 to 6 in a leaf. -/
def six : Content := .other "NumpyArray" none [] [1, 2, 3, 4, 5, 6]

/-- The rows `[1, 2, 3]` and `[4, 5, 6]`. -/
def two_by_three : Content := .RegularArray none [] six 3

/-- A union of a branch of depth 2 and a branch of depth 3. -/
def two_and_three : Content :=
  .UnionArray8_64 none [] [0, 1] [0, 0]
    [two_by_three, .RegularArray none [] two_by_three 2]

/-- The numbers 1 to 5 in a leaf. -/
def five : Content := .other "NumpyArray" none [] [1, 2, 3, 4, 5]

/-- The numbers 1 to 3 in a leaf. -/
def three : Content := .other "NumpyArray" none [] [1, 2, 3]

/-- The numbers 1 to 4 in a leaf. -/
def four : Content := .other "NumpyArray" none [] [1, 2, 3, 4]

/-- The numbers 1 to 8 in a leaf. -/
def eight : Content := .other "NumpyArray" none [] [1, 2, 3, 4, 5, 6, 7, 8]

/-- A leaf with no element. -/
def empty_leaf : Content := .other "NumpyArray" none [] []

/-- A class that reports the slice its `getitem_next(head, tail, advanced)`
is given instead of slicing: 1 for a head or 0 for a null head, then the
length of the tail. -/
def reporting : Methods :=
  ⟨model.length, model.shallow_copy, model.classname, model.tostring,
    model.minmax_depth, model.branch_depth, model.reduce_next,
    model.getitem_at_nowrap, model.getitem_nothing, model.getitem_field,
    model.getitem_fields,
    fun _ head tail _ =>
      .ok (.other "getitem_next" none []
        [if head.isSome then 1 else 0, tail.length]),
    model.getitem_next_SliceAt, model.getitem_next_SliceRange,
    model.getitem_next_SliceEllipsis, model.getitem_next_SliceNewAxis,
    model.getitem_next_SliceArray64, model.getitem_next_SliceField,
    model.getitem_next_SliceFields, model.getitem_next_SliceMissing64,
    model.getitem_next_SliceJagged64, model.simplify_optiontype,
    model.project, model.bytemask, model.dimlength,
    model.awkward_regulararray_combinations_64, model.fresh_memory⟩

/-- Modelled from the spec: a class that does not override the virtual
`getitem_next(head, tail, advanced)` answers as `Content` does (lines
914-960). -/
def inherits_getitem_next (M : Methods) (c : Content) : Prop :=
  ∀ head tail advanced,
    M.getitem_next c head tail advanced
      = Content.getitem_next M c head tail advanced

/-- Modelled from the spec: a class that does not override the virtual
`getitem_next(ellipsis, tail, advanced)` answers as `Content` does (lines
985-1016). -/
def inherits_getitem_next_SliceEllipsis (M : Methods) (c : Content) : Prop :=
  ∀ tail advanced,
    M.getitem_next_SliceEllipsis c .SliceEllipsis tail advanced
      = Content.getitem_next_SliceEllipsis M c tail advanced

/-- Modelled from the spec: unwrapping the wrapper `w` gives the node `c`:
row 0 of the wrapper when the wrapper has a row, its empty selection when it
has none. -/
def unwraps_to (M : Methods) (w c : Content) : Prop :=
  (M.length w ≠ 0 → M.getitem_at_nowrap w 0 = .ok c) ∧
  (M.length w = 0 → M.getitem_nothing w = .ok c)

/-- Modelled from the spec: a tree of uniform depth on which slicing goes
level by level.  The node has the same least and greatest depth, its class
inherits the two `getitem_next` of `Content.cpp` used here, and, when it is
not a leaf level, its handler of a full range slices a content one level
down with the rest of the slice and wraps what comes back. -/
def uniform_depth (M : Methods) : Nat → Content → Prop
  | 0, _ => False
  | d + 1, c =>
    M.minmax_depth c = (((d + 1 : Nat) : Int), ((d + 1 : Nat) : Int)) ∧
    inherits_getitem_next M c ∧
    inherits_getitem_next_SliceEllipsis M c ∧
    (1 ≤ d → ∀ advanced, ∃ (content : Content) (nextadvanced : Index)
        (wrap : Content → Except Failure Content),
      uniform_depth M d content ∧
      ∀ tail, M.getitem_next_SliceRange c (.SliceRange none none 1) tail
          advanced
        = M.getitem_next content tail.head tail.tail nextadvanced >>= wrap)

/-! ## Slicing with missing values (lines 1053-1213) -/

/-- The field `parameters_` of `Content`, which `Content::parameters()`
returns (lines 711-714). -/
def Content.parameters : Content → Parameters
  | .RegularArray _ p _ _ => p
  | .RecordArray _ p _ _ => p
  | .UnionArray8_64 _ p _ _ _ => p
  | .IndexedArray64 _ p _ _ => p
  | .IndexedOptionArray64 _ p _ _ => p
  | .IndexedOptionArray32 _ p _ _ => p
  | .ByteMaskedArray _ p _ _ _ => p
  | .BitMaskedArray _ p _ _ _ _ _ => p
  | .other _ _ p _ => p

/-- The two kernels of the handler of `SliceMissing64`, defined outside
`Content.cpp`; neither reports an error.

* `awkward_missing_repeat_64 index repetitions regularsize i`: what the kernel
  called on the index `index` with `repetitions` and `regularsize` leaves in
  slot `i` of `outindex`;
* `awkward_slicemissing_check_same bytemask missingindex length`: the flag
  `same` the kernel sets for these two indexes and this length. -/
structure Kernels where
  awkward_missing_repeat_64 : Index → Int → Int → Nat → Int
  awkward_slicemissing_check_same : Index → Index → Int → Bool

/-- The cast `dynamic_cast<SliceJagged64*>(item)` is not null. -/
def SliceItem.is_SliceJagged64 : SliceItem → Bool
  | .SliceJagged64 _ _ => true
  | _ => false

/-- The function `getitem_next_regular_missing` (lines 1053-1079), for the
index `index` of `missing`, the content and size of the `RegularArray`
`raw`, and `length`.  Its arguments `tail`, `advanced` and `classname` play no
part in the result.  `Index64 outindex(index.length()*length)` is left as the
kernel fills it. -/
def getitem_next_regular_missing (M : Methods) (K : Kernels) (index : Index)
    (raw_content : Content) (raw_size : Int) (length : Int) :
    Except Failure Content := do
  let outindex : Index :=
    (List.range ((index.length : Int) * length).toNat).map
      (K.awkward_missing_repeat_64 index length raw_size)
  let out := Content.IndexedOptionArray64 none [] outindex raw_content
  let simplified ← M.simplify_optiontype out
  pure (.RegularArray none [] simplified index.length)

/-- The function `check_missing_jagged_same` (lines 1081-1100), for the index
`index` of `missing`, whose `length()` is the length of that index (modelled
from the spec: `SliceMissing64` is declared outside `Content.cpp`). -/
def check_missing_jagged_same (K : Kernels) (bytemask : Index)
    (index : Index) : Bool :=
  if (bytemask.length : Int) ≠ (index.length : Int) then false
  else
    let missingindex := index
    K.awkward_slicemissing_check_same bytemask missingindex bytemask.length

/-- The body shared by the four branches of lines 1119-1146 and the test of
line 1148, for `tmp1` of one of the four option-type classes: `tmp2` is
`project()` of `tmp1`, read before the masks are compared. -/
def check_missing_jagged_option (M : Methods) (K : Kernels) (that : Content)
    (index : Index) (rawtmp1 : Content) : Except Failure Content := do
  let tmp2 ← M.project rawtmp1
  if !check_missing_jagged_same K (M.bytemask rawtmp1) index then
    pure that
  else
    pure (.RegularArray none that.parameters tmp2 (M.length tmp2))

/-- The function `check_missing_jagged` (lines 1102-1156), for the index and
the content of `missing`. -/
def check_missing_jagged (M : Methods) (K : Kernels) (that : Content)
    (index : Index) (content : SliceItem) : Except Failure Content :=
  if M.length that = 1 ∧ content.is_SliceJagged64 = true then do
    let tmp1 ← M.getitem_at_nowrap that 0
    match tmp1 with
    | .IndexedOptionArray32 i p x c =>
      check_missing_jagged_option M K that index
        (.IndexedOptionArray32 i p x c)
    | .IndexedOptionArray64 i p x c =>
      check_missing_jagged_option M K that index
        (.IndexedOptionArray64 i p x c)
    | .ByteMaskedArray i p m c v =>
      check_missing_jagged_option M K that index
        (.ByteMaskedArray i p m c v)
    | .BitMaskedArray i p m c v n l =>
      check_missing_jagged_option M K that index
        (.BitMaskedArray i p m c v n l)
    | _ => pure that
  else pure that

/-- The loop of lines 1186-1201 over the contents of a `RecordArray`. -/
def getitem_next_missing_loop (M : Methods) (K : Kernels) (index : Index)
    (length : Int) : List Content → Except Failure (List Content)
  | [] => .ok []
  | .RegularArray _ _ raw_content raw_size :: rest => do
    let content ←
      getitem_next_regular_missing M K index raw_content raw_size length
    let contents ← getitem_next_missing_loop M K index length rest
    pure (content :: contents)
  | content :: _ =>
    .error (.runtime_error
      ("FIXME: unhandled case of SliceMissing with "
      ++ "RecordArray containing\n"
      ++ M.tostring content))

/-- Lines 1172-1212 of `Content::getitem_next(missing, tail, advanced)`: the
result for the node `next`, by its class; `numfields()` of a `RecordArray` is
the number of its contents, and `length` is `length()` of the sliced node. -/
def getitem_next_missing_result (M : Methods) (K : Kernels) (index : Index)
    (length : Int) : Content → Except Failure Content
  | .RegularArray _ _ raw_content raw_size =>
    getitem_next_regular_missing M K index raw_content raw_size length
  | .RecordArray i p rec_contents recordlookup =>
    if (rec_contents.length : Int) = 0 then
      pure (.RecordArray i p rec_contents recordlookup)
    else do
      let contents ←
        getitem_next_missing_loop M K index length rec_contents
      pure (.RecordArray none [] contents recordlookup)
  | next =>
    .error (.runtime_error
      ("FIXME: unhandled case of SliceMissing with\n"
      ++ M.tostring next))

/-- The function `Content::getitem_next(missing, tail, advanced)` (lines
1158-1213), for a `missing` of index `index` and content `content`. -/
def Content.getitem_next_SliceMissing64 (M : Methods) (K : Kernels)
    (c : Content) (index : Index) (content : SliceItem) (tail : Slice)
    (advanced : Index) : Except Failure Content :=
  if (advanced.length : Int) ≠ 0 then
    .error (.invalid_argument
      ("cannot mix missing values in slice "
      ++ "with NumPy-style advanced indexing"))
  else do
    let tmp ← check_missing_jagged M K (M.shallow_copy c) index content
    let next ← M.getitem_next tmp (some content) tail advanced
    getitem_next_missing_result M K index (M.length c) next

/-! ## The other handlers of `Content.cpp` -/

/-- The function `Content::getitem_next(newaxis, tail, advanced)` (lines
1018-1029). -/
def Content.getitem_next_SliceNewAxis (M : Methods) (c : Content)
    (tail : Slice) (advanced : Index) : Except Failure Content := do
  let nexthead := tail.head
  let nexttail := tail.tail
  let content ← M.getitem_next c nexthead nexttail advanced
  pure (.RegularArray none [] content 1)

/-- The function `Content::axis_wrap_if_negative` (lines 1215-1221). -/
def Content.axis_wrap_if_negative (axis : Int) : Except Failure Int :=
  if axis < 0 then
    .error (.runtime_error "FIXME: negative axis not implemented yet")
  else .ok axis

/-- A stand-in for the two kernels, enough to run the examples: the index is
repeated once per row, a position `base ≥ 0` of row `i` moved on by
`i * regularsize`; the masks are the same when every byte is set exactly
where the index is negative. -/
def kernels_model : Kernels :=
  ⟨fun index _ regularsize i =>
      let base := index.getD (i % index.length) 0
      if base ≥ 0 then base + ((i / index.length : Nat) : Int) * regularsize
      else base,
    fun bytemask missingindex length =>
      (List.range length.toNat).all fun i =>
        decide ((bytemask.getD i 0 ≠ 0) ↔ (missingindex.getD i 0 < 0))⟩

/-- The cast `dynamic_cast<RegularArray*>(node)` is not null. -/
def Content.is_RegularArray : Content → Bool
  | .RegularArray _ _ _ _ => true
  | _ => false

/-- The cast `dynamic_cast<RecordArray*>(node)` is not null. -/
def Content.is_RecordArray : Content → Bool
  | .RecordArray _ _ _ _ => true
  | _ => false

/-- One of the four casts of lines 1119-1141 is not null: the node is an
`IndexedOptionArray32`, an `IndexedOptionArray64`, a `ByteMaskedArray` or a
`BitMaskedArray`. -/
def Content.is_optiontype : Content → Bool
  | .IndexedOptionArray32 _ _ _ _ => true
  | .IndexedOptionArray64 _ _ _ _ => true
  | .ByteMaskedArray _ _ _ _ _ => true
  | .BitMaskedArray _ _ _ _ _ _ _ => true
  | _ => false

/-- The field `out` of the `RecordArray` the handler builds is the
missing-repeat transform of the field `content`, a `RegularArray`. -/
def missing_repeat_of (M : Methods) (K : Kernels) (index : Index)
    (length : Int) (content out : Content) : Prop :=
  ∃ i p raw_content raw_size,
    content = .RegularArray i p raw_content raw_size ∧
    getitem_next_regular_missing M K index raw_content raw_size length
      = .ok out

/-- Modelled from the spec: the small model with option-type rows.  Row `i`
of a `RegularArray` over an `IndexedOptionArray64` is its slots `i * size` to
`(i + 1) * size`; the byte mask of an `IndexedOptionArray64` is 1 where its
index is negative; its projection keeps the elements of a leaf that the
non-negative slots refer to. -/
def option_model : Methods :=
  ⟨model.length, model.shallow_copy, model.classname, model.tostring,
    model.minmax_depth, model.branch_depth, model.reduce_next,
    fun c i =>
      match c with
      | .RegularArray _ _ (.IndexedOptionArray64 identities p index content)
          size =>
        .ok (.IndexedOptionArray64 identities p
          ((index.drop (i * size).toNat).take size.toNat) content)
      | c => model.getitem_at_nowrap c i,
    model.getitem_nothing, model.getitem_field, model.getitem_fields,
    model.getitem_next,
    model.getitem_next_SliceAt, model.getitem_next_SliceRange,
    model.getitem_next_SliceEllipsis, model.getitem_next_SliceNewAxis,
    model.getitem_next_SliceArray64, model.getitem_next_SliceField,
    model.getitem_next_SliceFields, model.getitem_next_SliceMissing64,
    model.getitem_next_SliceJagged64, model.simplify_optiontype,
    fun c =>
      match c with
      | .IndexedOptionArray64 _ _ index (.other classname identities p state) =>
        .ok (.other classname identities p
          ((index.filter fun i => decide (0 ≤ i)).map fun i =>
            state.getD i.toNat 0))
      | _ => .error (.runtime_error "not modelled"),
    fun c =>
      match c with
      | .IndexedOptionArray64 _ _ index _ =>
        index.map fun i => if i < 0 then 1 else 0
      | _ => [],
    model.dimlength,
    model.awkward_regulararray_combinations_64, model.fresh_memory⟩

/-- One row of three optional numbers, `1`, missing, `2`, with a
parameter. -/
def one_optional_row : Content :=
  .RegularArray none [("k", "1")]
    (.IndexedOptionArray64 none [] [0, -1, 1] three) 3

/-- Lines 142-153: the inner shape `s` of a `NumpyArray` object. -/
def inner_shape (ms : List (String × JSON)) : Except Failure (List Int) :=
  match JSON.member ms "inner_shape" with
  | some (.arr items) => inner_shape_loop items
  | _ => .ok []

/-- The integer fits the `int` that `IsInt()` of rapidjson tests for. -/
def fits_int (n : Int) : Prop := -2147483648 ≤ n ∧ n ≤ 2147483647

/-! ## The parameters of a node (lines 711-738) -/

/-- The function `Content::setparameters` (lines 716-719): the node with its
field `parameters_` assigned. -/
def Content.setparameters : Content → Parameters → Content
  | .RegularArray i _ c s, p => .RegularArray i p c s
  | .RecordArray i _ cs l, p => .RecordArray i p cs l
  | .UnionArray8_64 i _ t x cs, p => .UnionArray8_64 i p t x cs
  | .IndexedArray64 i _ x c, p => .IndexedArray64 i p x c
  | .IndexedOptionArray64 i _ x c, p => .IndexedOptionArray64 i p x c
  | .IndexedOptionArray32 i _ x c, p => .IndexedOptionArray32 i p x c
  | .ByteMaskedArray i _ m c v, p => .ByteMaskedArray i p m c v
  | .BitMaskedArray i _ m c v n l, p => .BitMaskedArray i p m c v n l
  | .other cls i _ state, p => .other cls i p state

/-- The function `Content::parameter` (lines 721-728). -/
def Content.parameter (c : Content) (key : String) : String :=
  match c.parameters.find key with
  | none => "null"
  | some value => value

/-- The function `Content::setparameter` (lines 730-738): the node after the
call. -/
def Content.setparameter (c : Content) (key value : String) : Content :=
  if value = "null" then c.setparameters (c.parameters.erase key)
  else c.setparameters (c.parameters.assign key value)

/-- The entries of a `std::map`: no key twice. -/
def Parameters.is_map (p : Parameters) : Prop := (p.map Prod.fst).Nodup

/-- A leaf with the parameters `a` and `c`. -/
def leaf_with_parameters : Content :=
  .other "NumpyArray" none [("a", "1"), ("c", "\"x\"")] [1, 2, 3]

/-- Modelled from the spec: the lengths after `rpad_axis0`, whose parts are
methods defined outside `Content.cpp`.  The shallow copy of the node has the
length of the node, and what `simplify_optiontype` returns for an
`IndexedOptionArray64` has one element per slot of its index. -/
def padding_keeps_lengths (M : Methods) (c : Content) : Prop :=
  M.length (M.shallow_copy c) = M.length c ∧
  ∀ index content r,
    M.simplify_optiontype (.IndexedOptionArray64 none [] index content)
      = .ok r →
    M.length r = index.length

/-! # Theorems -/

/-! ## Members of an object -/

theorem fromjson_at_eq (env : Env) (key : String) :
    ∀ ms, fromjson_at env key ms
      = (JSON.member ms key).map (fun v => (v, fromjson_part env v))
  | [] => by simp [fromjson_at, JSON.member]
  | (k, v) :: rest => by
    by_cases hk : k = key
    · simp [fromjson_at, JSON.member, hk]
    · simp [fromjson_at, JSON.member, hk, fromjson_at_eq env key rest]

theorem fromjson_array_at_eq (env : Env) (key : String) :
    ∀ ms, fromjson_array_at env key ms
      = (match JSON.member ms key with
         | some (.arr items) => some (fromjson_array env items)
         | _ => none)
  | [] => by simp [fromjson_array_at, JSON.member]
  | (k, v) :: rest => by
    by_cases hk : k = key
    · cases v <;> simp [fromjson_array_at, JSON.member, hk]
    · cases v <;>
        simp [fromjson_array_at, JSON.member, hk, fromjson_array_at_eq env key rest]

theorem fromjson_object_at_eq (env : Env) (key : String) :
    ∀ ms, fromjson_object_at env key ms
      = (match JSON.member ms key with
         | some (.obj pairs) =>
           some (pairs.map Prod.fst, fromjson_values env pairs)
         | _ => none)
  | [] => by simp [fromjson_object_at, JSON.member]
  | (k, v) :: rest => by
    by_cases hk : k = key
    · cases v <;> simp [fromjson_object_at, JSON.member, hk]
    · cases v <;>
        simp [fromjson_object_at, JSON.member, hk, fromjson_object_at_eq env key rest]

theorem fromjson_array_ok_iff (env : Env) :
    ∀ (items : List JSON) (forms : List Form),
      fromjson_array env items = .ok forms
        ↔ List.Forall₂ (fun j f => fromjson_part env j = .ok f) items forms
  | [], forms => by
    cases forms <;> simp [fromjson_array]
  | x :: rest, forms => by
    cases hx : fromjson_part env x with
    | error e =>
      simp [fromjson_array, hx, bind, Except.bind]
      intro h
      cases h with
      | cons h1 _ => simp [hx] at h1
    | ok f =>
      cases hr : fromjson_array env rest with
      | error e =>
        simp [fromjson_array, hx, hr, bind, Except.bind]
        intro h
        cases h with
        | cons _ h2 =>
          rw [← fromjson_array_ok_iff env rest] at h2
          simp [hr] at h2
      | ok fs =>
        simp [fromjson_array, hx, hr, bind, Except.bind, pure, Except.pure]
        constructor
        · intro h
          subst h
          exact List.Forall₂.cons hx ((fromjson_array_ok_iff env rest fs).1 hr)
        · intro h
          cases h with
          | cons h1 h2 =>
            rw [← fromjson_array_ok_iff env rest] at h2
            simp [hx] at h1
            simp [hr] at h2
            simp [h1, h2]

/-! ## Every exception of `fromjson_part` is a `std::invalid_argument` -/

theorem oia_ok {α : Type} (a : α) :
    only_invalid_argument (Except.ok a : Except Failure α) := by
  intro e h; cases h

theorem oia_pure {α : Type} (a : α) :
    only_invalid_argument (pure a : Except Failure α) := by
  intro e h; cases h

theorem oia_error {α : Type} (what : String) :
    only_invalid_argument
      (Except.error (Failure.invalid_argument what) : Except Failure α) := by
  intro e h; cases h; rfl

theorem oia_missing {α : Type} (cls what : String) :
    only_invalid_argument
      (Except.error (missing cls what) : Except Failure α) := by
  intro e h; cases h; rfl

theorem oia_unrecognized {α : Type} (env : Env) (j : JSON) :
    only_invalid_argument
      (Except.error (unrecognized env j) : Except Failure α) := by
  intro e h; cases h; rfl

theorem oia_bind {α β : Type} {x : Except Failure α}
    {f : α → Except Failure β} (hx : only_invalid_argument x)
    (hf : ∀ a, only_invalid_argument (f a)) :
    only_invalid_argument (x >>= f) := by
  intro e h
  cases x with
  | error e1 =>
    simp [bind, Except.bind] at h
    exact hx e (by rw [h])
  | ok a => exact hf a e h

theorem oia_map {α β : Type} {x : Except Failure α} (f : α → β)
    (hx : only_invalid_argument x) : only_invalid_argument (x.map f) := by
  intro e h
  cases x with
  | error e1 =>
    simp [Except.map] at h
    exact hx e (by rw [h])
  | ok a => simp [Except.map] at h

theorem oia_fmap {α β : Type} {x : Except Failure α} (f : α → β)
    (hx : only_invalid_argument x) : only_invalid_argument (f <$> x) :=
  oia_map f hx

theorem oia_ite {α : Type} {c : Prop} [Decidable c]
    {a b : Except Failure α} (ha : c → only_invalid_argument a)
    (hb : ¬ c → only_invalid_argument b) :
    only_invalid_argument (if c then a else b) := by
  by_cases hc : c
  · rw [if_pos hc]; exact ha hc
  · rw [if_neg hc]; exact hb hc

theorem explicit_width_oia (env : Env) (cls key c : String)
    (ms : List (String × JSON)) (w : IndexForm) :
    only_invalid_argument (explicit_width env cls key c ms w) := by
  unfold explicit_width
  split
  · split
    · exact oia_error _
    · split
      · exact oia_error _
      · exact oia_ok _
  · exact oia_ok _

theorem require_width_oia (cls what : String) (w : IndexForm) :
    only_invalid_argument (require_width cls what w) := by
  unfold require_width
  split
  · exact oia_error _
  · exact oia_ok _

theorem inner_shape_loop_oia :
    ∀ items, only_invalid_argument (inner_shape_loop items)
  | [] => oia_ok _
  | x :: rest => by
    cases x <;> simp only [inner_shape_loop] <;> try exact oia_error _
    split
    · exact oia_map _ (inner_shape_loop_oia rest)
    · exact oia_error _

theorem fromjson_parameters_oia (env : Env) (ms : List (String × JSON)) :
    only_invalid_argument (fromjson_parameters env ms) := by
  unfold fromjson_parameters
  split
  · exact oia_ok _
  · exact oia_ok _
  · exact oia_error _

theorem fromjson_has_identities_oia (ms : List (String × JSON)) :
    only_invalid_argument (fromjson_has_identities ms) := by
  unfold fromjson_has_identities
  split
  · exact oia_ok _
  · exact oia_ok _
  · exact oia_error _

theorem fromjson_string_oia (env : Env) (s : String) :
    only_invalid_argument (fromjson_string env s) := by
  unfold fromjson_string
  split
  · exact oia_ok _
  · exact oia_unrecognized _ _

theorem fromjson_NumpyArray_oia (env : Env) (ms : List (String × JSON))
    (h : Bool) (p : Parameters) :
    only_invalid_argument (fromjson_NumpyArray env ms h p) := by
  unfold fromjson_NumpyArray
  refine oia_bind ?_ ?_
  · split
    · split
      · exact oia_ok _
      · exact oia_unrecognized _ _
    · split
      · exact oia_ok _
      · exact oia_error _
  · intro a
    refine oia_bind ?_ ?_
    · split
      · exact inner_shape_loop_oia _
      · exact oia_ok _
    · intro s
      exact oia_pure _

theorem content_block_oia {c : Option (JSON × Except Failure Form)}
    (hc : child_oia c) (cls what : String) (k : Form → Except Failure Form)
    (hk : ∀ f, only_invalid_argument (k f)) :
    only_invalid_argument
      (match c with
       | none => Except.error (missing cls what)
       | some (_, r) => r >>= k) := by
  split
  · exact oia_missing _ _
  · next v r => exact oia_bind (hc v r rfl) hk

theorem fromjson_RecordArray_oia (h : Bool) (p : Parameters)
    {ca : Option (Except Failure (List Form))}
    {co : Option (List String × Except Failure (List Form))}
    (hca : ∀ r, ca = some r → only_invalid_argument r)
    (hco : ∀ names r, co = some (names, r) → only_invalid_argument r) :
    only_invalid_argument (fromjson_RecordArray h p ca co) := by
  unfold fromjson_RecordArray
  split
  · rename_i a b
    first
      | exact oia_bind (hca a rfl) fun _ => oia_pure _
      | exact oia_bind (hca b rfl) fun _ => oia_pure _
  · next names r => exact oia_bind (hco names r rfl) fun _ => oia_pure _
  · exact oia_error _

theorem fromjson_ListOffsetArray_oia (env : Env) (cls : String)
    (ms : List (String × JSON)) (h : Bool) (p : Parameters) (fl : Flags)
    {c : Option (JSON × Except Failure Form)} (hc : child_oia c) :
    only_invalid_argument (fromjson_ListOffsetArray env cls ms h p fl c) := by
  unfold fromjson_ListOffsetArray
  refine oia_bind (explicit_width_oia _ _ _ _ _ _) fun w => ?_
  refine oia_bind (require_width_oia _ _ _) fun _ => ?_
  split
  · exact oia_missing _ _
  · next v r => exact oia_bind (hc v r rfl) fun _ => oia_pure _

theorem fromjson_ListArray_oia (env : Env) (cls : String)
    (ms : List (String × JSON)) (h : Bool) (p : Parameters) (fl : Flags)
    {c : Option (JSON × Except Failure Form)} (hc : child_oia c) :
    only_invalid_argument (fromjson_ListArray env cls ms h p fl c) := by
  unfold fromjson_ListArray
  refine oia_bind (explicit_width_oia _ _ _ _ _ _) fun w => ?_
  refine oia_bind (explicit_width_oia _ _ _ _ _ _) fun w2 => ?_
  refine oia_bind (require_width_oia _ _ _) fun _ => ?_
  refine oia_bind (require_width_oia _ _ _) fun _ => ?_
  split
  · exact oia_missing _ _
  · next v r => exact oia_bind (hc v r rfl) fun _ => oia_pure _

theorem fromjson_RegularArray_oia (cls : String)
    (ms : List (String × JSON)) (h : Bool) (p : Parameters)
    {c : Option (JSON × Except Failure Form)} (hc : child_oia c) :
    only_invalid_argument (fromjson_RegularArray cls ms h p c) := by
  unfold fromjson_RegularArray
  split
  · exact oia_missing _ _
  · next v r =>
    refine oia_bind (hc v r rfl) fun _ => ?_
    split
    · exact oia_missing _ _
    · exact oia_pure _

theorem fromjson_IndexedOptionArray_oia (env : Env) (cls : String)
    (ms : List (String × JSON)) (h : Bool) (p : Parameters) (fl : Flags)
    {c : Option (JSON × Except Failure Form)} (hc : child_oia c) :
    only_invalid_argument
      (fromjson_IndexedOptionArray env cls ms h p fl c) := by
  unfold fromjson_IndexedOptionArray
  refine oia_bind (explicit_width_oia _ _ _ _ _ _) fun w => ?_
  refine oia_bind (require_width_oia _ _ _) fun _ => ?_
  split
  · exact oia_missing _ _
  · next v r => exact oia_bind (hc v r rfl) fun _ => oia_pure _

theorem fromjson_IndexedArray_oia (env : Env) (cls : String)
    (ms : List (String × JSON)) (h : Bool) (p : Parameters) (fl : Flags)
    {c : Option (JSON × Except Failure Form)} (hc : child_oia c) :
    only_invalid_argument (fromjson_IndexedArray env cls ms h p fl c) := by
  unfold fromjson_IndexedArray
  refine oia_bind (explicit_width_oia _ _ _ _ _ _) fun w => ?_
  refine oia_bind (require_width_oia _ _ _) fun _ => ?_
  split
  · exact oia_missing _ _
  · next v r => exact oia_bind (hc v r rfl) fun _ => oia_pure _

theorem fromjson_ByteMaskedArray_oia (env : Env) (cls : String)
    (ms : List (String × JSON)) (h : Bool) (p : Parameters) (fl : Flags)
    {c : Option (JSON × Except Failure Form)} (hc : child_oia c) :
    only_invalid_argument (fromjson_ByteMaskedArray env cls ms h p fl c) := by
  unfold fromjson_ByteMaskedArray
  refine oia_bind (explicit_width_oia _ _ _ _ _ _) fun w => ?_
  refine oia_bind (require_width_oia _ _ _) fun _ => ?_
  split
  · exact oia_missing _ _
  · next v r =>
    refine oia_bind (hc v r rfl) fun _ => ?_
    split
    · exact oia_missing _ _
    · exact oia_pure _

theorem fromjson_BitMaskedArray_oia (env : Env) (cls : String)
    (ms : List (String × JSON)) (h : Bool) (p : Parameters) (fl : Flags)
    {c : Option (JSON × Except Failure Form)} (hc : child_oia c) :
    only_invalid_argument (fromjson_BitMaskedArray env cls ms h p fl c) := by
  unfold fromjson_BitMaskedArray
  refine oia_bind (explicit_width_oia _ _ _ _ _ _) fun w => ?_
  refine oia_bind (require_width_oia _ _ _) fun _ => ?_
  split
  · exact oia_missing _ _
  · next v r =>
    refine oia_bind (hc v r rfl) fun _ => ?_
    split
    · exact oia_missing _ _
    · split
      · exact oia_missing _ _
      · exact oia_pure _

theorem fromjson_UnmaskedArray_oia (cls : String) (h : Bool)
    (p : Parameters)
    {c : Option (JSON × Except Failure Form)} (hc : child_oia c) :
    only_invalid_argument (fromjson_UnmaskedArray cls h p c) := by
  unfold fromjson_UnmaskedArray
  split
  · exact oia_missing _ _
  · next v r => exact oia_bind (hc v r rfl) fun _ => oia_pure _

theorem fromjson_UnionArray_oia (env : Env) (cls : String)
    (ms : List (String × JSON)) (h : Bool) (p : Parameters) (fl : Flags)
    {ca : Option (Except Failure (List Form))}
    (hca : ∀ r, ca = some r → only_invalid_argument r) :
    only_invalid_argument (fromjson_UnionArray env cls ms h p fl ca) := by
  unfold fromjson_UnionArray
  refine oia_bind (explicit_width_oia _ _ _ _ _ _) fun w => ?_
  refine oia_bind (explicit_width_oia _ _ _ _ _ _) fun w2 => ?_
  refine oia_bind (require_width_oia _ _ _) fun _ => ?_
  refine oia_bind (require_width_oia _ _ _) fun _ => ?_
  split
  · next r => exact oia_bind (hca r rfl) fun _ => oia_pure _
  · exact oia_missing _ _

theorem fromjson_VirtualArray_oia (cls : String)
    (ms : List (String × JSON)) (h : Bool) (p : Parameters)
    {c : Option (JSON × Except Failure Form)} (hc : child_oia c) :
    only_invalid_argument (fromjson_VirtualArray cls ms h p c) := by
  unfold fromjson_VirtualArray
  split
  · exact oia_missing _ _
  · next v r =>
    refine oia_bind ?_ fun _ => ?_
    · split
      · exact oia_ok _
      · exact oia_map _ (hc v r rfl)
    · split
      · exact oia_missing _ _
      · exact oia_pure _

theorem fromjson_class_oia (env : Env) (cls : String)
    (ms : List (String × JSON)) (h : Bool) (p : Parameters)
    {content form : Option (JSON × Except Failure Form)}
    {ca : Option (Except Failure (List Form))}
    {co : Option (List String × Except Failure (List Form))}
    (hcontent : child_oia content) (hform : child_oia form)
    (hca : ∀ r, ca = some r → only_invalid_argument r)
    (hco : ∀ names r, co = some (names, r) → only_invalid_argument r) :
    only_invalid_argument
      (fromjson_class env cls ms h p content form ca co) := by
  unfold fromjson_class
  refine oia_ite (fun _ => fromjson_NumpyArray_oia _ _ _ _) fun _ => ?_
  refine oia_ite (fun _ => fromjson_RecordArray_oia _ _ hca hco) fun _ => ?_
  refine oia_ite
    (fun _ => fromjson_ListOffsetArray_oia _ _ _ _ _ _ hcontent) fun _ => ?_
  refine oia_ite
    (fun _ => fromjson_ListArray_oia _ _ _ _ _ _ hcontent) fun _ => ?_
  refine oia_ite
    (fun _ => fromjson_RegularArray_oia _ _ _ _ hcontent) fun _ => ?_
  refine oia_ite
    (fun _ => fromjson_IndexedOptionArray_oia _ _ _ _ _ _ hcontent)
    fun _ => ?_
  refine oia_ite
    (fun _ => fromjson_IndexedArray_oia _ _ _ _ _ _ hcontent) fun _ => ?_
  refine oia_ite
    (fun _ => fromjson_ByteMaskedArray_oia _ _ _ _ _ _ hcontent) fun _ => ?_
  refine oia_ite
    (fun _ => fromjson_BitMaskedArray_oia _ _ _ _ _ _ hcontent) fun _ => ?_
  refine oia_ite
    (fun _ => fromjson_UnmaskedArray_oia _ _ _ hcontent) fun _ => ?_
  refine oia_ite
    (fun _ => fromjson_UnionArray_oia _ _ _ _ _ _ hca) fun _ => ?_
  refine oia_ite (fun _ => oia_pure _) fun _ => ?_
  exact oia_ite (fun _ => fromjson_VirtualArray_oia _ _ _ _ hform)
    fun _ => oia_unrecognized _ _

theorem fromjson_object_oia (env : Env)
    (ms : List (String × JSON))
    {content form : Option (JSON × Except Failure Form)}
    {ca : Option (Except Failure (List Form))}
    {co : Option (List String × Except Failure (List Form))}
    (hcontent : child_oia content) (hform : child_oia form)
    (hca : ∀ r, ca = some r → only_invalid_argument r)
    (hco : ∀ names r, co = some (names, r) → only_invalid_argument r) :
    only_invalid_argument (fromjson_object env ms content form ca co) := by
  unfold fromjson_object
  split
  · exact oia_unrecognized _ _
  · refine oia_bind (fromjson_parameters_oia _ _) fun p => ?_
    refine oia_bind (fromjson_has_identities_oia _) fun h => ?_
    exact fromjson_class_oia _ _ _ _ _ hcontent hform hca hco

mutual

theorem fromjson_part_oia (env : Env) :
    ∀ j, only_invalid_argument (fromjson_part env j)
  | .str s => by
    simp only [fromjson_part]
    exact fromjson_string_oia _ _
  | .obj ms => by
    simp only [fromjson_part]
    exact fromjson_object_oia env ms (fromjson_at_oia env "content" ms)
      (fromjson_at_oia env "form" ms) (fromjson_array_at_oia env "contents" ms)
      (fromjson_object_at_oia env "contents" ms)
  | .null => by simp only [fromjson_part]; exact oia_unrecognized _ _
  | .bool b => by simp only [fromjson_part]; exact oia_unrecognized _ _
  | .int n => by simp only [fromjson_part]; exact oia_unrecognized _ _
  | .double t => by simp only [fromjson_part]; exact oia_unrecognized _ _
  | .arr items => by simp only [fromjson_part]; exact oia_unrecognized _ _

theorem fromjson_array_oia (env : Env) :
    ∀ items, only_invalid_argument (fromjson_array env items)
  | [] => by simp only [fromjson_array]; exact oia_ok _
  | x :: rest => by
    simp only [fromjson_array]
    exact oia_bind (fromjson_part_oia env x) fun _ =>
      oia_bind (fromjson_array_oia env rest) fun _ => oia_pure _

theorem fromjson_values_oia (env : Env) :
    ∀ pairs, only_invalid_argument (fromjson_values env pairs)
  | [] => by simp only [fromjson_values]; exact oia_ok _
  | (_, value) :: rest => by
    simp only [fromjson_values]
    exact oia_bind (fromjson_part_oia env value) fun _ =>
      oia_bind (fromjson_values_oia env rest) fun _ => oia_pure _

theorem fromjson_at_oia (env : Env) (key : String) :
    ∀ ms, child_oia (fromjson_at env key ms)
  | [] => by intro v r h; simp [fromjson_at] at h
  | (k, v) :: rest => by
    intro v1 r h
    simp only [fromjson_at] at h
    split at h
    · cases h; exact fromjson_part_oia env v
    · exact fromjson_at_oia env key rest v1 r h

theorem fromjson_array_at_oia (env : Env) (key : String) :
    ∀ ms r, fromjson_array_at env key ms = some r → only_invalid_argument r
  | [], r, h => by simp [fromjson_array_at] at h
  | (k, .arr items) :: rest, r, h => by
    simp only [fromjson_array_at] at h
    split at h
    · cases h; exact fromjson_array_oia env items
    · exact fromjson_array_at_oia env key rest r h
  | (k, .null) :: rest, r, h => by
    simp only [fromjson_array_at] at h
    split at h
    · cases h
    · exact fromjson_array_at_oia env key rest r h
  | (k, .bool _) :: rest, r, h => by
    simp only [fromjson_array_at] at h
    split at h
    · cases h
    · exact fromjson_array_at_oia env key rest r h
  | (k, .int _) :: rest, r, h => by
    simp only [fromjson_array_at] at h
    split at h
    · cases h
    · exact fromjson_array_at_oia env key rest r h
  | (k, .double _) :: rest, r, h => by
    simp only [fromjson_array_at] at h
    split at h
    · cases h
    · exact fromjson_array_at_oia env key rest r h
  | (k, .str _) :: rest, r, h => by
    simp only [fromjson_array_at] at h
    split at h
    · cases h
    · exact fromjson_array_at_oia env key rest r h
  | (k, .obj _) :: rest, r, h => by
    simp only [fromjson_array_at] at h
    split at h
    · cases h
    · exact fromjson_array_at_oia env key rest r h

theorem fromjson_object_at_oia (env : Env) (key : String) :
    ∀ ms names r, fromjson_object_at env key ms = some (names, r) →
      only_invalid_argument r
  | [], names, r, h => by simp [fromjson_object_at] at h
  | (k, .obj pairs) :: rest, names, r, h => by
    simp only [fromjson_object_at] at h
    split at h
    · cases h; exact fromjson_values_oia env pairs
    · exact fromjson_object_at_oia env key rest names r h
  | (k, .null) :: rest, names, r, h => by
    simp only [fromjson_object_at] at h
    split at h
    · cases h
    · exact fromjson_object_at_oia env key rest names r h
  | (k, .bool _) :: rest, names, r, h => by
    simp only [fromjson_object_at] at h
    split at h
    · cases h
    · exact fromjson_object_at_oia env key rest names r h
  | (k, .int _) :: rest, names, r, h => by
    simp only [fromjson_object_at] at h
    split at h
    · cases h
    · exact fromjson_object_at_oia env key rest names r h
  | (k, .double _) :: rest, names, r, h => by
    simp only [fromjson_object_at] at h
    split at h
    · cases h
    · exact fromjson_object_at_oia env key rest names r h
  | (k, .str _) :: rest, names, r, h => by
    simp only [fromjson_object_at] at h
    split at h
    · cases h
    · exact fromjson_object_at_oia env key rest names r h
  | (k, .arr _) :: rest, names, r, h => by
    simp only [fromjson_object_at] at h
    split at h
    · cases h
    · exact fromjson_object_at_oia env key rest names r h

end

/-! ## What a returned Form keeps -/

theorem all_ok_error {α : Type} (P : α → Prop) (e : Failure) :
    all_ok P (Except.error e) := by
  intro a h; cases h

theorem all_ok_pure {α : Type} {P : α → Prop} {a : α} (h : P a) :
    all_ok P (pure a : Except Failure α) := by
  intro b hb; cases hb; exact h

theorem all_ok_bind {α β : Type} {P : β → Prop} {x : Except Failure α}
    {f : α → Except Failure β} (hf : ∀ a, all_ok P (f a)) :
    all_ok P (x >>= f) := by
  intro b hb
  cases x with
  | error e => simp [bind, Except.bind] at hb
  | ok a => exact hf a b hb

theorem all_ok_ite {α : Type} {P : α → Prop} {c : Prop} [Decidable c]
    {a b : Except Failure α} (ha : c → all_ok P a) (hb : ¬ c → all_ok P b) :
    all_ok P (if c then a else b) := by
  by_cases hc : c
  · rw [if_pos hc]; exact ha hc
  · rw [if_neg hc]; exact hb hc

theorem int_at_fits {ms : List (String × JSON)} {key : String} {n : Int}
    (h : JSON.int_at ms key = some n) :
    -2147483648 ≤ n ∧ n ≤ 2147483647 := by
  unfold JSON.int_at at h
  split at h
  · split at h
    · next hfit =>
      cases h
      simpa [JSON.IsInt] using hfit
    · cases h
  · cases h

theorem fromjson_class_header_kept (env : Env) (cls : String)
    (ms : List (String × JSON)) (h : Bool) (p : Parameters)
    (content form : Option (JSON × Except Failure Form))
    (ca : Option (Except Failure (List Form)))
    (co : Option (List String × Except Failure (List Form))) :
    all_ok (header_kept h p)
      (fromjson_class env cls ms h p content form ca co) := by
  have triv : ∀ {f : Form}, f.has_identities = h → f.parameters = p →
      f.size_fits_int → all_ok (header_kept h p) (pure f) :=
    fun h1 h2 h3 => all_ok_pure ⟨h1, h2, h3⟩
  unfold fromjson_class
  refine all_ok_ite (fun _ => ?_) fun _ => ?_
  · unfold fromjson_NumpyArray
    refine all_ok_bind fun a => ?_
    refine all_ok_bind fun s => ?_
    exact triv rfl rfl trivial
  refine all_ok_ite (fun _ => ?_) fun _ => ?_
  · unfold fromjson_RecordArray
    split
    · exact all_ok_bind fun a => triv rfl rfl trivial
    · exact all_ok_bind fun a => triv rfl rfl trivial
    · exact all_ok_error _ _
  refine all_ok_ite (fun _ => ?_) fun _ => ?_
  · unfold fromjson_ListOffsetArray
    refine all_ok_bind fun w => all_ok_bind fun _ => ?_
    split
    · exact all_ok_error _ _
    · exact all_ok_bind fun a => triv rfl rfl trivial
  refine all_ok_ite (fun _ => ?_) fun _ => ?_
  · unfold fromjson_ListArray
    refine all_ok_bind fun w => all_ok_bind fun w2 =>
      all_ok_bind fun _ => all_ok_bind fun _ => ?_
    split
    · exact all_ok_error _ _
    · exact all_ok_bind fun a => triv rfl rfl trivial
  refine all_ok_ite (fun _ => ?_) fun _ => ?_
  · unfold fromjson_RegularArray
    split
    · exact all_ok_error _ _
    · refine all_ok_bind fun a => ?_
      split
      · exact all_ok_error _ _
      · next size hsize => exact triv rfl rfl (int_at_fits hsize)
  refine all_ok_ite (fun _ => ?_) fun _ => ?_
  · unfold fromjson_IndexedOptionArray
    refine all_ok_bind fun w => all_ok_bind fun _ => ?_
    split
    · exact all_ok_error _ _
    · exact all_ok_bind fun a => triv rfl rfl trivial
  refine all_ok_ite (fun _ => ?_) fun _ => ?_
  · unfold fromjson_IndexedArray
    refine all_ok_bind fun w => all_ok_bind fun _ => ?_
    split
    · exact all_ok_error _ _
    · exact all_ok_bind fun a => triv rfl rfl trivial
  refine all_ok_ite (fun _ => ?_) fun _ => ?_
  · unfold fromjson_ByteMaskedArray
    refine all_ok_bind fun w => all_ok_bind fun _ => ?_
    split
    · exact all_ok_error _ _
    · refine all_ok_bind fun a => ?_
      split
      · exact all_ok_error _ _
      · exact triv rfl rfl trivial
  refine all_ok_ite (fun _ => ?_) fun _ => ?_
  · unfold fromjson_BitMaskedArray
    refine all_ok_bind fun w => all_ok_bind fun _ => ?_
    split
    · exact all_ok_error _ _
    · refine all_ok_bind fun a => ?_
      split
      · exact all_ok_error _ _
      · split
        · exact all_ok_error _ _
        · exact triv rfl rfl trivial
  refine all_ok_ite (fun _ => ?_) fun _ => ?_
  · unfold fromjson_UnmaskedArray
    split
    · exact all_ok_error _ _
    · exact all_ok_bind fun a => triv rfl rfl trivial
  refine all_ok_ite (fun _ => ?_) fun _ => ?_
  · unfold fromjson_UnionArray
    refine all_ok_bind fun w => all_ok_bind fun w2 =>
      all_ok_bind fun _ => all_ok_bind fun _ => ?_
    split
    · exact all_ok_bind fun a => triv rfl rfl trivial
    · exact all_ok_error _ _
  refine all_ok_ite (fun _ => triv rfl rfl trivial) fun _ => ?_
  refine all_ok_ite (fun _ => ?_) fun _ => all_ok_error _ _
  unfold fromjson_VirtualArray
  split
  · exact all_ok_error _ _
  · refine all_ok_bind fun a => ?_
    split
    · exact all_ok_error _ _
    · exact triv rfl rfl trivial

theorem fromjson_part_obj_ok (env : Env) (ms : List (String × JSON))
    (f : Form) (hf : fromjson_part env (.obj ms) = .ok f) :
    ∃ cls p h, JSON.string_at ms "class" = some cls ∧
      fromjson_parameters env ms = .ok p ∧
      fromjson_has_identities ms = .ok h ∧
      header_kept h p f := by
  simp only [fromjson_part, fromjson_object] at hf
  split at hf
  · cases hf
  · next cls hcls =>
    cases hp : fromjson_parameters env ms with
    | error e => simp [hp, bind, Except.bind] at hf
    | ok p =>
      cases hh : fromjson_has_identities ms with
      | error e => simp [hp, hh, bind, Except.bind] at hf
      | ok h =>
        simp only [hp, hh, bind, Except.bind] at hf
        exact ⟨cls, p, h, hcls, rfl, rfl,
          fromjson_class_header_kept _ _ _ _ _ _ _ _ _ f hf⟩

/-! ## The primitive shorthand -/

/-- C1: for each of the eleven primitive names, `fromjson_part` of the bare
JSON string returns a `NumpyForm` with `has_identities = false`, empty
parameters, empty inner shape and the fixed item size and format of the
name; for `int64`, `uint64`, `int32`, `uint32` the format is `l`, `L`, `i`,
`I` on LP64 and `q`, `Q`, `l`, `L` where `_MSC_VER` or `__i386__` is
defined. -/
theorem primitive_shorthand (env : Env) :
    fromjson_part env (.str "float64") = .ok (.NumpyForm false [] [] 8 "d") ∧
    fromjson_part env (.str "float32") = .ok (.NumpyForm false [] [] 4 "f") ∧
    fromjson_part env (.str "int64")
      = .ok (.NumpyForm false [] [] 8 (if env.msc_or_i386 then "q" else "l")) ∧
    fromjson_part env (.str "uint64")
      = .ok (.NumpyForm false [] [] 8 (if env.msc_or_i386 then "Q" else "L")) ∧
    fromjson_part env (.str "int32")
      = .ok (.NumpyForm false [] [] 4 (if env.msc_or_i386 then "l" else "i")) ∧
    fromjson_part env (.str "uint32")
      = .ok (.NumpyForm false [] [] 4 (if env.msc_or_i386 then "L" else "I")) ∧
    fromjson_part env (.str "int16") = .ok (.NumpyForm false [] [] 2 "h") ∧
    fromjson_part env (.str "uint16") = .ok (.NumpyForm false [] [] 2 "H") ∧
    fromjson_part env (.str "int8") = .ok (.NumpyForm false [] [] 1 "b") ∧
    fromjson_part env (.str "uint8") = .ok (.NumpyForm false [] [] 1 "B") ∧
    fromjson_part env (.str "bool") = .ok (.NumpyForm false [] [] 1 "?") := by
  cases hm : env.msc_or_i386 <;>
    simp [fromjson_part, fromjson_string, primitive, hm]

/-- The string case of `fromjson_part` returns the `NumpyForm` of
`primitive`. -/
theorem fromjson_part_str_ok {env : Env} {s : String} {f : Form}
    (h : fromjson_part env (.str s) = .ok f) :
    ∃ itemsize format, primitive env s = some (itemsize, format) ∧
      f = .NumpyForm false [] [] itemsize format := by
  simp only [fromjson_part, fromjson_string] at h
  split at h
  · next itemsize format hprim =>
    cases h
    exact ⟨itemsize, format, hprim, rfl⟩
  · cases h

/-- On either integer model `primitive` gives distinct names distinct
pairs. -/
theorem primitive_injective (env : Env) (a b : String)
    (ha : a ∈ primitive_names) (hb : b ∈ primitive_names)
    (h : primitive env a = primitive env b) : a = b := by
  simp only [primitive_names, List.mem_cons, List.mem_singleton,
    List.not_mem_nil, or_false] at ha hb
  cases hm : env.msc_or_i386 <;>
    rcases ha with rfl | rfl | rfl | rfl | rfl | rfl | rfl | rfl | rfl | rfl | rfl <;>
    rcases hb with rfl | rfl | rfl | rfl | rfl | rfl | rfl | rfl | rfl | rfl | rfl <;>
    simp [primitive, hm] at h ⊢

/-- C3: on either integer model, two distinct primitive names are parsed to
`NumpyForm`s with different (itemsize, format) pairs, so the pair
determines the name. -/
theorem primitive_pairs_distinct (env : Env) (a b : String)
    (ha : a ∈ primitive_names) (hb : b ∈ primitive_names) (hab : a ≠ b)
    (fa fb : Form) (hfa : fromjson_part env (.str a) = .ok fa)
    (hfb : fromjson_part env (.str b) = .ok fb) :
    (fa.itemsize, fa.format) ≠ (fb.itemsize, fb.format) := by
  obtain ⟨ia, ta, hpa, rfl⟩ := fromjson_part_str_ok hfa
  obtain ⟨ib, tb, hpb, rfl⟩ := fromjson_part_str_ok hfb
  intro heq
  simp only [Form.itemsize, Form.format, Prod.mk.injEq, Option.some.injEq]
    at heq
  apply hab
  apply primitive_injective env a b ha hb
  rw [hpa, hpb, heq.1, heq.2]

/-- C3 at `int32` and `int64` on the LLP64 model, where both formats are
letters `l` and `q` next to the LP64 `i` and `l`. -/
theorem primitive_pairs_distinct_witness :
    ((some (4 : Int), some "l") : Option Int × Option String)
      ≠ (some 8, some "q") :=
  primitive_pairs_distinct llp64 "int32" "int64" (by decide) (by decide)
    (by decide) (.NumpyForm false [] [] 4 "l") (.NumpyForm false [] [] 8 "q")
    rfl rfl

/-! ## Round trip through the schema text -/

/-- No JSON value at all is parsed to a `RegularForm` whose `size` does not
fit a 32-bit `int`. -/
theorem fromjson_part_size_fits (env : Env) (j : JSON) (h : Bool)
    (p : Parameters) (content : Form) (size : Int)
    (hj : fromjson_part env j = .ok (.RegularForm h p content size)) :
    -2147483648 ≤ size ∧ size ≤ 2147483647 := by
  cases j with
  | obj ms =>
    obtain ⟨_, _, _, _, _, _, _, _, hfit⟩ := fromjson_part_obj_ok env ms _ hj
    exact hfit
  | str s =>
    simp only [fromjson_part, fromjson_string] at hj
    split at hj <;> cases hj
  | null => simp [fromjson_part] at hj
  | bool b => simp [fromjson_part] at hj
  | int n => simp [fromjson_part] at hj
  | double t => simp [fromjson_part] at hj
  | arr items => simp [fromjson_part] at hj

/-- C2: the `RegularForm` of size `2147483648 = 2^31` over `float64` does
not survive the round trip.  The schema object that spells it out is
rejected as missing its `size`, and no text at all is parsed to it by
`Form::fromjson`: line 260 accepts `json["size"]` only when `IsInt()` holds,
a 32-bit test, although line 264 reads the value with `GetInt64()` into an
`int64_t`. -/
theorem wide_size_does_not_round_trip (env : Env) :
    fromjson_part env (.obj [("class", .str "RegularArray"),
        ("content", .str "float64"), ("size", .int 2147483648)])
      = .error (.invalid_argument "RegularArray is missing its 'size'") ∧
    ∀ data : String, Form.fromjson env data
      ≠ .ok (.RegularForm false [] (.NumpyForm false [] [] 8 "d")
          2147483648) := by
  constructor
  · rfl
  · intro data hdata
    have := fromjson_part_size_fits env _ _ _ _ _ hdata
    omega

/-! ## The width keys -/

theorem explicit_width_of_resolves {env : Env} {ms : List (String × JSON)}
    {key : String} {start w : IndexForm} (cls conflicting : String)
    (h : resolves env ms key start w) :
    explicit_width env cls key conflicting ms start = .ok w := by
  unfold resolves at h
  unfold explicit_width
  obtain ⟨hw, h⟩ := h
  split at h
  · next s hs =>
    obtain ⟨h1, h2⟩ := h
    simp only [h1]
    rcases h2 with h2 | h2
    · simp [h2]
    · simp [h2]
  · next hs => simp [h]

theorem require_width_ok {w : IndexForm} (cls what : String)
    (h : w ≠ .kNumIndexForm) : require_width cls what w = .ok () := by
  simp [require_width, h]

theorem resolves_of_absent {env : Env} {ms : List (String × JSON)}
    {key : String} {w : IndexForm} (hkey : JSON.string_at ms key = none)
    (hw : w ≠ .kNumIndexForm) : resolves env ms key w w := by
  simp [resolves, hkey, hw]

theorem resolves_of_same {env : Env} {ms : List (String × JSON)}
    {key s : String} {w : IndexForm} (hkey : JSON.string_at ms key = some s)
    (hs : env.str2form s = .ok w)
    (hw : w ≠ .kNumIndexForm) : resolves env ms key w w := by
  simp [resolves, hkey, hw, hs]

theorem resolves_of_keyed {env : Env} {ms : List (String × JSON)}
    {key s : String} {w : IndexForm} (hkey : JSON.string_at ms key = some s)
    (hs : env.str2form s = .ok w)
    (hw : w ≠ .kNumIndexForm) : resolves env ms key .kNumIndexForm w := by
  simp [resolves, hkey, hw, hs]

theorem explicit_width_conflict {env : Env} {ms : List (String × JSON)}
    {key s : String} {start w : IndexForm} (cls conflicting : String)
    (hkey : JSON.string_at ms key = some s) (hs : env.str2form s = .ok w)
    (hstart : start ≠ .kNumIndexForm) (hne : w ≠ start) :
    explicit_width env cls key conflicting ms start
      = .error (.invalid_argument (cls ++ conflicting ++ s)) := by
  have hne2 : ¬ start = w := fun h => hne h.symm
  simp [explicit_width, hkey, hs, hstart, hne2]

/-! ## From `fromjson_part` to the class blocks -/

theorem fromjson_part_obj {env : Env} {ms : List (String × JSON)}
    {cls : String} {p : Parameters} {h : Bool}
    (hcls : JSON.string_at ms "class" = some cls)
    (hp : fromjson_parameters env ms = .ok p)
    (hh : fromjson_has_identities ms = .ok h) :
    fromjson_part env (.obj ms)
      = fromjson_class env cls ms h p (fromjson_at env "content" ms)
          (fromjson_at env "form" ms) (fromjson_array_at env "contents" ms)
          (fromjson_object_at env "contents" ms) := by
  simp only [fromjson_part, fromjson_object, hcls, hp, hh, bind, Except.bind]

theorem fromjson_at_of_member {env : Env} {ms : List (String × JSON)}
    {key : String} {v : JSON} (h : JSON.member ms key = some v) :
    fromjson_at env key ms = some (v, fromjson_part env v) := by
  simp [fromjson_at_eq, h]

theorem fromjson_at_of_absent {env : Env} {ms : List (String × JSON)}
    {key : String} (h : JSON.member ms key = none) :
    fromjson_at env key ms = none := by
  simp [fromjson_at_eq, h]

theorem fromjson_array_at_of_member {env : Env} {ms : List (String × JSON)}
    {key : String} {items : List JSON}
    (h : JSON.member ms key = some (.arr items)) :
    fromjson_array_at env key ms = some (fromjson_array env items) := by
  simp [fromjson_array_at_eq, h]

/-! ## The class blocks on resolved widths -/

theorem fromjson_ListOffsetArray_ok {env : Env} {cls : String}
    {ms : List (String × JSON)} {h : Bool} {p : Parameters} {fl : Flags}
    {start w : IndexForm} {cj : JSON} {c : Form} (hfl : fl.width = start)
    (hw : resolves env ms "offsets" start w)
    (hcj : fromjson_part env cj = .ok c) :
    fromjson_ListOffsetArray env cls ms h p fl (some (cj, fromjson_part env cj))
      = .ok (.ListOffsetForm h p w c) := by
  subst hfl
  simp [fromjson_ListOffsetArray, explicit_width_of_resolves _ _ hw,
    require_width_ok _ _ hw.1, hcj, bind, Except.bind, pure, Except.pure]

theorem fromjson_ListArray_ok {env : Env} {cls : String}
    {ms : List (String × JSON)} {h : Bool} {p : Parameters} {fl : Flags}
    {start w1 w2 : IndexForm} {cj : JSON} {c : Form}
    (hfl : fl.width = start)
    (hw1 : resolves env ms "starts" start w1)
    (hw2 : resolves env ms "stops" start w2)
    (hcj : fromjson_part env cj = .ok c) :
    fromjson_ListArray env cls ms h p fl (some (cj, fromjson_part env cj))
      = .ok (.ListForm h p w1 w2 c) := by
  subst hfl
  simp [fromjson_ListArray, explicit_width_of_resolves _ _ hw1,
    explicit_width_of_resolves _ _ hw2,
    require_width_ok _ _ hw1.1, require_width_ok _ _ hw2.1, hcj, bind,
    Except.bind, pure, Except.pure]

theorem fromjson_IndexedOptionArray_ok {env : Env} {cls : String}
    {ms : List (String × JSON)} {h : Bool} {p : Parameters} {fl : Flags}
    {start w : IndexForm} {cj : JSON} {c : Form}
    (hfl : fl.width_option = start)
    (hw : resolves env ms "index" start w)
    (hcj : fromjson_part env cj = .ok c) :
    fromjson_IndexedOptionArray env cls ms h p fl
        (some (cj, fromjson_part env cj))
      = .ok (.IndexedOptionForm h p w c) := by
  subst hfl
  simp [fromjson_IndexedOptionArray, explicit_width_of_resolves _ _ hw,
    require_width_ok _ _ hw.1, hcj, bind, Except.bind, pure, Except.pure]

theorem fromjson_IndexedArray_ok {env : Env} {cls : String}
    {ms : List (String × JSON)} {h : Bool} {p : Parameters} {fl : Flags}
    {start w : IndexForm} {cj : JSON} {c : Form} (hfl : fl.width = start)
    (hw : resolves env ms "index" start w)
    (hcj : fromjson_part env cj = .ok c) :
    fromjson_IndexedArray env cls ms h p fl (some (cj, fromjson_part env cj))
      = .ok (.IndexedForm h p w c) := by
  subst hfl
  simp [fromjson_IndexedArray, explicit_width_of_resolves _ _ hw,
    require_width_ok _ _ hw.1, hcj, bind, Except.bind, pure, Except.pure]

theorem fromjson_UnionArray_ok {env : Env} {cls : String}
    {ms : List (String × JSON)} {h : Bool} {p : Parameters} {fl : Flags}
    {start1 start2 w1 w2 : IndexForm} {items : List JSON} {cs : List Form}
    (hfl1 : fl.width_tags = start1) (hfl2 : fl.width = start2)
    (hw1 : resolves env ms "tags" start1 w1)
    (hw2 : resolves env ms "index" start2 w2)
    (hitems : fromjson_array env items = .ok cs) :
    fromjson_UnionArray env cls ms h p fl (some (fromjson_array env items))
      = .ok (.UnionForm h p w1 w2 cs) := by
  subst hfl1 hfl2
  simp [fromjson_UnionArray, explicit_width_of_resolves _ _ hw1,
    explicit_width_of_resolves _ _ hw2,
    require_width_ok _ _ hw1.1, require_width_ok _ _ hw2.1, hitems, bind,
    Except.bind, pure, Except.pure]

/-! ## Which block a class name reaches, and with which locals -/

theorem class_ListOffsetArray (env : Env) {cls : String} {w : IndexForm}
    (hmem : (cls, w) ∈ [("ListOffsetArray", env.flags.width),
      ("ListOffsetArray64", IndexForm.i64),
      ("ListOffsetArrayU32", IndexForm.u32),
      ("ListOffsetArray32", IndexForm.i32)]) :
    ∃ fl : Flags, fl.width = w ∧
      ∀ (ms : List (String × JSON)) (h : Bool) (p : Parameters)
        (c f : Option (JSON × Except Failure Form))
        (ca : Option (Except Failure (List Form)))
        (co : Option (List String × Except Failure (List Form))),
        fromjson_class env cls ms h p c f ca co
          = fromjson_ListOffsetArray env cls ms h p fl c := by
  simp only [List.mem_cons, Prod.mk.injEq, List.mem_singleton,
    List.not_mem_nil, or_false] at hmem
  rcases hmem with ⟨rfl, rfl⟩ | ⟨rfl, rfl⟩ | ⟨rfl, rfl⟩ | ⟨rfl, rfl⟩
  · exact ⟨⟨true, env.is64_indet, env.isU32_indet, env.is32_indet⟩, rfl,
      fun _ _ _ _ _ _ _ => rfl⟩
  · exact ⟨⟨false, true, env.isU32_indet, env.is32_indet⟩, rfl,
      fun _ _ _ _ _ _ _ => rfl⟩
  · exact ⟨⟨false, false, true, env.is32_indet⟩, rfl,
      fun _ _ _ _ _ _ _ => rfl⟩
  · exact ⟨⟨false, false, false, true⟩, rfl, fun _ _ _ _ _ _ _ => rfl⟩

theorem class_ListArray (env : Env) {cls : String} {w : IndexForm}
    (hmem : (cls, w) ∈ [("ListArray", IndexForm.kNumIndexForm),
      ("ListArray64", IndexForm.i64), ("ListArrayU32", IndexForm.u32),
      ("ListArray32", IndexForm.i32)]) :
    ∃ fl : Flags, fl.width = w ∧
      ∀ (ms : List (String × JSON)) (h : Bool) (p : Parameters)
        (c f : Option (JSON × Except Failure Form))
        (ca : Option (Except Failure (List Form)))
        (co : Option (List String × Except Failure (List Form))),
        fromjson_class env cls ms h p c f ca co
          = fromjson_ListArray env cls ms h p fl c := by
  simp only [List.mem_cons, Prod.mk.injEq, List.mem_singleton,
    List.not_mem_nil, or_false] at hmem
  rcases hmem with ⟨rfl, rfl⟩ | ⟨rfl, rfl⟩ | ⟨rfl, rfl⟩ | ⟨rfl, rfl⟩
  · exact ⟨⟨true, false, false, false⟩, rfl, fun _ _ _ _ _ _ _ => rfl⟩
  · exact ⟨⟨false, true, false, false⟩, rfl, fun _ _ _ _ _ _ _ => rfl⟩
  · exact ⟨⟨false, false, true, false⟩, rfl, fun _ _ _ _ _ _ _ => rfl⟩
  · exact ⟨⟨false, false, false, true⟩, rfl, fun _ _ _ _ _ _ _ => rfl⟩

theorem class_IndexedOptionArray (env : Env) {cls : String} {w : IndexForm}
    (hmem : (cls, w) ∈ [("IndexedOptionArray", IndexForm.kNumIndexForm),
      ("IndexedOptionArray64", IndexForm.i64),
      ("IndexedOptionArray32", IndexForm.i32)]) :
    ∃ fl : Flags, fl.width_option = w ∧
      ∀ (ms : List (String × JSON)) (h : Bool) (p : Parameters)
        (c f : Option (JSON × Except Failure Form))
        (ca : Option (Except Failure (List Form)))
        (co : Option (List String × Except Failure (List Form))),
        fromjson_class env cls ms h p c f ca co
          = fromjson_IndexedOptionArray env cls ms h p fl c := by
  simp only [List.mem_cons, Prod.mk.injEq, List.mem_singleton,
    List.not_mem_nil, or_false] at hmem
  rcases hmem with ⟨rfl, rfl⟩ | ⟨rfl, rfl⟩ | ⟨rfl, rfl⟩
  · exact ⟨⟨true, false, false, false⟩, rfl, fun _ _ _ _ _ _ _ => rfl⟩
  · exact ⟨⟨false, true, false, false⟩, rfl, fun _ _ _ _ _ _ _ => rfl⟩
  · exact ⟨⟨false, false, false, true⟩, rfl, fun _ _ _ _ _ _ _ => rfl⟩

theorem class_IndexedArray (env : Env) {cls : String} {w : IndexForm}
    (hmem : (cls, w) ∈ [("IndexedArray", IndexForm.kNumIndexForm),
      ("IndexedArray64", IndexForm.i64), ("IndexedArrayU32", IndexForm.u32),
      ("IndexedArray32", IndexForm.i32)]) :
    ∃ fl : Flags, fl.width = w ∧
      ∀ (ms : List (String × JSON)) (h : Bool) (p : Parameters)
        (c f : Option (JSON × Except Failure Form))
        (ca : Option (Except Failure (List Form)))
        (co : Option (List String × Except Failure (List Form))),
        fromjson_class env cls ms h p c f ca co
          = fromjson_IndexedArray env cls ms h p fl c := by
  simp only [List.mem_cons, Prod.mk.injEq, List.mem_singleton,
    List.not_mem_nil, or_false] at hmem
  rcases hmem with ⟨rfl, rfl⟩ | ⟨rfl, rfl⟩ | ⟨rfl, rfl⟩ | ⟨rfl, rfl⟩
  · exact ⟨⟨true, false, false, false⟩, rfl, fun _ _ _ _ _ _ _ => rfl⟩
  · exact ⟨⟨false, true, false, false⟩, rfl, fun _ _ _ _ _ _ _ => rfl⟩
  · exact ⟨⟨false, false, true, false⟩, rfl, fun _ _ _ _ _ _ _ => rfl⟩
  · exact ⟨⟨false, false, false, true⟩, rfl, fun _ _ _ _ _ _ _ => rfl⟩

theorem class_ByteMaskedArray (env : Env) :
    ∃ fl : Flags, fl.width = .kNumIndexForm ∧
      ∀ (ms : List (String × JSON)) (h : Bool) (p : Parameters)
        (c f : Option (JSON × Except Failure Form))
        (ca : Option (Except Failure (List Form)))
        (co : Option (List String × Except Failure (List Form))),
        fromjson_class env "ByteMaskedArray" ms h p c f ca co
          = fromjson_ByteMaskedArray env "ByteMaskedArray" ms h p fl c :=
  ⟨⟨false, false, false, false⟩, rfl, fun _ _ _ _ _ _ _ => rfl⟩

theorem class_BitMaskedArray (env : Env) :
    ∃ fl : Flags, fl.width = .kNumIndexForm ∧
      ∀ (ms : List (String × JSON)) (h : Bool) (p : Parameters)
        (c f : Option (JSON × Except Failure Form))
        (ca : Option (Except Failure (List Form)))
        (co : Option (List String × Except Failure (List Form))),
        fromjson_class env "BitMaskedArray" ms h p c f ca co
          = fromjson_BitMaskedArray env "BitMaskedArray" ms h p fl c :=
  ⟨⟨false, false, false, false⟩, rfl, fun _ _ _ _ _ _ _ => rfl⟩

theorem class_UnionArray (env : Env) {cls : String} {wt w : IndexForm}
    (hmem : (cls, wt, w) ∈ [("UnionArray", IndexForm.kNumIndexForm,
        IndexForm.kNumIndexForm),
      ("UnionArray8_64", IndexForm.i8, IndexForm.i64),
      ("UnionArray8_U32", IndexForm.i8, IndexForm.u32),
      ("UnionArray8_32", IndexForm.i8, IndexForm.i32)]) :
    ∃ fl : Flags, fl.width_tags = wt ∧ fl.width = w ∧
      ∀ (ms : List (String × JSON)) (h : Bool) (p : Parameters)
        (c f : Option (JSON × Except Failure Form))
        (ca : Option (Except Failure (List Form)))
        (co : Option (List String × Except Failure (List Form))),
        fromjson_class env cls ms h p c f ca co
          = fromjson_UnionArray env cls ms h p fl ca := by
  simp only [List.mem_cons, List.mem_singleton, List.not_mem_nil,
    or_false] at hmem
  repeat' rcases hmem with hmem | hmem
  · exact ⟨⟨true, false, false, false⟩, rfl, rfl, fun _ _ _ _ _ _ _ => rfl⟩
  · exact ⟨⟨false, true, false, false⟩, rfl, rfl, fun _ _ _ _ _ _ _ => rfl⟩
  · exact ⟨⟨false, false, true, false⟩, rfl, rfl, fun _ _ _ _ _ _ _ => rfl⟩
  · exact ⟨⟨false, false, false, true⟩, rfl, rfl, fun _ _ _ _ _ _ _ => rfl⟩

/-- C4: with the parameters `p` and the flag `h` read, a class name with a
width suffix and no string under its width keys gets the width of the
suffix: `64`, `U32`, `32` give `i64`, `u32`, `i32` for `offsets` of
`ListOffsetArray`, for both `starts` and `stops` of `ListArray` and for
`index` of `IndexedArray`; `IndexedOptionArray64` and `32` give `i64` and
`i32`; `UnionArray8_64`, `8_U32`, `8_32` give tags `i8` and index `i64`,
`u32`, `i32`.  The Form returned holds the Form parsed from `content`, or
the Forms parsed from the items of `contents`. -/
theorem suffix_gives_width (env : Env) (ms : List (String × JSON))
    (p : Parameters) (h : Bool)
    (hp : fromjson_parameters env ms = .ok p)
    (hh : fromjson_has_identities ms = .ok h) :
    (∀ cls w, (cls, w) ∈ [("ListOffsetArray64", IndexForm.i64),
          ("ListOffsetArrayU32", IndexForm.u32),
          ("ListOffsetArray32", IndexForm.i32)] →
        JSON.string_at ms "class" = some cls →
        JSON.string_at ms "offsets" = none →
        ∀ cj c, JSON.member ms "content" = some cj →
          fromjson_part env cj = .ok c →
          fromjson_part env (.obj ms) = .ok (.ListOffsetForm h p w c)) ∧
    (∀ cls w, (cls, w) ∈ [("ListArray64", IndexForm.i64),
          ("ListArrayU32", IndexForm.u32), ("ListArray32", IndexForm.i32)] →
        JSON.string_at ms "class" = some cls →
        JSON.string_at ms "starts" = none →
        JSON.string_at ms "stops" = none →
        ∀ cj c, JSON.member ms "content" = some cj →
          fromjson_part env cj = .ok c →
          fromjson_part env (.obj ms) = .ok (.ListForm h p w w c)) ∧
    (∀ cls w, (cls, w) ∈ [("IndexedArray64", IndexForm.i64),
          ("IndexedArrayU32", IndexForm.u32),
          ("IndexedArray32", IndexForm.i32)] →
        JSON.string_at ms "class" = some cls →
        JSON.string_at ms "index" = none →
        ∀ cj c, JSON.member ms "content" = some cj →
          fromjson_part env cj = .ok c →
          fromjson_part env (.obj ms) = .ok (.IndexedForm h p w c)) ∧
    (∀ cls w, (cls, w) ∈ [("IndexedOptionArray64", IndexForm.i64),
          ("IndexedOptionArray32", IndexForm.i32)] →
        JSON.string_at ms "class" = some cls →
        JSON.string_at ms "index" = none →
        ∀ cj c, JSON.member ms "content" = some cj →
          fromjson_part env cj = .ok c →
          fromjson_part env (.obj ms) = .ok (.IndexedOptionForm h p w c)) ∧
    (∀ cls w, (cls, w) ∈ [("UnionArray8_64", IndexForm.i64),
          ("UnionArray8_U32", IndexForm.u32),
          ("UnionArray8_32", IndexForm.i32)] →
        JSON.string_at ms "class" = some cls →
        JSON.string_at ms "tags" = none →
        JSON.string_at ms "index" = none →
        ∀ items cs, JSON.member ms "contents" = some (.arr items) →
          List.Forall₂ (fun j c => fromjson_part env j = .ok c) items cs →
          fromjson_part env (.obj ms) = .ok (.UnionForm h p .i8 w cs)) := by
  refine ⟨?_, ?_, ?_, ?_, ?_⟩
  · intro cls w hmem hcls hkey cj c hcontent hcj
    have hw : w ≠ .kNumIndexForm := by
      simp only [List.mem_cons, Prod.mk.injEq, List.mem_singleton,
        List.not_mem_nil, or_false] at hmem
      rcases hmem with ⟨_, rfl⟩ | ⟨_, rfl⟩ | ⟨_, rfl⟩ <;> decide
    obtain ⟨fl, hfl, heq⟩ := class_ListOffsetArray env (List.mem_cons_of_mem _ hmem)
    rw [fromjson_part_obj hcls hp hh, heq, fromjson_at_of_member hcontent]
    exact fromjson_ListOffsetArray_ok hfl (resolves_of_absent hkey hw) hcj
  · intro cls w hmem hcls hkey1 hkey2 cj c hcontent hcj
    have hw : w ≠ .kNumIndexForm := by
      simp only [List.mem_cons, Prod.mk.injEq, List.mem_singleton,
        List.not_mem_nil, or_false] at hmem
      rcases hmem with ⟨_, rfl⟩ | ⟨_, rfl⟩ | ⟨_, rfl⟩ <;> decide
    obtain ⟨fl, hfl, heq⟩ := class_ListArray env (List.mem_cons_of_mem _ hmem)
    rw [fromjson_part_obj hcls hp hh, heq, fromjson_at_of_member hcontent]
    exact fromjson_ListArray_ok hfl (resolves_of_absent hkey1 hw)
      (resolves_of_absent hkey2 hw) hcj
  · intro cls w hmem hcls hkey cj c hcontent hcj
    have hw : w ≠ .kNumIndexForm := by
      simp only [List.mem_cons, Prod.mk.injEq, List.mem_singleton,
        List.not_mem_nil, or_false] at hmem
      rcases hmem with ⟨_, rfl⟩ | ⟨_, rfl⟩ | ⟨_, rfl⟩ <;> decide
    obtain ⟨fl, hfl, heq⟩ := class_IndexedArray env (List.mem_cons_of_mem _ hmem)
    rw [fromjson_part_obj hcls hp hh, heq, fromjson_at_of_member hcontent]
    exact fromjson_IndexedArray_ok hfl (resolves_of_absent hkey hw) hcj
  · intro cls w hmem hcls hkey cj c hcontent hcj
    have hw : w ≠ .kNumIndexForm := by
      simp only [List.mem_cons, Prod.mk.injEq, List.mem_singleton,
        List.not_mem_nil, or_false] at hmem
      rcases hmem with ⟨_, rfl⟩ | ⟨_, rfl⟩ <;> decide
    obtain ⟨fl, hfl, heq⟩ := class_IndexedOptionArray env (List.mem_cons_of_mem _ hmem)
    rw [fromjson_part_obj hcls hp hh, heq, fromjson_at_of_member hcontent]
    exact fromjson_IndexedOptionArray_ok hfl
      (resolves_of_absent hkey hw) hcj
  · intro cls w hmem hcls hkey1 hkey2 items cs hcontents hitems
    have hw : w ≠ .kNumIndexForm := by
      simp only [List.mem_cons, Prod.mk.injEq, List.mem_singleton,
        List.not_mem_nil, or_false] at hmem
      rcases hmem with ⟨_, rfl⟩ | ⟨_, rfl⟩ | ⟨_, rfl⟩ <;> decide
    have hmem2 : (cls, IndexForm.i8, w) ∈
        [("UnionArray", IndexForm.kNumIndexForm, IndexForm.kNumIndexForm),
          ("UnionArray8_64", IndexForm.i8, IndexForm.i64),
          ("UnionArray8_U32", IndexForm.i8, IndexForm.u32),
          ("UnionArray8_32", IndexForm.i8, IndexForm.i32)] := by
      simp only [List.mem_cons, Prod.mk.injEq, List.mem_singleton,
        List.not_mem_nil, or_false] at hmem ⊢
      rcases hmem with ⟨rfl, rfl⟩ | ⟨rfl, rfl⟩ | ⟨rfl, rfl⟩ <;> simp
    obtain ⟨fl, hflt, hfl, heq⟩ := class_UnionArray env hmem2
    have hcs := (fromjson_array_ok_iff env items cs).2 hitems
    rw [fromjson_part_obj hcls hp hh, heq,
      fromjson_array_at_of_member hcontents]
    exact fromjson_UnionArray_ok hflt hfl
      (resolves_of_absent hkey1 (by decide))
      (resolves_of_absent hkey2 hw) hcs

/-! ## An object without one of its members -/

theorem member_remove_self (ms : List (String × JSON)) (key : String) :
    JSON.member (JSON.remove_member ms key) key = none := by
  induction ms with
  | nil => rfl
  | cons m rest ih =>
    obtain ⟨k, v⟩ := m
    by_cases hk : k = key
    · simpa [JSON.remove_member, List.filter, hk] using ih
    · simpa [JSON.remove_member, List.filter, hk, JSON.member] using ih

theorem member_remove_other (ms : List (String × JSON)) {key k : String}
    (h : k ≠ key) :
    JSON.member (JSON.remove_member ms key) k = JSON.member ms k := by
  induction ms with
  | nil => rfl
  | cons m rest ih =>
    obtain ⟨k1, v⟩ := m
    unfold JSON.remove_member at ih ⊢
    by_cases hk : k1 = key
    · subst hk
      have hk1 : ¬ k1 = k := fun h1 => h h1.symm
      simpa [List.filter, JSON.member, hk1] using ih
    · by_cases hk2 : k1 = k
      · subst hk2
        simp [List.filter, hk, JSON.member]
      · simpa [List.filter, hk, JSON.member, hk2] using ih

theorem string_at_remove_self (ms : List (String × JSON)) (key : String) :
    JSON.string_at (JSON.remove_member ms key) key = none := by
  simp [JSON.string_at, member_remove_self]

theorem string_at_remove_other (ms : List (String × JSON)) {key k : String}
    (h : k ≠ key) :
    JSON.string_at (JSON.remove_member ms key) k = JSON.string_at ms k := by
  simp [JSON.string_at, member_remove_other ms h]

theorem explicit_width_remove_other (env : Env) (cls conflicting : String)
    (ms : List (String × JSON)) {key k : String} (h : k ≠ key)
    (w : IndexForm) :
    explicit_width env cls k conflicting (JSON.remove_member ms key) w
      = explicit_width env cls k conflicting ms w := by
  simp [explicit_width, string_at_remove_other ms h]

theorem explicit_width_remove_self (env : Env) (cls conflicting : String)
    {ms : List (String × JSON)} {key s : String} {w : IndexForm}
    (hkey : JSON.string_at ms key = some s) (hs : env.str2form s = .ok w)
    (hw : w ≠ .kNumIndexForm) :
    explicit_width env cls key conflicting (JSON.remove_member ms key) w
      = explicit_width env cls key conflicting ms w := by
  rw [explicit_width_of_resolves cls conflicting (resolves_of_same hkey hs hw),
    explicit_width_of_resolves cls conflicting
      (resolves_of_absent (string_at_remove_self ms key) hw)]

theorem fromjson_parameters_remove (env : Env) (ms : List (String × JSON))
    {key : String} (h : "parameters" ≠ key) :
    fromjson_parameters env (JSON.remove_member ms key)
      = fromjson_parameters env ms := by
  simp [fromjson_parameters, member_remove_other ms h]

theorem fromjson_has_identities_remove (ms : List (String × JSON))
    {key : String} (h : "has_identities" ≠ key) :
    fromjson_has_identities (JSON.remove_member ms key)
      = fromjson_has_identities ms := by
  simp [fromjson_has_identities, member_remove_other ms h]

theorem fromjson_at_remove (env : Env) (ms : List (String × JSON))
    {key k : String} (h : k ≠ key) :
    fromjson_at env k (JSON.remove_member ms key) = fromjson_at env k ms := by
  simp [fromjson_at_eq, member_remove_other ms h]

theorem fromjson_array_at_remove (env : Env) (ms : List (String × JSON))
    {key k : String} (h : k ≠ key) :
    fromjson_array_at env k (JSON.remove_member ms key)
      = fromjson_array_at env k ms := by
  simp [fromjson_array_at_eq, member_remove_other ms h]

theorem fromjson_object_at_remove (env : Env) (ms : List (String × JSON))
    {key k : String} (h : k ≠ key) :
    fromjson_object_at env k (JSON.remove_member ms key)
      = fromjson_object_at env k ms := by
  simp [fromjson_object_at_eq, member_remove_other ms h]

theorem fromjson_part_obj_remove (env : Env) (ms : List (String × JSON))
    {key cls : String} (hkey : key ∉ fixed_keys)
    (hcls : JSON.string_at ms "class" = some cls)
    (hclass : ∀ h p c f ca co,
      fromjson_class env cls (JSON.remove_member ms key) h p c f ca co
        = fromjson_class env cls ms h p c f ca co) :
    fromjson_part env (.obj (JSON.remove_member ms key))
      = fromjson_part env (.obj ms) := by
  simp only [fixed_keys, List.mem_cons, List.mem_singleton, List.not_mem_nil,
    or_false, not_or] at hkey
  obtain ⟨h1, h2, h3, h4, h5, h6⟩ := hkey
  simp only [fromjson_part, fromjson_object]
  rw [string_at_remove_other ms (Ne.symm h1), hcls,
    fromjson_parameters_remove env ms (Ne.symm h2),
    fromjson_has_identities_remove ms (Ne.symm h3),
    fromjson_at_remove env ms (Ne.symm h4),
    fromjson_at_remove env ms (Ne.symm h5),
    fromjson_array_at_remove env ms (Ne.symm h6),
    fromjson_object_at_remove env ms (Ne.symm h6)]
  simp only [hclass]

/-! ## Throwing -/

theorem throws_of_never_ok {α : Type} {r : Except Failure α}
    (h1 : all_ok (fun _ => False) r) (h2 : only_invalid_argument r) :
    throws_invalid_argument r := by
  cases r with
  | ok a => exact (h1 a rfl).elim
  | error e =>
    cases e with
    | invalid_argument what => exact ⟨what, rfl⟩
    | runtime_error what =>
      have := h2 _ rfl
      simp [Failure.is_invalid_argument] at this

theorem fromjson_part_obj_all_ok {P : Form → Prop} {env : Env}
    {ms : List (String × JSON)} {cls : String}
    (hcls : JSON.string_at ms "class" = some cls)
    (h : ∀ h p, all_ok P (fromjson_class env cls ms h p
      (fromjson_at env "content" ms) (fromjson_at env "form" ms)
      (fromjson_array_at env "contents" ms)
      (fromjson_object_at env "contents" ms))) :
    all_ok P (fromjson_part env (.obj ms)) := by
  simp only [fromjson_part, fromjson_object, hcls]
  exact all_ok_bind fun p => all_ok_bind fun hh => h hh p

theorem fromjson_part_obj_throws {env : Env}
    {ms : List (String × JSON)} {cls : String}
    (hcls : JSON.string_at ms "class" = some cls)
    (h : ∀ h p, all_ok (fun _ => False) (fromjson_class env cls ms h p
      (fromjson_at env "content" ms) (fromjson_at env "form" ms)
      (fromjson_array_at env "contents" ms)
      (fromjson_object_at env "contents" ms))) :
    throws_invalid_argument (fromjson_part env (.obj ms)) :=
  throws_of_never_ok (fromjson_part_obj_all_ok hcls h)
    (fromjson_part_oia env _)

theorem all_ok_of_eq_error {α : Type} {P : α → Prop} {r : Except Failure α}
    {e : Failure} (h : r = .error e) : all_ok P r := by
  rw [h]; exact all_ok_error _ _

/-! ## A width key in conflict with the suffix -/

theorem fromjson_ListOffsetArray_conflict {env : Env} {cls : String}
    {ms : List (String × JSON)} {fl : Flags} {start w : IndexForm}
    {s : String} (h : Bool) (p : Parameters)
    (c : Option (JSON × Except Failure Form))
    (hfl : fl.width = start) (hstart : start ≠ .kNumIndexForm)
    (hkey : JSON.string_at ms "offsets" = some s)
    (hs : env.str2form s = .ok w) (hne : w ≠ start) :
    fromjson_ListOffsetArray env cls ms h p fl c
      = .error (.invalid_argument
          (cls ++ " has conflicting 'offsets' type: " ++ s)) := by
  subst hfl
  simp [fromjson_ListOffsetArray,
    explicit_width_conflict cls _ hkey hs hstart hne, bind, Except.bind]

theorem fromjson_ListArray_conflict_starts {env : Env} {cls : String}
    {ms : List (String × JSON)} {fl : Flags} {start w : IndexForm}
    {s : String} (h : Bool) (p : Parameters)
    (c : Option (JSON × Except Failure Form))
    (hfl : fl.width = start) (hstart : start ≠ .kNumIndexForm)
    (hkey : JSON.string_at ms "starts" = some s)
    (hs : env.str2form s = .ok w) (hne : w ≠ start) :
    fromjson_ListArray env cls ms h p fl c
      = .error (.invalid_argument
          (cls ++ " has conflicting 'starts' type: " ++ s)) := by
  subst hfl
  simp [fromjson_ListArray,
    explicit_width_conflict cls _ hkey hs hstart hne, bind, Except.bind]

theorem fromjson_ListArray_conflict_stops {env : Env} {cls : String}
    {ms : List (String × JSON)} {fl : Flags} {start w : IndexForm}
    {s : String} (h : Bool) (p : Parameters)
    (c : Option (JSON × Except Failure Form))
    (hfl : fl.width = start) (hstart : start ≠ .kNumIndexForm)
    (hkey : JSON.string_at ms "stops" = some s)
    (hs : env.str2form s = .ok w) (hne : w ≠ start) :
    all_ok (fun _ => False) (fromjson_ListArray env cls ms h p fl c) ∧
    (resolves env ms "starts" start start →
      fromjson_ListArray env cls ms h p fl c
        = .error (.invalid_argument
            (cls ++ " has conflicting 'stops' type: " ++ s))) := by
  subst hfl
  constructor
  · unfold fromjson_ListArray
    refine all_ok_bind fun w1 => ?_
    rw [explicit_width_conflict cls _ hkey hs hstart hne]
    exact all_ok_error _ _
  · intro hres
    simp [fromjson_ListArray, explicit_width_of_resolves cls _ hres,
      explicit_width_conflict cls _ hkey hs hstart hne, bind, Except.bind]

theorem fromjson_IndexedOptionArray_conflict {env : Env} {cls : String}
    {ms : List (String × JSON)} {fl : Flags} {start w : IndexForm}
    {s : String} (h : Bool) (p : Parameters)
    (c : Option (JSON × Except Failure Form))
    (hfl : fl.width_option = start) (hstart : start ≠ .kNumIndexForm)
    (hkey : JSON.string_at ms "index" = some s)
    (hs : env.str2form s = .ok w) (hne : w ≠ start) :
    fromjson_IndexedOptionArray env cls ms h p fl c
      = .error (.invalid_argument
          (cls ++ " has conflicting 'index' type: " ++ s)) := by
  subst hfl
  simp [fromjson_IndexedOptionArray,
    explicit_width_conflict cls _ hkey hs hstart hne, bind, Except.bind]

theorem fromjson_IndexedArray_conflict {env : Env} {cls : String}
    {ms : List (String × JSON)} {fl : Flags} {start w : IndexForm}
    {s : String} (h : Bool) (p : Parameters)
    (c : Option (JSON × Except Failure Form))
    (hfl : fl.width = start) (hstart : start ≠ .kNumIndexForm)
    (hkey : JSON.string_at ms "index" = some s)
    (hs : env.str2form s = .ok w) (hne : w ≠ start) :
    fromjson_IndexedArray env cls ms h p fl c
      = .error (.invalid_argument
          (cls ++ " has conflicting 'index' type: " ++ s)) := by
  subst hfl
  simp [fromjson_IndexedArray,
    explicit_width_conflict cls _ hkey hs hstart hne, bind, Except.bind]

theorem fromjson_UnionArray_conflict_tags {env : Env} {cls : String}
    {ms : List (String × JSON)} {fl : Flags} {start w : IndexForm}
    {s : String} (h : Bool) (p : Parameters)
    (ca : Option (Except Failure (List Form)))
    (hfl : fl.width_tags = start) (hstart : start ≠ .kNumIndexForm)
    (hkey : JSON.string_at ms "tags" = some s)
    (hs : env.str2form s = .ok w) (hne : w ≠ start) :
    fromjson_UnionArray env cls ms h p fl ca
      = .error (.invalid_argument
          (cls ++ " has conflicting 'tags' type: " ++ s)) := by
  subst hfl
  simp [fromjson_UnionArray,
    explicit_width_conflict cls _ hkey hs hstart hne, bind, Except.bind]

theorem fromjson_UnionArray_conflict_index {env : Env} {cls : String}
    {ms : List (String × JSON)} {fl : Flags} {start1 start w : IndexForm}
    {s : String} (h : Bool) (p : Parameters)
    (ca : Option (Except Failure (List Form)))
    (hfl1 : fl.width_tags = start1)
    (hfl : fl.width = start) (hstart : start ≠ .kNumIndexForm)
    (hkey : JSON.string_at ms "index" = some s)
    (hs : env.str2form s = .ok w) (hne : w ≠ start) :
    all_ok (fun _ => False) (fromjson_UnionArray env cls ms h p fl ca) ∧
    (resolves env ms "tags" start1 start1 →
      fromjson_UnionArray env cls ms h p fl ca
        = .error (.invalid_argument
            (cls ++ " has conflicting 'index' type: " ++ s))) := by
  subst hfl hfl1
  constructor
  · unfold fromjson_UnionArray
    refine all_ok_bind fun w1 => ?_
    rw [explicit_width_conflict cls _ hkey hs hstart hne]
    exact all_ok_error _ _
  · intro hres
    simp [fromjson_UnionArray, explicit_width_of_resolves cls _ hres,
      explicit_width_conflict cls _ hkey hs hstart hne, bind, Except.bind]

/-! ## A width key that repeats the suffix -/

theorem fromjson_ListOffsetArray_remove {env : Env} {cls : String}
    {ms : List (String × JSON)} {fl : Flags} {start : IndexForm}
    {s : String} (h : Bool) (p : Parameters)
    (c : Option (JSON × Except Failure Form))
    (hfl : fl.width = start) (hstart : start ≠ .kNumIndexForm)
    (hkey : JSON.string_at ms "offsets" = some s)
    (hs : env.str2form s = .ok start) :
    fromjson_ListOffsetArray env cls (JSON.remove_member ms "offsets") h p fl c
      = fromjson_ListOffsetArray env cls ms h p fl c := by
  subst hfl
  simp only [fromjson_ListOffsetArray,
    explicit_width_remove_self env cls _ hkey hs hstart]

theorem fromjson_ListArray_remove_starts {env : Env} {cls : String}
    {ms : List (String × JSON)} {fl : Flags} {start : IndexForm}
    {s : String} (h : Bool) (p : Parameters)
    (c : Option (JSON × Except Failure Form))
    (hfl : fl.width = start) (hstart : start ≠ .kNumIndexForm)
    (hkey : JSON.string_at ms "starts" = some s)
    (hs : env.str2form s = .ok start) :
    fromjson_ListArray env cls (JSON.remove_member ms "starts") h p fl c
      = fromjson_ListArray env cls ms h p fl c := by
  subst hfl
  simp only [fromjson_ListArray,
    explicit_width_remove_self env cls _ hkey hs hstart,
    explicit_width_remove_other env cls _ ms
      (show "stops" ≠ "starts" by decide)]

theorem fromjson_ListArray_remove_stops {env : Env} {cls : String}
    {ms : List (String × JSON)} {fl : Flags} {start : IndexForm}
    {s : String} (h : Bool) (p : Parameters)
    (c : Option (JSON × Except Failure Form))
    (hfl : fl.width = start) (hstart : start ≠ .kNumIndexForm)
    (hkey : JSON.string_at ms "stops" = some s)
    (hs : env.str2form s = .ok start) :
    fromjson_ListArray env cls (JSON.remove_member ms "stops") h p fl c
      = fromjson_ListArray env cls ms h p fl c := by
  subst hfl
  simp only [fromjson_ListArray,
    explicit_width_remove_self env cls _ hkey hs hstart,
    explicit_width_remove_other env cls _ ms
      (show "starts" ≠ "stops" by decide)]

theorem fromjson_IndexedOptionArray_remove {env : Env} {cls : String}
    {ms : List (String × JSON)} {fl : Flags} {start : IndexForm}
    {s : String} (h : Bool) (p : Parameters)
    (c : Option (JSON × Except Failure Form))
    (hfl : fl.width_option = start) (hstart : start ≠ .kNumIndexForm)
    (hkey : JSON.string_at ms "index" = some s)
    (hs : env.str2form s = .ok start) :
    fromjson_IndexedOptionArray env cls (JSON.remove_member ms "index") h p
        fl c
      = fromjson_IndexedOptionArray env cls ms h p fl c := by
  subst hfl
  simp only [fromjson_IndexedOptionArray,
    explicit_width_remove_self env cls _ hkey hs hstart]

theorem fromjson_IndexedArray_remove {env : Env} {cls : String}
    {ms : List (String × JSON)} {fl : Flags} {start : IndexForm}
    {s : String} (h : Bool) (p : Parameters)
    (c : Option (JSON × Except Failure Form))
    (hfl : fl.width = start) (hstart : start ≠ .kNumIndexForm)
    (hkey : JSON.string_at ms "index" = some s)
    (hs : env.str2form s = .ok start) :
    fromjson_IndexedArray env cls (JSON.remove_member ms "index") h p fl c
      = fromjson_IndexedArray env cls ms h p fl c := by
  subst hfl
  simp only [fromjson_IndexedArray,
    explicit_width_remove_self env cls _ hkey hs hstart]

theorem fromjson_UnionArray_remove_tags {env : Env} {cls : String}
    {ms : List (String × JSON)} {fl : Flags} {start : IndexForm}
    {s : String} (h : Bool) (p : Parameters)
    (ca : Option (Except Failure (List Form)))
    (hfl : fl.width_tags = start) (hstart : start ≠ .kNumIndexForm)
    (hkey : JSON.string_at ms "tags" = some s)
    (hs : env.str2form s = .ok start) :
    fromjson_UnionArray env cls (JSON.remove_member ms "tags") h p fl ca
      = fromjson_UnionArray env cls ms h p fl ca := by
  subst hfl
  simp only [fromjson_UnionArray,
    explicit_width_remove_self env cls _ hkey hs hstart,
    explicit_width_remove_other env cls _ ms
      (show "index" ≠ "tags" by decide)]

theorem fromjson_UnionArray_remove_index {env : Env} {cls : String}
    {ms : List (String × JSON)} {fl : Flags} {start : IndexForm}
    {s : String} (h : Bool) (p : Parameters)
    (ca : Option (Except Failure (List Form)))
    (hfl : fl.width = start) (hstart : start ≠ .kNumIndexForm)
    (hkey : JSON.string_at ms "index" = some s)
    (hs : env.str2form s = .ok start) :
    fromjson_UnionArray env cls (JSON.remove_member ms "index") h p fl ca
      = fromjson_UnionArray env cls ms h p fl ca := by
  subst hfl
  simp only [fromjson_UnionArray,
    explicit_width_remove_self env cls _ hkey hs hstart,
    explicit_width_remove_other env cls _ ms
      (show "tags" ≠ "index" by decide)]

theorem suffixed_offsets {env : Env} {ms : List (String × JSON)}
    {cls s : String} {start w : IndexForm}
    (hmem : (cls, start) ∈ [("ListOffsetArray64", IndexForm.i64),
      ("ListOffsetArrayU32", IndexForm.u32),
      ("ListOffsetArray32", IndexForm.i32)])
    (hcls : JSON.string_at ms "class" = some cls)
    (hkey : JSON.string_at ms "offsets" = some s)
    (hs : env.str2form s = .ok w) :
    width_key_outcome env ms cls "offsets"
      " has conflicting 'offsets' type: " start [] s w := by
  have hstart : start ≠ .kNumIndexForm := by
    simp only [List.mem_cons, Prod.mk.injEq, List.mem_singleton,
      List.not_mem_nil, or_false] at hmem
    rcases hmem with ⟨_, rfl⟩ | ⟨_, rfl⟩ | ⟨_, rfl⟩ <;> decide
  obtain ⟨fl, hfl, heq⟩ := class_ListOffsetArray env
    (List.mem_cons_of_mem _ hmem)
  refine ⟨fun hne => ⟨?_, ?_⟩, fun he => ?_⟩
  · refine fromjson_part_obj_throws hcls fun h p => ?_
    rw [heq]
    exact all_ok_of_eq_error
      (fromjson_ListOffsetArray_conflict h p _ hfl hstart hkey hs hne)
  · intro p h hp hh _
    rw [fromjson_part_obj hcls hp hh, heq]
    exact fromjson_ListOffsetArray_conflict h p _ hfl hstart hkey hs hne
  · subst he
    refine fromjson_part_obj_remove env ms (by decide) hcls ?_
    intro h p c f ca co
    rw [heq, heq]
    exact fromjson_ListOffsetArray_remove h p c hfl hstart hkey hs

theorem suffixed_starts {env : Env} {ms : List (String × JSON)}
    {cls s : String} {start w : IndexForm}
    (hmem : (cls, start) ∈ [("ListArray64", IndexForm.i64),
      ("ListArrayU32", IndexForm.u32), ("ListArray32", IndexForm.i32)])
    (hcls : JSON.string_at ms "class" = some cls)
    (hkey : JSON.string_at ms "starts" = some s)
    (hs : env.str2form s = .ok w) :
    width_key_outcome env ms cls "starts"
      " has conflicting 'starts' type: " start [] s w := by
  have hstart : start ≠ .kNumIndexForm := by
    simp only [List.mem_cons, Prod.mk.injEq, List.mem_singleton,
      List.not_mem_nil, or_false] at hmem
    rcases hmem with ⟨_, rfl⟩ | ⟨_, rfl⟩ | ⟨_, rfl⟩ <;> decide
  obtain ⟨fl, hfl, heq⟩ := class_ListArray env (List.mem_cons_of_mem _ hmem)
  refine ⟨fun hne => ⟨?_, ?_⟩, fun he => ?_⟩
  · refine fromjson_part_obj_throws hcls fun h p => ?_
    rw [heq]
    exact all_ok_of_eq_error
      (fromjson_ListArray_conflict_starts h p _ hfl hstart hkey hs hne)
  · intro p h hp hh _
    rw [fromjson_part_obj hcls hp hh, heq]
    exact fromjson_ListArray_conflict_starts h p _ hfl hstart hkey hs hne
  · subst he
    refine fromjson_part_obj_remove env ms (by decide) hcls ?_
    intro h p c f ca co
    rw [heq, heq]
    exact fromjson_ListArray_remove_starts h p c hfl hstart hkey hs

theorem suffixed_stops {env : Env} {ms : List (String × JSON)}
    {cls s : String} {start w : IndexForm}
    (hmem : (cls, start) ∈ [("ListArray64", IndexForm.i64),
      ("ListArrayU32", IndexForm.u32), ("ListArray32", IndexForm.i32)])
    (hcls : JSON.string_at ms "class" = some cls)
    (hkey : JSON.string_at ms "stops" = some s)
    (hs : env.str2form s = .ok w) :
    width_key_outcome env ms cls "stops"
      " has conflicting 'stops' type: " start [("starts", start)] s w := by
  have hstart : start ≠ .kNumIndexForm := by
    simp only [List.mem_cons, Prod.mk.injEq, List.mem_singleton,
      List.not_mem_nil, or_false] at hmem
    rcases hmem with ⟨_, rfl⟩ | ⟨_, rfl⟩ | ⟨_, rfl⟩ <;> decide
  obtain ⟨fl, hfl, heq⟩ := class_ListArray env (List.mem_cons_of_mem _ hmem)
  refine ⟨fun hne => ⟨?_, ?_⟩, fun he => ?_⟩
  · refine fromjson_part_obj_throws hcls fun h p => ?_
    rw [heq]
    exact (fromjson_ListArray_conflict_stops h p _ hfl hstart hkey hs hne).1
  · intro p h hp hh hpre
    rw [fromjson_part_obj hcls hp hh, heq]
    exact (fromjson_ListArray_conflict_stops h p _ hfl hstart hkey hs hne).2
      (hpre ("starts", start) (by simp))
  · subst he
    refine fromjson_part_obj_remove env ms (by decide) hcls ?_
    intro h p c f ca co
    rw [heq, heq]
    exact fromjson_ListArray_remove_stops h p c hfl hstart hkey hs

theorem suffixed_index_option {env : Env} {ms : List (String × JSON)}
    {cls s : String} {start w : IndexForm}
    (hmem : (cls, start) ∈ [("IndexedOptionArray64", IndexForm.i64),
      ("IndexedOptionArray32", IndexForm.i32)])
    (hcls : JSON.string_at ms "class" = some cls)
    (hkey : JSON.string_at ms "index" = some s)
    (hs : env.str2form s = .ok w) :
    width_key_outcome env ms cls "index"
      " has conflicting 'index' type: " start [] s w := by
  have hstart : start ≠ .kNumIndexForm := by
    simp only [List.mem_cons, Prod.mk.injEq, List.mem_singleton,
      List.not_mem_nil, or_false] at hmem
    rcases hmem with ⟨_, rfl⟩ | ⟨_, rfl⟩ <;> decide
  obtain ⟨fl, hfl, heq⟩ := class_IndexedOptionArray env
    (List.mem_cons_of_mem _ hmem)
  refine ⟨fun hne => ⟨?_, ?_⟩, fun he => ?_⟩
  · refine fromjson_part_obj_throws hcls fun h p => ?_
    rw [heq]
    exact all_ok_of_eq_error
      (fromjson_IndexedOptionArray_conflict h p _ hfl hstart hkey hs hne)
  · intro p h hp hh _
    rw [fromjson_part_obj hcls hp hh, heq]
    exact fromjson_IndexedOptionArray_conflict h p _ hfl hstart hkey hs hne
  · subst he
    refine fromjson_part_obj_remove env ms (by decide) hcls ?_
    intro h p c f ca co
    rw [heq, heq]
    exact fromjson_IndexedOptionArray_remove h p c hfl hstart hkey hs

theorem suffixed_index {env : Env} {ms : List (String × JSON)}
    {cls s : String} {start w : IndexForm}
    (hmem : (cls, start) ∈ [("IndexedArray64", IndexForm.i64),
      ("IndexedArrayU32", IndexForm.u32), ("IndexedArray32", IndexForm.i32)])
    (hcls : JSON.string_at ms "class" = some cls)
    (hkey : JSON.string_at ms "index" = some s)
    (hs : env.str2form s = .ok w) :
    width_key_outcome env ms cls "index"
      " has conflicting 'index' type: " start [] s w := by
  have hstart : start ≠ .kNumIndexForm := by
    simp only [List.mem_cons, Prod.mk.injEq, List.mem_singleton,
      List.not_mem_nil, or_false] at hmem
    rcases hmem with ⟨_, rfl⟩ | ⟨_, rfl⟩ | ⟨_, rfl⟩ <;> decide
  obtain ⟨fl, hfl, heq⟩ := class_IndexedArray env
    (List.mem_cons_of_mem _ hmem)
  refine ⟨fun hne => ⟨?_, ?_⟩, fun he => ?_⟩
  · refine fromjson_part_obj_throws hcls fun h p => ?_
    rw [heq]
    exact all_ok_of_eq_error
      (fromjson_IndexedArray_conflict h p _ hfl hstart hkey hs hne)
  · intro p h hp hh _
    rw [fromjson_part_obj hcls hp hh, heq]
    exact fromjson_IndexedArray_conflict h p _ hfl hstart hkey hs hne
  · subst he
    refine fromjson_part_obj_remove env ms (by decide) hcls ?_
    intro h p c f ca co
    rw [heq, heq]
    exact fromjson_IndexedArray_remove h p c hfl hstart hkey hs

theorem union_suffixed_mem {cls : String} {start : IndexForm}
    (hmem : (cls, start) ∈ [("UnionArray8_64", IndexForm.i64),
      ("UnionArray8_U32", IndexForm.u32), ("UnionArray8_32", IndexForm.i32)]) :
    start ≠ .kNumIndexForm ∧
    (cls, IndexForm.i8, start) ∈
      [("UnionArray", IndexForm.kNumIndexForm, IndexForm.kNumIndexForm),
        ("UnionArray8_64", IndexForm.i8, IndexForm.i64),
        ("UnionArray8_U32", IndexForm.i8, IndexForm.u32),
        ("UnionArray8_32", IndexForm.i8, IndexForm.i32)] := by
  simp only [List.mem_cons, Prod.mk.injEq, List.mem_singleton,
    List.not_mem_nil, or_false] at hmem ⊢
  rcases hmem with ⟨rfl, rfl⟩ | ⟨rfl, rfl⟩ | ⟨rfl, rfl⟩ <;> simp

theorem suffixed_tags {env : Env} {ms : List (String × JSON)}
    {cls s : String} {start w : IndexForm}
    (hmem : (cls, start) ∈ [("UnionArray8_64", IndexForm.i64),
      ("UnionArray8_U32", IndexForm.u32), ("UnionArray8_32", IndexForm.i32)])
    (hcls : JSON.string_at ms "class" = some cls)
    (hkey : JSON.string_at ms "tags" = some s)
    (hs : env.str2form s = .ok w) :
    width_key_outcome env ms cls "tags"
      " has conflicting 'tags' type: " .i8 [] s w := by
  obtain ⟨_, hmem2⟩ := union_suffixed_mem hmem
  have hstart : IndexForm.i8 ≠ .kNumIndexForm := by decide
  obtain ⟨fl, hfl, _, heq⟩ := class_UnionArray env hmem2
  refine ⟨fun hne => ⟨?_, ?_⟩, fun he => ?_⟩
  · refine fromjson_part_obj_throws hcls fun h p => ?_
    rw [heq]
    exact all_ok_of_eq_error
      (fromjson_UnionArray_conflict_tags h p _ hfl hstart hkey hs hne)
  · intro p h hp hh _
    rw [fromjson_part_obj hcls hp hh, heq]
    exact fromjson_UnionArray_conflict_tags h p _ hfl hstart hkey hs hne
  · subst he
    refine fromjson_part_obj_remove env ms (by decide) hcls ?_
    intro h p c f ca co
    rw [heq, heq]
    exact fromjson_UnionArray_remove_tags h p ca hfl hstart hkey hs

theorem suffixed_union_index {env : Env} {ms : List (String × JSON)}
    {cls s : String} {start w : IndexForm}
    (hmem : (cls, start) ∈ [("UnionArray8_64", IndexForm.i64),
      ("UnionArray8_U32", IndexForm.u32), ("UnionArray8_32", IndexForm.i32)])
    (hcls : JSON.string_at ms "class" = some cls)
    (hkey : JSON.string_at ms "index" = some s)
    (hs : env.str2form s = .ok w) :
    width_key_outcome env ms cls "index"
      " has conflicting 'index' type: " start [("tags", .i8)] s w := by
  obtain ⟨hstart, hmem2⟩ := union_suffixed_mem hmem
  obtain ⟨fl, hfl1, hfl, heq⟩ := class_UnionArray env hmem2
  refine ⟨fun hne => ⟨?_, ?_⟩, fun he => ?_⟩
  · refine fromjson_part_obj_throws hcls fun h p => ?_
    rw [heq]
    exact (fromjson_UnionArray_conflict_index h p _ hfl1 hfl hstart hkey hs
      hne).1
  · intro p h hp hh hpre
    rw [fromjson_part_obj hcls hp hh, heq]
    exact (fromjson_UnionArray_conflict_index h p _ hfl1 hfl hstart hkey hs
      hne).2 (hpre ("tags", .i8) (by simp))
  · subst he
    refine fromjson_part_obj_remove env ms (by decide) hcls ?_
    intro h p c f ca co
    rw [heq, heq]
    exact fromjson_UnionArray_remove_index h p ca hfl hstart hkey hs

/-- C5: on a class name with a width suffix, a string `s` under one of its
width keys that `Index::str2form` turns into a width `w`.  If `w` differs
from the width `start` of the suffix, `fromjson_part` throws a
`std::invalid_argument`; once the parameters and `has_identities` are read
and the width keys read earlier agree with the suffix, its text is the class
name, ` has conflicting '`, the key, `' type: ` and `s`.  If `w` is the
width of the suffix, the result is that of the object without the member. -/
theorem explicit_width_against_suffix (env : Env)
    (ms : List (String × JSON)) (cls : String)
    (keys : List (String × IndexForm))
    (hmem : (cls, keys) ∈ suffixed_classes)
    (hcls : JSON.string_at ms "class" = some cls)
    (earlier later : List (String × IndexForm)) (key : String)
    (start : IndexForm) (hkeys : keys = earlier ++ (key, start) :: later)
    (s : String) (w : IndexForm)
    (hkey : JSON.string_at ms key = some s)
    (hs : env.str2form s = .ok w) :
    (w ≠ start →
      throws_invalid_argument (fromjson_part env (.obj ms)) ∧
      ∀ p h, fromjson_parameters env ms = .ok p →
        fromjson_has_identities ms = .ok h →
        (∀ kw ∈ earlier, resolves env ms kw.1 kw.2 kw.2) →
        fromjson_part env (.obj ms)
          = .error (.invalid_argument
              (cls ++ (" has conflicting '" ++ key ++ "' type: ") ++ s))) ∧
    (w = start →
      fromjson_part env (.obj (JSON.remove_member ms key))
        = fromjson_part env (.obj ms)) := by
  simp only [suffixed_classes, List.mem_cons, List.mem_singleton,
    List.not_mem_nil, or_false] at hmem
  repeat' rcases hmem with hmem | hmem
  all_goals rcases earlier with _ | ⟨e1, _ | ⟨e2, earlier⟩⟩ <;>
  simp only [List.nil_append, List.cons_append, List.cons.injEq,
    Prod.mk.injEq, List.nil_eq, List.append_eq_nil, and_false,
    false_and, reduceCtorEq] at hkeys <;>
  first
    | exact hkeys.elim
    | (obtain ⟨⟨rfl, rfl⟩, _⟩ := hkeys
       first
         | (refine suffixed_offsets ?_ hcls hkey hs; decide)
         | (refine suffixed_starts ?_ hcls hkey hs; decide)
         | (refine suffixed_index_option ?_ hcls hkey hs; decide)
         | (refine suffixed_index ?_ hcls hkey hs; decide)
         | (refine @suffixed_tags _ _ _ _ IndexForm.i64 _ ?_ hcls hkey hs; decide)
         | (refine @suffixed_tags _ _ _ _ IndexForm.u32 _ ?_ hcls hkey hs; decide)
         | (refine @suffixed_tags _ _ _ _ IndexForm.i32 _ ?_ hcls hkey hs; decide))
    | (obtain ⟨rfl, ⟨rfl, rfl⟩, _⟩ := hkeys
       first
         | (refine suffixed_stops ?_ hcls hkey hs; decide)
         | (refine suffixed_union_index ?_ hcls hkey hs; decide))

/-- C5 at `ListArray64`: `stops` given as `i32` after a `starts` that
repeats the suffix is rejected with the message naming class and key, and
that `starts` may be left out. -/
theorem explicit_width_against_suffix_witness :
    fromjson_part lp64 (.obj [("class", .str "ListArray64"),
        ("starts", .str "i64"), ("stops", .str "i32"),
        ("content", .str "float64")])
      = .error (.invalid_argument
          "ListArray64 has conflicting 'stops' type: i32") ∧
    fromjson_part lp64 (.obj (JSON.remove_member [("class", .str "ListArray64"),
        ("starts", .str "i64"), ("content", .str "float64")] "starts"))
      = fromjson_part lp64 (.obj [("class", .str "ListArray64"),
        ("starts", .str "i64"), ("content", .str "float64")]) :=
  ⟨((explicit_width_against_suffix lp64 [("class", .str "ListArray64"),
        ("starts", .str "i64"), ("stops", .str "i32"),
        ("content", .str "float64")] "ListArray64"
      [("starts", .i64), ("stops", .i64)] (by decide) rfl
      [("starts", .i64)] [] "stops" .i64 rfl "i32" .i32 rfl rfl).1
      (by decide)).2 [] false rfl rfl
      (by
        intro kw hkw
        simp only [List.mem_singleton] at hkw
        subst hkw
        exact ⟨by decide, rfl, Or.inr rfl⟩),
   (explicit_width_against_suffix lp64 [("class", .str "ListArray64"),
        ("starts", .str "i64"), ("content", .str "float64")] "ListArray64"
      [("starts", .i64), ("stops", .i64)] (by decide) rfl
      [] [("stops", .i64)] "starts" .i64 rfl "i64" .i64 rfl rfl).2 rfl⟩

/-- C4 at `ListOffsetArray64` over `float64` and at `UnionArray8_U32` over
`float64` and `bool`. -/
theorem suffix_gives_width_witness :
    fromjson_part lp64 (.obj [("class", .str "ListOffsetArray64"),
        ("content", .str "float64")])
      = .ok (.ListOffsetForm false [] .i64 (.NumpyForm false [] [] 8 "d")) ∧
    fromjson_part lp64 (.obj [("class", .str "UnionArray8_U32"),
        ("contents", .arr [.str "float64", .str "bool"])])
      = .ok (.UnionForm false [] .i8 .u32
          [.NumpyForm false [] [] 8 "d", .NumpyForm false [] [] 1 "?"]) :=
  ⟨(suffix_gives_width lp64 [("class", .str "ListOffsetArray64"),
        ("content", .str "float64")] [] false rfl rfl).1
      "ListOffsetArray64" .i64 (by decide) rfl rfl (.str "float64") _ rfl rfl,
   (suffix_gives_width lp64 [("class", .str "UnionArray8_U32"),
        ("contents", .arr [.str "float64", .str "bool"])] [] false rfl
        rfl).2.2.2.2
      "UnionArray8_U32" .u32 (by decide) rfl rfl rfl
      [.str "float64", .str "bool"] _ rfl
      (List.Forall₂.cons rfl (List.Forall₂.cons rfl List.Forall₂.nil))⟩

/-! ## The class `ListOffsetArray` without a suffix -/

/-- C6: the class name `ListOffsetArray` makes the condition of lines
179-182 stop at its first disjunct, so line 183 reads `is64`, `isU32`,
`is32` as lines 119-121 left them, unassigned.  Where `is64` then holds
`true`, `offsets: "i32"` is rejected as a conflict and an object without
`offsets` is parsed with width `i64`; where the three hold `false`, the same
two objects give width `i32` and the failure for a missing `offsets`. -/
theorem unsuffixed_ListOffsetArray_reads_unset_locals :
    fromjson_part lp64_dirty (.obj [("class", .str "ListOffsetArray"),
        ("offsets", .str "i32"), ("content", .str "float64")])
      = .error (.invalid_argument
          "ListOffsetArray has conflicting 'offsets' type: i32") ∧
    fromjson_part lp64_dirty (.obj [("class", .str "ListOffsetArray"),
        ("content", .str "float64")])
      = .ok (.ListOffsetForm false [] .i64 (.NumpyForm false [] [] 8 "d")) ∧
    fromjson_part lp64 (.obj [("class", .str "ListOffsetArray"),
        ("offsets", .str "i32"), ("content", .str "float64")])
      = .ok (.ListOffsetForm false [] .i32 (.NumpyForm false [] [] 8 "d")) ∧
    fromjson_part lp64 (.obj [("class", .str "ListOffsetArray"),
        ("content", .str "float64")])
      = .error (.invalid_argument
          "ListOffsetArray is missing an 'offsets' specification") :=
  ⟨rfl, rfl, rfl, rfl⟩

/-! ## A class without its `content` -/

theorem explicit_width_of_resolves_any {env : Env} {ms : List (String × JSON)}
    {key : String} {start : IndexForm} (cls conflicting : String)
    (h : ∃ w, resolves env ms key start w) :
    ∃ w, w ≠ .kNumIndexForm ∧
      explicit_width env cls key conflicting ms start = .ok w := by
  obtain ⟨w, hw⟩ := h
  exact ⟨w, hw.1, explicit_width_of_resolves cls conflicting hw⟩

theorem fromjson_ListOffsetArray_no_content (env : Env) (cls : String)
    (ms : List (String × JSON)) (h : Bool) (p : Parameters) (fl : Flags) :
    all_ok (fun _ => False)
      (fromjson_ListOffsetArray env cls ms h p fl none) ∧
    ((∃ w, resolves env ms "offsets" fl.width w) →
      fromjson_ListOffsetArray env cls ms h p fl none
        = .error (.invalid_argument (cls ++ " is missing its 'content'"))) := by
  constructor
  · unfold fromjson_ListOffsetArray
    exact all_ok_bind fun _ => all_ok_bind fun _ => all_ok_error _ _
  · intro hres
    obtain ⟨w, hw, he⟩ := explicit_width_of_resolves_any cls
      " has conflicting 'offsets' type: " hres
    simp [fromjson_ListOffsetArray, he, require_width_ok _ _ hw, bind,
      Except.bind, missing]

theorem fromjson_ListArray_no_content (env : Env) (cls : String)
    (ms : List (String × JSON)) (h : Bool) (p : Parameters) (fl : Flags) :
    all_ok (fun _ => False) (fromjson_ListArray env cls ms h p fl none) ∧
    ((∃ w, resolves env ms "starts" fl.width w) →
      (∃ w, resolves env ms "stops" fl.width w) →
      fromjson_ListArray env cls ms h p fl none
        = .error (.invalid_argument (cls ++ " is missing its 'content'"))) := by
  constructor
  · unfold fromjson_ListArray
    exact all_ok_bind fun _ => all_ok_bind fun _ => all_ok_bind fun _ =>
      all_ok_bind fun _ => all_ok_error _ _
  · intro hres1 hres2
    obtain ⟨w1, hw1, he1⟩ := explicit_width_of_resolves_any cls
      " has conflicting 'starts' type: " hres1
    obtain ⟨w2, hw2, he2⟩ := explicit_width_of_resolves_any cls
      " has conflicting 'stops' type: " hres2
    simp [fromjson_ListArray, he1, he2, require_width_ok _ _ hw1,
      require_width_ok _ _ hw2, bind, Except.bind, missing]

theorem fromjson_IndexedOptionArray_no_content (env : Env) (cls : String)
    (ms : List (String × JSON)) (h : Bool) (p : Parameters) (fl : Flags) :
    all_ok (fun _ => False)
      (fromjson_IndexedOptionArray env cls ms h p fl none) ∧
    ((∃ w, resolves env ms "index" fl.width_option w) →
      fromjson_IndexedOptionArray env cls ms h p fl none
        = .error (.invalid_argument (cls ++ " is missing its 'content'"))) := by
  constructor
  · unfold fromjson_IndexedOptionArray
    exact all_ok_bind fun _ => all_ok_bind fun _ => all_ok_error _ _
  · intro hres
    obtain ⟨w, hw, he⟩ := explicit_width_of_resolves_any cls
      " has conflicting 'index' type: " hres
    simp [fromjson_IndexedOptionArray, he, require_width_ok _ _ hw, bind,
      Except.bind, missing]

theorem fromjson_IndexedArray_no_content (env : Env) (cls : String)
    (ms : List (String × JSON)) (h : Bool) (p : Parameters) (fl : Flags) :
    all_ok (fun _ => False) (fromjson_IndexedArray env cls ms h p fl none) ∧
    ((∃ w, resolves env ms "index" fl.width w) →
      fromjson_IndexedArray env cls ms h p fl none
        = .error (.invalid_argument (cls ++ " is missing its 'content'"))) := by
  constructor
  · unfold fromjson_IndexedArray
    exact all_ok_bind fun _ => all_ok_bind fun _ => all_ok_error _ _
  · intro hres
    obtain ⟨w, hw, he⟩ := explicit_width_of_resolves_any cls
      " has conflicting 'index' type: " hres
    simp [fromjson_IndexedArray, he, require_width_ok _ _ hw, bind,
      Except.bind, missing]

theorem fromjson_ByteMaskedArray_no_content (env : Env) (cls : String)
    (ms : List (String × JSON)) (h : Bool) (p : Parameters) (fl : Flags) :
    all_ok (fun _ => False)
      (fromjson_ByteMaskedArray env cls ms h p fl none) ∧
    ((∃ w, resolves env ms "mask" fl.width w) →
      fromjson_ByteMaskedArray env cls ms h p fl none
        = .error (.invalid_argument (cls ++ " is missing its 'content'"))) := by
  constructor
  · unfold fromjson_ByteMaskedArray
    exact all_ok_bind fun _ => all_ok_bind fun _ => all_ok_error _ _
  · intro hres
    obtain ⟨w, hw, he⟩ := explicit_width_of_resolves_any cls
      " has conflicting 'mask' type: " hres
    simp [fromjson_ByteMaskedArray, he, require_width_ok _ _ hw, bind,
      Except.bind, missing]

theorem fromjson_BitMaskedArray_no_content (env : Env) (cls : String)
    (ms : List (String × JSON)) (h : Bool) (p : Parameters) (fl : Flags) :
    all_ok (fun _ => False)
      (fromjson_BitMaskedArray env cls ms h p fl none) ∧
    ((∃ w, resolves env ms "mask" fl.width w) →
      fromjson_BitMaskedArray env cls ms h p fl none
        = .error (.invalid_argument (cls ++ " is missing its 'content'"))) := by
  constructor
  · unfold fromjson_BitMaskedArray
    exact all_ok_bind fun _ => all_ok_bind fun _ => all_ok_error _ _
  · intro hres
    obtain ⟨w, hw, he⟩ := explicit_width_of_resolves_any cls
      " has conflicting 'mask' type: " hres
    simp [fromjson_BitMaskedArray, he, require_width_ok _ _ hw, bind,
      Except.bind, missing]

theorem fromjson_UnionArray_no_contents (env : Env) (cls : String)
    (ms : List (String × JSON)) (h : Bool) (p : Parameters) (fl : Flags) :
    all_ok (fun _ => False) (fromjson_UnionArray env cls ms h p fl none) := by
  unfold fromjson_UnionArray
  exact all_ok_bind fun _ => all_ok_bind fun _ => all_ok_bind fun _ =>
    all_ok_bind fun _ => all_ok_error _ _

theorem fromjson_array_at_of_not_array {env : Env}
    {ms : List (String × JSON)} {key : String}
    (h : ∀ items, JSON.member ms key ≠ some (.arr items)) :
    fromjson_array_at env key ms = none := by
  rw [fromjson_array_at_eq]
  split
  · next items hm => exact (h items hm).elim
  · rfl

theorem fromjson_object_at_of_not_object {env : Env}
    {ms : List (String × JSON)} {key : String}
    (h : ∀ pairs, JSON.member ms key ≠ some (.obj pairs)) :
    fromjson_object_at env key ms = none := by
  rw [fromjson_object_at_eq]
  split
  · next pairs hm => exact (h pairs hm).elim
  · rfl

theorem no_content_of_block {env : Env} {ms : List (String × JSON)}
    {cls : String} {keys : List (String × IndexForm)}
    (hcls : JSON.string_at ms "class" = some cls)
    (hcontent : JSON.member ms "content" = none)
    (block : Bool → Parameters → Except Failure Form)
    (hblock : ∀ h p f ca co,
      fromjson_class env cls ms h p none f ca co = block h p)
    (hnever : ∀ h p, all_ok (fun _ => False) (block h p))
    (hexact : ∀ h p, (∀ kw ∈ keys, ∃ w, resolves env ms kw.1 kw.2 w) →
      block h p
        = .error (.invalid_argument (cls ++ " is missing its 'content'"))) :
    no_content_outcome env ms cls keys := by
  constructor
  · refine fromjson_part_obj_throws hcls fun h p => ?_
    rw [fromjson_at_of_absent hcontent, hblock]
    exact hnever h p
  · intro p h hp hh hres
    rw [fromjson_part_obj hcls hp hh, fromjson_at_of_absent hcontent, hblock]
    exact hexact h p hres

theorem no_content_ListOffsetArray {env : Env} {ms : List (String × JSON)}
    {cls : String} {start : IndexForm}
    (hmem : (cls, start) ∈ [("ListOffsetArray", env.flags.width),
      ("ListOffsetArray64", IndexForm.i64),
      ("ListOffsetArrayU32", IndexForm.u32),
      ("ListOffsetArray32", IndexForm.i32)])
    (hcls : JSON.string_at ms "class" = some cls)
    (hcontent : JSON.member ms "content" = none) :
    no_content_outcome env ms cls [("offsets", start)] := by
  obtain ⟨fl, hfl, heq⟩ := class_ListOffsetArray env hmem
  subst hfl
  refine no_content_of_block hcls hcontent _
    (fun h p f ca co => heq ms h p none f ca co)
    (fun h p => (fromjson_ListOffsetArray_no_content env cls ms h p fl).1)
    (fun h p hres => (fromjson_ListOffsetArray_no_content env cls ms h p fl).2
      (hres ("offsets", fl.width) (by simp)))

theorem no_content_ListArray {env : Env} {ms : List (String × JSON)}
    {cls : String} {start : IndexForm}
    (hmem : (cls, start) ∈ [("ListArray", IndexForm.kNumIndexForm),
      ("ListArray64", IndexForm.i64), ("ListArrayU32", IndexForm.u32),
      ("ListArray32", IndexForm.i32)])
    (hcls : JSON.string_at ms "class" = some cls)
    (hcontent : JSON.member ms "content" = none) :
    no_content_outcome env ms cls [("starts", start), ("stops", start)] := by
  obtain ⟨fl, hfl, heq⟩ := class_ListArray env hmem
  subst hfl
  refine no_content_of_block hcls hcontent _
    (fun h p f ca co => heq ms h p none f ca co)
    (fun h p => (fromjson_ListArray_no_content env cls ms h p fl).1)
    (fun h p hres => (fromjson_ListArray_no_content env cls ms h p fl).2
      (hres ("starts", fl.width) (by simp))
      (hres ("stops", fl.width) (by simp)))

theorem no_content_IndexedOptionArray {env : Env}
    {ms : List (String × JSON)} {cls : String} {start : IndexForm}
    (hmem : (cls, start) ∈ [("IndexedOptionArray", IndexForm.kNumIndexForm),
      ("IndexedOptionArray64", IndexForm.i64),
      ("IndexedOptionArray32", IndexForm.i32)])
    (hcls : JSON.string_at ms "class" = some cls)
    (hcontent : JSON.member ms "content" = none) :
    no_content_outcome env ms cls [("index", start)] := by
  obtain ⟨fl, hfl, heq⟩ := class_IndexedOptionArray env hmem
  subst hfl
  refine no_content_of_block hcls hcontent _
    (fun h p f ca co => heq ms h p none f ca co)
    (fun h p => (fromjson_IndexedOptionArray_no_content env cls ms h p fl).1)
    (fun h p hres =>
      (fromjson_IndexedOptionArray_no_content env cls ms h p fl).2
        (hres ("index", fl.width_option) (by simp)))

theorem no_content_IndexedArray {env : Env}
    {ms : List (String × JSON)} {cls : String} {start : IndexForm}
    (hmem : (cls, start) ∈ [("IndexedArray", IndexForm.kNumIndexForm),
      ("IndexedArray64", IndexForm.i64), ("IndexedArrayU32", IndexForm.u32),
      ("IndexedArray32", IndexForm.i32)])
    (hcls : JSON.string_at ms "class" = some cls)
    (hcontent : JSON.member ms "content" = none) :
    no_content_outcome env ms cls [("index", start)] := by
  obtain ⟨fl, hfl, heq⟩ := class_IndexedArray env hmem
  subst hfl
  refine no_content_of_block hcls hcontent _
    (fun h p f ca co => heq ms h p none f ca co)
    (fun h p => (fromjson_IndexedArray_no_content env cls ms h p fl).1)
    (fun h p hres => (fromjson_IndexedArray_no_content env cls ms h p fl).2
      (hres ("index", fl.width) (by simp)))

theorem no_content_ByteMaskedArray {env : Env}
    {ms : List (String × JSON)}
    (hcls : JSON.string_at ms "class" = some "ByteMaskedArray")
    (hcontent : JSON.member ms "content" = none) :
    no_content_outcome env ms "ByteMaskedArray"
      [("mask", .kNumIndexForm)] := by
  obtain ⟨fl, hfl, heq⟩ := class_ByteMaskedArray env
  refine no_content_of_block hcls hcontent _
    (fun h p f ca co => heq ms h p none f ca co)
    (fun h p => (fromjson_ByteMaskedArray_no_content env _ ms h p fl).1)
    (fun h p hres => (fromjson_ByteMaskedArray_no_content env _ ms h p fl).2
      (hfl ▸ hres ("mask", .kNumIndexForm) (by simp)))

theorem no_content_BitMaskedArray {env : Env}
    {ms : List (String × JSON)}
    (hcls : JSON.string_at ms "class" = some "BitMaskedArray")
    (hcontent : JSON.member ms "content" = none) :
    no_content_outcome env ms "BitMaskedArray"
      [("mask", .kNumIndexForm)] := by
  obtain ⟨fl, hfl, heq⟩ := class_BitMaskedArray env
  refine no_content_of_block hcls hcontent _
    (fun h p f ca co => heq ms h p none f ca co)
    (fun h p => (fromjson_BitMaskedArray_no_content env _ ms h p fl).1)
    (fun h p hres => (fromjson_BitMaskedArray_no_content env _ ms h p fl).2
      (hfl ▸ hres ("mask", .kNumIndexForm) (by simp)))

theorem no_content_RegularArray {env : Env}
    {ms : List (String × JSON)}
    (hcls : JSON.string_at ms "class" = some "RegularArray")
    (hcontent : JSON.member ms "content" = none) :
    no_content_outcome env ms "RegularArray" [] :=
  no_content_of_block hcls hcontent
    (fun _ _ => .error (missing "RegularArray" " is missing its 'content'"))
    (fun _ _ _ _ _ => rfl) (fun _ _ => all_ok_error _ _) (fun _ _ _ => rfl)

theorem no_content_UnmaskedArray {env : Env}
    {ms : List (String × JSON)}
    (hcls : JSON.string_at ms "class" = some "UnmaskedArray")
    (hcontent : JSON.member ms "content" = none) :
    no_content_outcome env ms "UnmaskedArray" [] :=
  no_content_of_block hcls hcontent
    (fun _ _ => .error (missing "UnmaskedArray" " is missing its 'content'"))
    (fun _ _ _ _ _ => rfl) (fun _ _ => all_ok_error _ _) (fun _ _ _ => rfl)

/-- C7: an object whose class reads a `content` member (`ListOffsetArray*`,
`ListArray*`, `RegularArray`, `IndexedOptionArray*`, `IndexedArray*`,
`ByteMaskedArray`, `BitMaskedArray`, `UnmaskedArray`) and that has none makes
`fromjson_part` throw a `std::invalid_argument`; once the parameters and
`has_identities` are read and the width keys of the class are resolved, its
text is the class name followed by ` is missing its 'content'`.  A
`UnionArray*` whose `contents` is absent or no array, and a `RecordArray`
whose `contents` is absent or neither array nor object, throw a
`std::invalid_argument` too. -/
theorem missing_content (env : Env) (ms : List (String × JSON))
    (cls : String) (hcls : JSON.string_at ms "class" = some cls) :
    (∀ keys, (cls, keys) ∈ content_classes env →
      JSON.member ms "content" = none →
      throws_invalid_argument (fromjson_part env (.obj ms)) ∧
      ∀ p h, fromjson_parameters env ms = .ok p →
        fromjson_has_identities ms = .ok h →
        (∀ kw ∈ keys, ∃ w, resolves env ms kw.1 kw.2 w) →
        fromjson_part env (.obj ms)
          = .error (.invalid_argument
              (cls ++ " is missing its 'content'"))) ∧
    (cls ∈ ["UnionArray", "UnionArray8_64", "UnionArray8_U32",
        "UnionArray8_32"] →
      (∀ items, JSON.member ms "contents" ≠ some (.arr items)) →
      throws_invalid_argument (fromjson_part env (.obj ms))) ∧
    (cls = "RecordArray" →
      (∀ items, JSON.member ms "contents" ≠ some (.arr items)) →
      (∀ pairs, JSON.member ms "contents" ≠ some (.obj pairs)) →
      throws_invalid_argument (fromjson_part env (.obj ms))) := by
  refine ⟨?_, ?_, ?_⟩
  · intro keys hmem hcontent
    simp only [content_classes, List.mem_cons, List.mem_singleton,
      List.not_mem_nil, or_false] at hmem
    repeat' rcases hmem with hmem | hmem
    · exact no_content_ListOffsetArray (by simp) hcls hcontent
    · exact no_content_ListOffsetArray (by simp) hcls hcontent
    · exact no_content_ListOffsetArray (by simp) hcls hcontent
    · exact no_content_ListOffsetArray (by simp) hcls hcontent
    · exact no_content_ListArray (by simp) hcls hcontent
    · exact no_content_ListArray (by simp) hcls hcontent
    · exact no_content_ListArray (by simp) hcls hcontent
    · exact no_content_ListArray (by simp) hcls hcontent
    · exact no_content_RegularArray hcls hcontent
    · exact no_content_IndexedOptionArray (by simp) hcls hcontent
    · exact no_content_IndexedOptionArray (by simp) hcls hcontent
    · exact no_content_IndexedOptionArray (by simp) hcls hcontent
    · exact no_content_IndexedArray (by simp) hcls hcontent
    · exact no_content_IndexedArray (by simp) hcls hcontent
    · exact no_content_IndexedArray (by simp) hcls hcontent
    · exact no_content_IndexedArray (by simp) hcls hcontent
    · exact no_content_ByteMaskedArray hcls hcontent
    · exact no_content_BitMaskedArray hcls hcontent
    · exact no_content_UnmaskedArray hcls hcontent
  · intro hmem hcontents
    have hmem2 : ∃ wt w, (cls, wt, w) ∈
        [("UnionArray", IndexForm.kNumIndexForm, IndexForm.kNumIndexForm),
          ("UnionArray8_64", IndexForm.i8, IndexForm.i64),
          ("UnionArray8_U32", IndexForm.i8, IndexForm.u32),
          ("UnionArray8_32", IndexForm.i8, IndexForm.i32)] := by
      simp only [List.mem_cons, List.mem_singleton, List.not_mem_nil,
        or_false] at hmem
      rcases hmem with rfl | rfl | rfl | rfl
      · exact ⟨_, _, List.mem_cons_self _ _⟩
      · exact ⟨.i8, .i64, by simp⟩
      · exact ⟨.i8, .u32, by simp⟩
      · exact ⟨.i8, .i32, by simp⟩
    obtain ⟨wt, w, hmem3⟩ := hmem2
    obtain ⟨fl, _, _, heq⟩ := class_UnionArray env hmem3
    refine fromjson_part_obj_throws hcls fun h p => ?_
    rw [heq, fromjson_array_at_of_not_array hcontents]
    exact fromjson_UnionArray_no_contents env cls ms h p fl
  · intro hrec hnotarr hnotobj
    subst hrec
    refine fromjson_part_obj_throws hcls fun h p => ?_
    rw [fromjson_array_at_of_not_array hnotarr,
      fromjson_object_at_of_not_object hnotobj]
    exact all_ok_error _ _

/-! ## The scalar keys -/

theorem fromjson_RegularArray_no_size {cls : String}
    {ms : List (String × JSON)} (h : Bool) (p : Parameters)
    (c : Option (JSON × Except Failure Form))
    (hsize : JSON.int_at ms "size" = none) :
    all_ok (fun _ => False) (fromjson_RegularArray cls ms h p c) ∧
    (∀ cj f, c = some (cj, .ok f) →
      fromjson_RegularArray cls ms h p c
        = .error (.invalid_argument (cls ++ " is missing its 'size'"))) := by
  constructor
  · unfold fromjson_RegularArray
    split
    · exact all_ok_error _ _
    · refine all_ok_bind fun _ => ?_
      rw [hsize]
      exact all_ok_error _ _
  · intro cj f hc
    subst hc
    simp [fromjson_RegularArray, hsize, bind, Except.bind, missing]

theorem fromjson_ByteMaskedArray_no_valid_when {env : Env} {cls : String}
    {ms : List (String × JSON)} (h : Bool) (p : Parameters) (fl : Flags)
    (c : Option (JSON × Except Failure Form))
    (hkey : JSON.bool_at ms "valid_when" = none) :
    all_ok (fun _ => False) (fromjson_ByteMaskedArray env cls ms h p fl c) ∧
    (∀ w cj f, resolves env ms "mask" fl.width w → c = some (cj, .ok f) →
      fromjson_ByteMaskedArray env cls ms h p fl c
        = .error (.invalid_argument
            (cls ++ " is missing its 'valid_when'"))) := by
  constructor
  · unfold fromjson_ByteMaskedArray
    refine all_ok_bind fun _ => all_ok_bind fun _ => ?_
    split
    · exact all_ok_error _ _
    · refine all_ok_bind fun _ => ?_
      rw [hkey]
      exact all_ok_error _ _
  · intro w cj f hres hc
    subst hc
    simp [fromjson_ByteMaskedArray, explicit_width_of_resolves _ _ hres,
      require_width_ok _ _ hres.1, hkey, bind, Except.bind, missing]

theorem fromjson_BitMaskedArray_no_valid_when {env : Env} {cls : String}
    {ms : List (String × JSON)} (h : Bool) (p : Parameters) (fl : Flags)
    (c : Option (JSON × Except Failure Form))
    (hkey : JSON.bool_at ms "valid_when" = none) :
    all_ok (fun _ => False) (fromjson_BitMaskedArray env cls ms h p fl c) ∧
    (∀ w cj f, resolves env ms "mask" fl.width w → c = some (cj, .ok f) →
      fromjson_BitMaskedArray env cls ms h p fl c
        = .error (.invalid_argument
            (cls ++ " is missing its 'valid_when'"))) := by
  constructor
  · unfold fromjson_BitMaskedArray
    refine all_ok_bind fun _ => all_ok_bind fun _ => ?_
    split
    · exact all_ok_error _ _
    · refine all_ok_bind fun _ => ?_
      rw [hkey]
      exact all_ok_error _ _
  · intro w cj f hres hc
    subst hc
    simp [fromjson_BitMaskedArray, explicit_width_of_resolves _ _ hres,
      require_width_ok _ _ hres.1, hkey, bind, Except.bind, missing]

theorem fromjson_BitMaskedArray_no_lsb_order {env : Env} {cls : String}
    {ms : List (String × JSON)} (h : Bool) (p : Parameters) (fl : Flags)
    (c : Option (JSON × Except Failure Form))
    (hkey : JSON.bool_at ms "lsb_order" = none) :
    all_ok (fun _ => False) (fromjson_BitMaskedArray env cls ms h p fl c) ∧
    (∀ w cj f v, resolves env ms "mask" fl.width w → c = some (cj, .ok f) →
      JSON.bool_at ms "valid_when" = some v →
      fromjson_BitMaskedArray env cls ms h p fl c
        = .error (.invalid_argument
            (cls ++ " is missing its 'lsb_order'"))) := by
  constructor
  · unfold fromjson_BitMaskedArray
    refine all_ok_bind fun _ => all_ok_bind fun _ => ?_
    split
    · exact all_ok_error _ _
    · refine all_ok_bind fun _ => ?_
      split
      · exact all_ok_error _ _
      · rw [hkey]
        exact all_ok_error _ _
  · intro w cj f v hres hc hv
    subst hc
    simp [fromjson_BitMaskedArray, explicit_width_of_resolves _ _ hres,
      require_width_ok _ _ hres.1, hkey, hv, bind, Except.bind, missing]

theorem fromjson_VirtualArray_no_has_length {cls : String}
    {ms : List (String × JSON)} (h : Bool) (p : Parameters)
    (c : Option (JSON × Except Failure Form))
    (hkey : JSON.bool_at ms "has_length" = none) :
    all_ok (fun _ => False) (fromjson_VirtualArray cls ms h p c) ∧
    (∀ fj r, c = some (fj, r) → (fj = .null ∨ ∃ f, r = .ok f) →
      fromjson_VirtualArray cls ms h p c
        = .error (.invalid_argument
            (cls ++ " is missing its 'has_length'"))) := by
  constructor
  · unfold fromjson_VirtualArray
    split
    · exact all_ok_error _ _
    · refine all_ok_bind fun _ => ?_
      rw [hkey]
      exact all_ok_error _ _
  · intro fj r hc hfj
    subst hc
    rcases hfj with rfl | ⟨f, rfl⟩
    · simp [fromjson_VirtualArray, hkey, bind, Except.bind, missing]
    · cases fj <;>
        simp [fromjson_VirtualArray, hkey, bind, Except.bind, missing,
          Except.map]

/-- C8: the scalar keys are required.  A `RegularArray` whose `size` is
absent or fails `IsInt()`, a `ByteMaskedArray` or `BitMaskedArray` without a
boolean `valid_when`, a `BitMaskedArray` without a boolean `lsb_order`, and a
`VirtualArray` without `form` or without a boolean `has_length` each make
`fromjson_part` throw a `std::invalid_argument`; when the checks made before
the key pass (parameters, `has_identities`, the `mask` width, a `content` or
`form` that parses, the keys tested earlier) its text is the class name
followed by ` is missing its '<key>'`.  A `VirtualArray` whose `form` is
JSON null and whose `has_length` is a boolean gives a `VirtualForm` with no
inner form. -/
theorem scalar_keys_required (env : Env) (ms : List (String × JSON))
    (cls : String) (hcls : JSON.string_at ms "class" = some cls) :
    (cls = "RegularArray" → JSON.int_at ms "size" = none →
      throws_invalid_argument (fromjson_part env (.obj ms)) ∧
      ∀ p h cj c, fromjson_parameters env ms = .ok p →
        fromjson_has_identities ms = .ok h →
        JSON.member ms "content" = some cj → fromjson_part env cj = .ok c →
        fromjson_part env (.obj ms)
          = .error (.invalid_argument (cls ++ " is missing its 'size'"))) ∧
    (cls = "ByteMaskedArray" ∨ cls = "BitMaskedArray" →
      JSON.bool_at ms "valid_when" = none →
      throws_invalid_argument (fromjson_part env (.obj ms)) ∧
      ∀ p h w cj c, fromjson_parameters env ms = .ok p →
        fromjson_has_identities ms = .ok h →
        resolves env ms "mask" .kNumIndexForm w →
        JSON.member ms "content" = some cj → fromjson_part env cj = .ok c →
        fromjson_part env (.obj ms)
          = .error (.invalid_argument
              (cls ++ " is missing its 'valid_when'"))) ∧
    (cls = "BitMaskedArray" → JSON.bool_at ms "lsb_order" = none →
      throws_invalid_argument (fromjson_part env (.obj ms)) ∧
      ∀ p h w cj c v, fromjson_parameters env ms = .ok p →
        fromjson_has_identities ms = .ok h →
        resolves env ms "mask" .kNumIndexForm w →
        JSON.member ms "content" = some cj → fromjson_part env cj = .ok c →
        JSON.bool_at ms "valid_when" = some v →
        fromjson_part env (.obj ms)
          = .error (.invalid_argument
              (cls ++ " is missing its 'lsb_order'"))) ∧
    (cls = "VirtualArray" → JSON.member ms "form" = none →
      throws_invalid_argument (fromjson_part env (.obj ms)) ∧
      ∀ p h, fromjson_parameters env ms = .ok p →
        fromjson_has_identities ms = .ok h →
        fromjson_part env (.obj ms)
          = .error (.invalid_argument (cls ++ " is missing its 'form'"))) ∧
    (cls = "VirtualArray" → JSON.bool_at ms "has_length" = none →
      throws_invalid_argument (fromjson_part env (.obj ms)) ∧
      ∀ p h fj, fromjson_parameters env ms = .ok p →
        fromjson_has_identities ms = .ok h →
        JSON.member ms "form" = some fj →
        (fj = .null ∨ ∃ f, fromjson_part env fj = .ok f) →
        fromjson_part env (.obj ms)
          = .error (.invalid_argument
              (cls ++ " is missing its 'has_length'"))) ∧
    (cls = "VirtualArray" → JSON.member ms "form" = some .null →
      ∀ p h b, fromjson_parameters env ms = .ok p →
        fromjson_has_identities ms = .ok h →
        JSON.bool_at ms "has_length" = some b →
        fromjson_part env (.obj ms) = .ok (.VirtualForm h p none b)) := by
  refine ⟨?_, ?_, ?_, ?_, ?_, ?_⟩
  · rintro rfl hsize
    refine ⟨fromjson_part_obj_throws hcls fun h p =>
      (fromjson_RegularArray_no_size h p _ hsize).1, ?_⟩
    intro p h cj c hp hh hcontent hcj
    rw [fromjson_part_obj hcls hp hh]
    exact (fromjson_RegularArray_no_size h p _ hsize).2 cj c
      (by rw [fromjson_at_of_member hcontent, hcj])
  · rintro (rfl | rfl) hkey
    · obtain ⟨fl, hfl, heq⟩ := class_ByteMaskedArray env
      refine ⟨fromjson_part_obj_throws hcls fun h p => ?_, ?_⟩
      · rw [heq]
        exact (fromjson_ByteMaskedArray_no_valid_when h p fl _ hkey).1
      · intro p h w cj c hp hh hres hcontent hcj
        rw [fromjson_part_obj hcls hp hh, heq]
        exact (fromjson_ByteMaskedArray_no_valid_when h p fl _ hkey).2 w cj c
          (hfl ▸ hres) (by rw [fromjson_at_of_member hcontent, hcj])
    · obtain ⟨fl, hfl, heq⟩ := class_BitMaskedArray env
      refine ⟨fromjson_part_obj_throws hcls fun h p => ?_, ?_⟩
      · rw [heq]
        exact (fromjson_BitMaskedArray_no_valid_when h p fl _ hkey).1
      · intro p h w cj c hp hh hres hcontent hcj
        rw [fromjson_part_obj hcls hp hh, heq]
        exact (fromjson_BitMaskedArray_no_valid_when h p fl _ hkey).2 w cj c
          (hfl ▸ hres) (by rw [fromjson_at_of_member hcontent, hcj])
  · rintro rfl hkey
    obtain ⟨fl, hfl, heq⟩ := class_BitMaskedArray env
    refine ⟨fromjson_part_obj_throws hcls fun h p => ?_, ?_⟩
    · rw [heq]
      exact (fromjson_BitMaskedArray_no_lsb_order h p fl _ hkey).1
    · intro p h w cj c v hp hh hres hcontent hcj hv
      rw [fromjson_part_obj hcls hp hh, heq]
      exact (fromjson_BitMaskedArray_no_lsb_order h p fl _ hkey).2 w cj c v
        (hfl ▸ hres) (by rw [fromjson_at_of_member hcontent, hcj]) hv
  · rintro rfl hform
    refine ⟨fromjson_part_obj_throws hcls fun h p => ?_, ?_⟩
    · rw [fromjson_at_of_absent hform]
      exact all_ok_error _ _
    · intro p h hp hh
      rw [fromjson_part_obj hcls hp hh, fromjson_at_of_absent hform]
      rfl
  · rintro rfl hkey
    refine ⟨fromjson_part_obj_throws hcls fun h p =>
      (fromjson_VirtualArray_no_has_length h p _ hkey).1, ?_⟩
    intro p h fj hp hh hform hfj
    rw [fromjson_part_obj hcls hp hh]
    exact (fromjson_VirtualArray_no_has_length h p _ hkey).2 fj
      (fromjson_part env fj) (fromjson_at_of_member hform) hfj
  · rintro rfl hform p h b hp hh hb
    rw [fromjson_part_obj hcls hp hh, fromjson_at_of_member hform]
    show fromjson_VirtualArray "VirtualArray" ms h p
      (some (JSON.null, fromjson_part env JSON.null))
        = Except.ok (Form.VirtualForm h p none b)
    simp [fromjson_VirtualArray, hb, bind, Except.bind, pure, Except.pure]

/-! ## Values that are no Form -/

theorem primitive_of_not_name {env : Env} {s : String}
    (h : s ∉ primitive_names) : primitive env s = none := by
  simp only [primitive_names, List.mem_cons, List.mem_singleton,
    List.not_mem_nil, or_false, not_or] at h
  simp [primitive, h]

theorem fromjson_class_of_not_name {env : Env} {cls : String}
    (hcls : cls ∉ class_names) (ms : List (String × JSON)) (h : Bool)
    (p : Parameters) (c f : Option (JSON × Except Failure Form))
    (ca : Option (Except Failure (List Form)))
    (co : Option (List String × Except Failure (List Form))) :
    fromjson_class env cls ms h p c f ca co
      = .error (unrecognized env (.obj ms)) := by
  simp only [class_names, List.mem_cons, List.mem_singleton,
    List.not_mem_nil, or_false, not_or] at hcls
  simp [fromjson_class, Flags.or4, Flags.or3, hcls]

/-- C9: a JSON value that is neither one of the eleven primitive names nor
an object whose `class` is a string among the class names makes
`fromjson_part` throw a `std::invalid_argument`.  Its text is
`JSON cannot be recognized as a Form:` followed by the pretty-printed value
for every value that is no object with a string `class`, and for an object
with an unknown class once its parameters and `has_identities` are read
(lines 94-116 run before the class is looked at). -/
theorem unrecognized_json (env : Env) (j : JSON)
    (hstr : ∀ s, j = .str s → s ∉ primitive_names)
    (hobj : ∀ ms cls, j = .obj ms → JSON.string_at ms "class" = some cls →
      cls ∉ class_names) :
    throws_invalid_argument (fromjson_part env j) ∧
    ((∀ ms, j = .obj ms → JSON.string_at ms "class" ≠ none →
        (∃ p, fromjson_parameters env ms = .ok p) ∧
        (∃ h, fromjson_has_identities ms = .ok h)) →
      fromjson_part env j = .error (unrecognized env j)) := by
  cases j with
  | null => exact ⟨⟨_, rfl⟩, fun _ => rfl⟩
  | bool b => exact ⟨⟨_, rfl⟩, fun _ => rfl⟩
  | int n => exact ⟨⟨_, rfl⟩, fun _ => rfl⟩
  | double t => exact ⟨⟨_, rfl⟩, fun _ => rfl⟩
  | arr items => exact ⟨⟨_, rfl⟩, fun _ => rfl⟩
  | str s =>
    have hp := @primitive_of_not_name env s (hstr s rfl)
    have : fromjson_part env (.str s) = .error (unrecognized env (.str s)) := by
      simp [fromjson_part, fromjson_string, hp]
    exact ⟨⟨_, this⟩, fun _ => this⟩
  | obj ms =>
    cases hcls : JSON.string_at ms "class" with
    | none =>
      have : fromjson_part env (.obj ms)
          = .error (unrecognized env (.obj ms)) := by
        simp [fromjson_part, fromjson_object, hcls]
      exact ⟨⟨_, this⟩, fun _ => this⟩
    | some cls =>
      have hname := hobj ms cls rfl hcls
      constructor
      · refine fromjson_part_obj_throws hcls fun h p => ?_
        rw [fromjson_class_of_not_name hname]
        exact all_ok_error _ _
      · intro hheader
        obtain ⟨⟨p, hp⟩, ⟨h, hh⟩⟩ := hheader ms rfl (by simp [hcls])
        rw [fromjson_part_obj hcls hp hh, fromjson_class_of_not_name hname]

/-! ## Parameters and `has_identities` -/

theorem find_assign (p : Parameters) (key value k : String) :
    Parameters.find (Parameters.assign p key value) k
      = if k = key then some value else Parameters.find p k := by
  induction p with
  | nil =>
    by_cases hk : k = key
    · simp [Parameters.assign, Parameters.find, hk]
    · have hk2 : ¬ key = k := fun h => hk h.symm
      simp [Parameters.assign, Parameters.find, hk, hk2]
  | cons kv rest ih =>
    obtain ⟨k0, v0⟩ := kv
    simp only [Parameters.assign]
    by_cases h0 : key = k0
    · subst h0
      by_cases hk : k = key
      · simp [Parameters.find, hk]
      · have hk2 : ¬ key = k := fun h => hk h.symm
        simp [Parameters.find, hk, hk2]
    · by_cases hlt : key.data < k0.data
      · by_cases hk : k = key
        · simp [Parameters.find, h0, hlt, hk]
        · have hk2 : ¬ key = k := fun h => hk h.symm
          simp [Parameters.find, h0, hlt, hk, hk2]
      · by_cases hk : k = key
        · subst hk
          have h02 : ¬ k0 = k := fun h => h0 h.symm
          simp [Parameters.find, h0, hlt, h02, ih]
        · simp [Parameters.find, h0, hlt, hk, ih]

theorem member_append (xs ys : List (String × JSON)) (k : String) :
    JSON.member (xs ++ ys) k
      = match JSON.member xs k with
        | some v => some v
        | none => JSON.member ys k := by
  induction xs with
  | nil => simp [JSON.member]
  | cons kv rest ih =>
    obtain ⟨k0, v0⟩ := kv
    by_cases hk : k0 = k
    · simp [JSON.member, hk]
    · simp [JSON.member, hk, ih]

theorem find_parameters_loop (env : Env) :
    ∀ (pairs : List (String × JSON)) (p : Parameters) (k : String),
      Parameters.find (parameters_loop env pairs p) k
        = match JSON.member pairs.reverse k with
          | some v => some (env.Writer v)
          | none => Parameters.find p k
  | [], p, k => by simp [parameters_loop, JSON.member]
  | (name, value) :: rest, p, k => by
    simp only [parameters_loop, List.reverse_cons]
    rw [find_parameters_loop env rest, member_append, find_assign]
    cases hm : JSON.member rest.reverse k with
    | some v => simp
    | none =>
      by_cases hk : name = k
      · simp [JSON.member, hk]
      · have hk2 : ¬ k = name := fun h => hk h.symm
        simp [JSON.member, hk, hk2]

/-- C10: for an object with a string `class`.  Every Form parsed from it
has `has_identities` false when the key is absent and equal to the boolean
when the key holds one; a `has_identities` that is no boolean throws a
`std::invalid_argument` (with the text `'has_identities' must be boolean`
when the parameters are read).  Every Form parsed from it has empty
parameters when `parameters` is absent and, when `parameters` is an object,
maps each member name to the compact text of the member's value (of the last
member of that name, if a name repeats) and no other key; a `parameters`
that is no object throws `'parameters' must be a JSON object`. -/
theorem header_of_parsed (env : Env) (ms : List (String × JSON))
    (cls : String) (hcls : JSON.string_at ms "class" = some cls) :
    (JSON.member ms "has_identities" = none →
      ∀ f, fromjson_part env (.obj ms) = .ok f → f.has_identities = false) ∧
    (∀ b, JSON.member ms "has_identities" = some (.bool b) →
      ∀ f, fromjson_part env (.obj ms) = .ok f → f.has_identities = b) ∧
    (∀ v, JSON.member ms "has_identities" = some v → (∀ b, v ≠ .bool b) →
      throws_invalid_argument (fromjson_part env (.obj ms)) ∧
      ∀ p, fromjson_parameters env ms = .ok p →
        fromjson_part env (.obj ms)
          = .error (.invalid_argument "'has_identities' must be boolean")) ∧
    (JSON.member ms "parameters" = none →
      ∀ f, fromjson_part env (.obj ms) = .ok f → f.parameters = []) ∧
    (∀ pairs, JSON.member ms "parameters" = some (.obj pairs) →
      ∀ f, fromjson_part env (.obj ms) = .ok f →
      ∀ k, f.parameters.find k
        = (JSON.member pairs.reverse k).map env.Writer) ∧
    (∀ v, JSON.member ms "parameters" = some v → (∀ pairs, v ≠ .obj pairs) →
      fromjson_part env (.obj ms)
        = .error (.invalid_argument
            "'parameters' must be a JSON object")) := by
  refine ⟨?_, ?_, ?_, ?_, ?_, ?_⟩
  · intro hm f hf
    obtain ⟨_, p, h, _, _, hh, hkept⟩ := fromjson_part_obj_ok env ms f hf
    simp [fromjson_has_identities, hm] at hh
    rw [hkept.1, ← hh]
  · intro b hm f hf
    obtain ⟨_, p, h, _, _, hh, hkept⟩ := fromjson_part_obj_ok env ms f hf
    simp [fromjson_has_identities, hm] at hh
    rw [hkept.1, ← hh]
  · intro v hm hv
    have hh : fromjson_has_identities ms
        = .error (.invalid_argument "'has_identities' must be boolean") := by
      unfold fromjson_has_identities
      rw [hm]
      cases v <;> first | rfl | exact (hv _ rfl).elim
    constructor
    · refine throws_of_never_ok ?_ (fromjson_part_oia env _)
      simp only [fromjson_part, fromjson_object, hcls, hh]
      exact all_ok_bind fun _ => all_ok_error _ _
    · intro p hp
      simp [fromjson_part, fromjson_object, hcls, hh, hp, bind, Except.bind]
  · intro hm f hf
    obtain ⟨_, p, h, _, hp, _, hkept⟩ := fromjson_part_obj_ok env ms f hf
    simp [fromjson_parameters, hm] at hp
    rw [hkept.2.1, ← hp]
  · intro pairs hm f hf k
    obtain ⟨_, p, h, _, hp, _, hkept⟩ := fromjson_part_obj_ok env ms f hf
    simp [fromjson_parameters, hm] at hp
    rw [hkept.2.1, ← hp, find_parameters_loop]
    cases JSON.member pairs.reverse k <;> simp [Parameters.find]
  · intro v hm hv
    have hp : fromjson_parameters env ms
        = .error (.invalid_argument "'parameters' must be a JSON object") := by
      unfold fromjson_parameters
      rw [hm]
      cases v <;> first | rfl | exact (hv _ rfl).elim
    simp [fromjson_part, fromjson_object, hcls, hp, bind, Except.bind]

/-- C7 at `ListOffsetArray64` with nothing but its class. -/
theorem missing_content_witness :
    fromjson_part lp64 (.obj [("class", .str "ListOffsetArray64")])
      = .error (.invalid_argument
          "ListOffsetArray64 is missing its 'content'") :=
  ((missing_content lp64 [("class", .str "ListOffsetArray64")]
      "ListOffsetArray64" rfl).1 [("offsets", .i64)] (by decide) rfl).2
    [] false rfl rfl
    (by
      intro kw hkw
      simp only [List.mem_singleton] at hkw
      subst hkw
      exact ⟨.i64, by decide, rfl⟩)

/-- C8 at a `VirtualArray` with a null `form`, and at a `RegularArray`
whose `size` is `2147483648`. -/
theorem scalar_keys_required_witness :
    fromjson_part lp64 (.obj [("class", .str "VirtualArray"),
        ("form", .null), ("has_length", .bool true)])
      = .ok (.VirtualForm false [] none true) ∧
    fromjson_part lp64 (.obj [("class", .str "RegularArray"),
        ("content", .str "float64"), ("size", .int 2147483648)])
      = .error (.invalid_argument "RegularArray is missing its 'size'") :=
  ⟨(scalar_keys_required lp64 [("class", .str "VirtualArray"),
        ("form", .null), ("has_length", .bool true)] "VirtualArray"
      rfl).2.2.2.2.2 rfl rfl [] false true rfl rfl rfl,
   ((scalar_keys_required lp64 [("class", .str "RegularArray"),
        ("content", .str "float64"), ("size", .int 2147483648)]
      "RegularArray" rfl).1 rfl rfl).2 [] false (.str "float64")
      (.NumpyForm false [] [] 8 "d") rfl rfl rfl rfl⟩

/-- C9 at the string `float`, which is no primitive name. -/
theorem unrecognized_json_witness :
    fromjson_part lp64 (.str "float")
      = .error (.invalid_argument
          "JSON cannot be recognized as a Form:\n\n\"float\"") :=
  (unrecognized_json lp64 (.str "float")
    (by intro s hs; cases hs; decide)
    (by intro ms cls hms; cases hms)).2
    (by intro ms hms; cases hms)

/-- C10 at an `EmptyArray` with `has_identities` true and one parameter. -/
theorem header_of_parsed_witness :
    Form.has_identities (.EmptyForm true [("a", "null")]) = true ∧
    ∀ k, Parameters.find [("a", "null")] k
      = (JSON.member [("a", JSON.null)].reverse k).map writer_model :=
  ⟨(header_of_parsed lp64 [("class", .str "EmptyArray"),
        ("has_identities", .bool true), ("parameters", .obj [("a", .null)])]
      "EmptyArray" rfl).2.1 true rfl (.EmptyForm true [("a", "null")]) rfl,
   (header_of_parsed lp64 [("class", .str "EmptyArray"),
        ("has_identities", .bool true), ("parameters", .obj [("a", .null)])]
      "EmptyArray" rfl).2.2.2.2.1 [("a", .null)] rfl
      (.EmptyForm true [("a", "null")]) rfl⟩

/-! ## Writing `has_identities` and `parameters` -/

/-- The calls the loop of `parameters_tojson` adds: for each entry, in key
order, the key as a field and the stored text as its value. -/
theorem parameters_tojson_loop_calls (p : Parameters) (builder : ToJson) :
    (Form.parameters_tojson_loop p builder).calls
      = builder.calls
        ++ (p.map fun pair => [ToJsonCall.field pair.1, .json pair.2]).flatten := by
  induction p generalizing builder with
  | nil => simp [Form.parameters_tojson_loop]
  | cons pair rest ih =>
    simp [Form.parameters_tojson_loop, ih, ToJson.field, ToJson.json]

/-- C11: `identities_tojson` adds the field `has_identities` with the flag
as its value when `verbose` or the flag is true, and nothing otherwise;
`parameters_tojson` adds the field `parameters` when `verbose` or the map is
not empty, and nothing otherwise; what it adds is a record with one field per
key of the map, in key order, each carrying that key's stored JSON text; and
`tostring` is the pretty, non-verbose `tojson`. -/
theorem header_fields_written (f : Form) (builder : ToJson) (verbose : Bool) :
    (Form.identities_tojson f builder verbose).calls
      = builder.calls
        ++ (if verbose = true ∨ f.has_identities = true then
              [.field "has_identities", .boolean f.has_identities]
            else []) ∧
    (Form.parameters_tojson f builder verbose).calls
      = builder.calls
        ++ (if verbose = true ∨ f.parameters ≠ [] then
              [.field "parameters", .beginrecord]
              ++ (f.parameters.map fun pair =>
                    [ToJsonCall.field pair.1, .json pair.2]).flatten
              ++ [.endrecord]
            else []) ∧
    (ToJsonCall.field "has_identities"
        ∈ (Form.identities_tojson f ⟨[]⟩ verbose).calls
      ↔ verbose = true ∨ f.has_identities = true) ∧
    (ToJsonCall.field "parameters"
        ∈ (Form.parameters_tojson f ⟨[]⟩ verbose).calls
      ↔ verbose = true ∨ f.parameters ≠ []) ∧
    ∀ tojson_part pretty_tostring plain_tostring,
      Form.tostring tojson_part pretty_tostring plain_tostring f
        = pretty_tostring (tojson_part f ⟨[]⟩ false) := by
  have hp : (f.parameters.isEmpty = false) ↔ f.parameters ≠ [] := by
    cases f.parameters <;> simp
  refine ⟨?_, ?_, ?_, ?_, ?_⟩
  · unfold Form.identities_tojson
    by_cases h : verbose = true ∨ f.has_identities = true
    · simp [h, ToJson.field, ToJson.boolean]
    · simp [h]
  · unfold Form.parameters_tojson
    by_cases h : verbose = true ∨ f.parameters ≠ []
    · have h' : verbose = true ∨ f.parameters.isEmpty = false := by
        rcases h with h | h
        · exact .inl h
        · exact .inr (hp.2 h)
      simp [h, h', parameters_tojson_loop_calls, ToJson.field,
        ToJson.beginrecord, ToJson.endrecord]
    · have h' : ¬ (verbose = true ∨ f.parameters.isEmpty = false) := by
        intro h3q
        rcases h3q with h3q | h3q
        · exact h (.inl h3q)
        · exact h (.inr (hp.1 h3q))
      simp [h, h']
  · unfold Form.identities_tojson
    by_cases h : verbose = true ∨ f.has_identities = true
    · simp [h, ToJson.field, ToJson.boolean]
    · simp [h]
  · unfold Form.parameters_tojson
    by_cases h : verbose = true ∨ f.parameters ≠ []
    · have h' : verbose = true ∨ f.parameters.isEmpty = false := by
        rcases h with h | h
        · exact .inl h
        · exact .inr (hp.2 h)
      simp [h, h', parameters_tojson_loop_calls, ToJson.field,
        ToJson.beginrecord, ToJson.endrecord]
    · have h' : ¬ (verbose = true ∨ f.parameters.isEmpty = false) := by
        intro h3q
        rcases h3q with h3q | h3q
        · exact h (.inl h3q)
        · exact h (.inr (hp.1 h3q))
      simp [h, h']
  · intro _ _ _
    simp [Form.tostring, Form.tojson]

/-! ## Fill loops -/

/-- A fill loop keeps the number of slots of the buffer. -/
theorem length_fill_loop (buf : Index) (offset length : Int) (value : Nat → Int) :
    (fill_loop buf offset length value).length = buf.length := by
  unfold fill_loop
  generalize length.toNat = n
  induction n with
  | zero => simp
  | succ n ih => simp [List.range_succ, List.foldl_append, ih]

/-- A fill loop writes the slots from `offset` on that the buffer has, and
leaves the others as they were. -/
theorem getElem?_fill_loop (buf : Index) (offset length : Int)
    (value : Nat → Int) (i : Nat) :
    (fill_loop buf offset length value)[i]?
      = if offset.toNat ≤ i ∧ i < offset.toNat + length.toNat ∧ i < buf.length
        then some (value (i - offset.toNat)) else buf[i]? := by
  unfold fill_loop
  generalize length.toNat = n
  generalize offset.toNat = o
  induction n with
  | zero =>
    have h : ¬ (o ≤ i ∧ i < o + 0 ∧ i < buf.length) := by omega
    simp only [List.range_zero, List.foldl_nil, h, if_false]
  | succ n ih =>
    have hlen : ((List.range n).foldl
        (fun buffer i => buffer.set (o + i) (value i)) buf).length
        = buf.length := by
      generalize hn : n = m
      clear ih hn
      induction m with
      | zero => simp
      | succ m ih => simp [List.range_succ, List.foldl_append, ih]
    simp only [List.range_succ, List.foldl_append, List.foldl_cons,
      List.foldl_nil, List.getElem?_set, hlen, ih]
    by_cases h : o + n = i
    · subst h
      by_cases hb : o + n < buf.length
      · have h3 : o ≤ o + n ∧ o + n < o + (n + 1) ∧ o + n < buf.length :=
          ⟨by omega, by omega, hb⟩
        simp only [hb, h3, if_true, and_self, Nat.add_sub_cancel_left]
      · have h3 : ¬ (o ≤ o + n ∧ o + n < o + (n + 1) ∧ o + n < buf.length) :=
          fun h3 => hb h3.2.2
        have h4 : ¬ (o ≤ o + n ∧ o + n < o + n ∧ o + n < buf.length) :=
          fun h4 => hb h4.2.2
        have h5 : buf[o + n]? = none := by
          apply List.getElem?_eq_none
          omega
        simp [hb, h5]
    · simp only [h, if_false]
      by_cases h2 : o ≤ i ∧ i < o + n ∧ i < buf.length
      · have h3 : o ≤ i ∧ i < o + (n + 1) ∧ i < buf.length :=
          ⟨h2.1, by omega, h2.2.2⟩
        simp only [h2, h3, and_self, if_true]
      · have h3 : ¬ (o ≤ i ∧ i < o + (n + 1) ∧ i < buf.length) := by
          intro h3
          apply h2
          exact ⟨h3.1, by omega, h3.2.2⟩
        simp only [h2, h3, if_false]

/-- A fresh buffer has the slots asked for. -/
theorem length_allocate (M : Methods) (n : Int) :
    (Index.allocate M n).length = n.toNat := by
  simp [Index.allocate]

/-- The `parents` of `Content::reduce`: one zero per element. -/
theorem zeroparents_allocate (M : Methods) (n : Int) :
    awkward_content_reduce_zeroparents_64 (Index.allocate M n) n
      = List.replicate n.toNat 0 := by
  apply List.ext_getElem?
  intro i
  rw [awkward_content_reduce_zeroparents_64, getElem?_fill_loop, length_allocate]
  by_cases h : i < n.toNat
  · have h2 : (0 : Int).toNat ≤ i ∧ i < (0 : Int).toNat + n.toNat ∧ i < n.toNat :=
      ⟨by simp, by simpa using h, h⟩
    rw [if_pos h2, List.getElem?_replicate, if_pos h]
  · have h2 : ¬ ((0 : Int).toNat ≤ i ∧ i < (0 : Int).toNat + n.toNat ∧ i < n.toNat) :=
      fun h2 => h h2.2.2
    rw [if_neg h2, List.getElem?_replicate, if_neg h]
    apply List.getElem?_eq_none
    rw [length_allocate]
    omega

/-- The `starts` of `Content::reduce`: the one offset 0. -/
theorem starts_allocate (M : Methods) :
    Index.setitem_at_nowrap (Index.allocate M 1) 0 0 = [0] := by
  simp [Index.setitem_at_nowrap, Index.allocate, List.range_succ]

/-- What `Content::reduce` does once the axis is validated. -/
theorem reduce_eq (M : Methods) (c : Content) (reducer : Reducer)
    (axis : Int) (mask keepdims : Bool) :
    Content.reduce M c reducer axis mask keepdims
      = (reduce_negaxis axis (M.branch_depth c)) >>= fun negaxis =>
          M.reduce_next c reducer negaxis [0]
            (List.replicate (M.length c).toNat 0) 1 mask keepdims >>= fun next =>
          M.getitem_at_nowrap next 0 := by
  simp [Content.reduce, zeroparents_allocate, starts_allocate]

/-! ## The axis of `reduce` -/

/-- The text of the exception of line 684. -/
theorem exceeds_text (axis depth : Int) :
    "axis=" ++ to_string axis
        ++ (" exceeds the depth of the nested list structure "
            ++ "(which is ")
        ++ to_string depth ++ ")"
      = "axis=" ++ to_string axis
        ++ " exceeds the depth of the nested list structure (which is "
        ++ to_string depth ++ ")" := by
  have h : (" exceeds the depth of the nested list structure "
      ++ "(which is ")
      = " exceeds the depth of the nested list structure (which is " := by
    decide
  rw [h]

/-- The axis validation of a tree that does not branch. -/
theorem reduce_negaxis_uniform (axis D : Int) :
    reduce_negaxis axis (false, D)
      = if 0 ≤ axis then
          (if axis < D then .ok (D - axis)
           else .error (.invalid_argument
            ("axis=" ++ to_string axis
              ++ " exceeds the depth of the nested list structure (which is "
              ++ to_string D ++ ")")))
        else
          (if -axis ≤ D then .ok (-axis)
           else .error (.invalid_argument
            ("axis=" ++ to_string axis
              ++ " exceeds the depth of the nested list structure (which is "
              ++ to_string D ++ ")"))) := by
  unfold reduce_negaxis
  simp only [Bool.false_eq_true, if_false, exceeds_text]
  by_cases h : 0 ≤ axis
  · have h1 : -axis ≤ 0 := by omega
    simp only [h, h1, if_true]
    by_cases h2 : axis < D
    · have h3 : 0 < -axis + D ∧ -axis + D ≤ D := by omega
      have h4 : -axis + D = D - axis := by omega
      simp [h2, h3, h4, h]
    · have h3 : ¬ (0 < -axis + D ∧ -axis + D ≤ D) := by omega
      simp [h2, h3]
  · have h1 : ¬ (-axis ≤ 0) := by omega
    simp only [h, h1, if_false]
    by_cases h2 : -axis ≤ D
    · have h3 : 0 < -axis ∧ -axis ≤ D := by omega
      simp [h2, h3]
    · have h3 : ¬ (0 < -axis ∧ -axis ≤ D) := by omega
      simp [h2, h3]


/-- The axis validation of a tree that branches. -/
theorem reduce_negaxis_branching (axis d : Int) :
    reduce_negaxis axis (true, d)
      = if 0 ≤ axis then
          .error (.invalid_argument
            ("cannot use non-negative axis on a nested list structure "
            ++ "of variable depth (negative axis counts from the leaves of the tree; "
            ++ "non-negative from the root)"))
        else if -axis > d then
          .error (.invalid_argument
            ("cannot use axis=" ++ to_string axis
            ++ (" on a nested list structure that splits into "
                ++ "different depths, the minimum of which is depth=")
            ++ to_string d ++ " from the leaves"))
        else .ok (-axis) := by
  unfold reduce_negaxis
  simp only [if_true]
  by_cases h : 0 ≤ axis
  · have h1 : -axis ≤ 0 := by omega
    simp only [h, h1, if_true]
  · have h1 : ¬ (-axis ≤ 0) := by omega
    simp only [h, h1, if_false]

/-- C12, as stated, fails: on the rows `[1, 2, 3]` and `[4, 5, 6]`, a tree of
depth 2 that does not branch, `reduce` with `axis = -1` passes the validation
and hands `negaxis = 1` to `reduce_next`, and `reduce` with `axis = 2` throws
the `std::invalid_argument` of line 684. -/
theorem reduce_axis_depth_is_rejected :
    model.branch_depth two_by_three = (false, 2) ∧
    reduce_negaxis (-1) (model.branch_depth two_by_three) = .ok 1 ∧
    reduce_negaxis 2 (model.branch_depth two_by_three)
      = .error (.invalid_argument
          "axis=2 exceeds the depth of the nested list structure (which is 2)") ∧
    Content.reduce model two_by_three ⟨"sum"⟩ (-1) false false
      = .ok (.other "sum" none [] [1]) ∧
    Content.reduce model two_by_three ⟨"sum"⟩ 2 false false
      = .error (.invalid_argument
          "axis=2 exceeds the depth of the nested list structure (which is 2)") ∧
    Content.reduce model two_by_three ⟨"sum"⟩ (-1) false false
      ≠ Content.reduce model two_by_three ⟨"sum"⟩ 2 false false :=
  ⟨rfl, rfl, rfl, rfl, rfl, by
    have h1 : Content.reduce model two_by_three ⟨"sum"⟩ (-1) false false
        = .ok (.other "sum" none [] [1]) := rfl
    have h2 : Content.reduce model two_by_three ⟨"sum"⟩ 2 false false
        = .error (.invalid_argument
          "axis=2 exceeds the depth of the nested list structure (which is 2)") := rfl
    rw [h1, h2]
    intro h
    cases h⟩

/-- C12, amended: for a tree of depth `D ≥ 1` that does not branch, `reduce`
with `axis = -1` is `reduce` with `axis = D - 1`: both pass the validation
and hand `negaxis = 1` to `reduce_next`, so the two calls give the same
result; `axis = D` fails the validation. -/
theorem reduce_last_axis (M : Methods) (c : Content) (reducer : Reducer)
    (mask keepdims : Bool) (D : Int)
    (hb : M.branch_depth c = (false, D)) (hD : 1 ≤ D) :
    reduce_negaxis (-1) (M.branch_depth c) = .ok 1 ∧
    reduce_negaxis (D - 1) (M.branch_depth c) = .ok 1 ∧
    Content.reduce M c reducer (-1) mask keepdims
      = Content.reduce M c reducer (D - 1) mask keepdims ∧
    Content.reduce M c reducer (-1) mask keepdims
      = (M.reduce_next c reducer 1 [0]
          (List.replicate (M.length c).toNat 0) 1 mask keepdims
          >>= fun next => M.getitem_at_nowrap next 0) ∧
    throws_invalid_argument (reduce_negaxis D (M.branch_depth c)) ∧
    throws_invalid_argument (Content.reduce M c reducer D mask keepdims) := by
  have h1 : reduce_negaxis (-1) (M.branch_depth c) = .ok 1 := by
    rw [hb, reduce_negaxis_uniform]
    have h : ¬ (0 ≤ (-1 : Int)) := by omega
    have h' : - (-1 : Int) ≤ D := by omega
    simp only [h, h', if_true, if_false]
    rfl
  have h2 : reduce_negaxis (D - 1) (M.branch_depth c) = .ok 1 := by
    rw [hb, reduce_negaxis_uniform]
    have h : 0 ≤ D - 1 := by omega
    have h' : D - 1 < D := by omega
    have h3q : D - (D - 1) = 1 := by omega
    simp only [h, h', if_true, h3q]
  have h3 : throws_invalid_argument (reduce_negaxis D (M.branch_depth c)) := by
    rw [hb, reduce_negaxis_uniform]
    have h : 0 ≤ D := by omega
    have h' : ¬ (D < D) := by omega
    simp only [h, h', if_true, if_false]
    exact ⟨_, rfl⟩
  refine ⟨h1, h2, ?_, ?_, h3, ?_⟩
  · rw [reduce_eq, reduce_eq, h1, h2]
  · rw [reduce_eq, h1]
    rfl
  · obtain ⟨what, h⟩ := h3
    rw [reduce_eq, h]
    exact ⟨what, rfl⟩

/-- C12, amended, on the rows `[1, 2, 3]` and `[4, 5, 6]`, of depth 2:
`axis = -1` and `axis = 1` are the same reduction. -/
theorem reduce_last_axis_witness :
    model.branch_depth two_by_three = (false, 2) ∧
    Content.reduce model two_by_three ⟨"sum"⟩ (-1) false false
      = Content.reduce model two_by_three ⟨"sum"⟩ (2 - 1) false false :=
  ⟨rfl, (reduce_last_axis model two_by_three ⟨"sum"⟩ false false 2 rfl
    (by decide)).2.2.1⟩

/-- C13: for a tree of depth `D` that does not branch, `reduce` with
`axis < -D` or `axis > D` throws the `std::invalid_argument` of line 684: the
axis validation of lines 659-690 throws it, so whatever `reduce_next` and the
other methods of the node do, they are not reached. -/
theorem reduce_axis_out_of_range (M : Methods) (c : Content)
    (reducer : Reducer) (axis : Int) (mask keepdims : Bool) (D : Int)
    (hb : M.branch_depth c = (false, D)) (h : axis < -D ∨ axis > D) :
    reduce_negaxis axis (M.branch_depth c)
      = .error (.invalid_argument
          ("axis=" ++ to_string axis
            ++ " exceeds the depth of the nested list structure (which is "
            ++ to_string D ++ ")")) ∧
    Content.reduce M c reducer axis mask keepdims
      = .error (.invalid_argument
          ("axis=" ++ to_string axis
            ++ " exceeds the depth of the nested list structure (which is "
            ++ to_string D ++ ")")) := by
  have h1 : reduce_negaxis axis (M.branch_depth c)
      = .error (.invalid_argument
          ("axis=" ++ to_string axis
            ++ " exceeds the depth of the nested list structure (which is "
            ++ to_string D ++ ")")) := by
    rw [hb, reduce_negaxis_uniform]
    by_cases h0 : 0 ≤ axis
    · have h' : ¬ (axis < D) := by omega
      simp only [h0, h', if_true, if_false]
    · have h' : ¬ (-axis ≤ D) := by omega
      simp only [h0, h', if_false]
  refine ⟨h1, ?_⟩
  rw [reduce_eq, h1]
  rfl

/-- C13 on the rows `[1, 2, 3]` and `[4, 5, 6]`, of depth 2, at `axis = -3`. -/
theorem reduce_axis_out_of_range_witness :
    model.branch_depth two_by_three = (false, 2) ∧
    Content.reduce model two_by_three ⟨"sum"⟩ (-3) false false
      = .error (.invalid_argument
          ("axis=" ++ to_string (-3)
            ++ " exceeds the depth of the nested list structure (which is "
            ++ to_string 2 ++ ")")) :=
  ⟨rfl, (reduce_axis_out_of_range model two_by_three ⟨"sum"⟩ (-3) false false
    2 rfl (by decide)).2⟩

/-! ## The axis of `reduce` on `int64_t` -/

/-- Wherever no `int64_t` overflows, which is for every `axis` but the least
when the tree branches, the validation on `int64_t` is the validation on
unbounded integers. -/
theorem reduce_negaxis_int64_eq (axis : Int) (branchdepth : Bool × Int)
    (h : axis ≠ INT64_MIN)
    (hadd : branchdepth.1 = false → 0 ≤ axis →
      INT64_MIN ≤ -axis + branchdepth.2 ∧ -axis + branchdepth.2 ≤ INT64_MAX) :
    reduce_negaxis_int64 axis branchdepth
      = some (reduce_negaxis axis branchdepth) := by
  obtain ⟨branch, depth⟩ := branchdepth
  unfold reduce_negaxis_int64 negate_int64 reduce_validate reduce_negaxis
  simp only [h, if_false]
  cases branch
  · simp only [Bool.false_eq_true, if_false]
    by_cases h0 : -axis ≤ 0
    · have h1 := hadd rfl (by omega)
      simp only [h0, if_true, add_int64, h1, and_self]
      split <;> rfl
    · simp only [h0, if_false]
      split <;> rfl
  · simp only [if_true]
    split
    · rfl
    · split <;> rfl

/-- Wherever no `int64_t` overflows, `Content::reduce` on `int64_t` is
`Content::reduce` on unbounded integers. -/
theorem reduce_int64_eq (M : Methods) (c : Content) (reducer : Reducer)
    (axis : Int) (mask keepdims : Bool) (h : axis ≠ INT64_MIN)
    (hadd : (M.branch_depth c).1 = false → 0 ≤ axis →
      INT64_MIN ≤ -axis + (M.branch_depth c).2 ∧
      -axis + (M.branch_depth c).2 ≤ INT64_MAX) :
    Content.reduce_int64 M c reducer axis mask keepdims
      = some (Content.reduce M c reducer axis mask keepdims) := by
  unfold Content.reduce_int64 Content.reduce
  rw [reduce_negaxis_int64_eq axis _ h hadd]
  cases reduce_negaxis axis (M.branch_depth c) <;> rfl

/-- For every `axis` above the least `int64_t` and every depth from 0 to the
greatest `int64_t`, nothing overflows: `Content::reduce` on `int64_t` is
`Content::reduce` on unbounded integers. -/
theorem reduce_int64_eq_of_int64 (M : Methods) (c : Content)
    (reducer : Reducer) (axis : Int) (mask keepdims : Bool)
    (hlow : INT64_MIN < axis) (hhigh : axis ≤ INT64_MAX)
    (hdepth : 0 ≤ (M.branch_depth c).2)
    (hdepth' : (M.branch_depth c).2 ≤ INT64_MAX) :
    Content.reduce_int64 M c reducer axis mask keepdims
      = some (Content.reduce M c reducer axis mask keepdims) := by
  have hmin : INT64_MIN = -9223372036854775808 := rfl
  have hmax : INT64_MAX = 9223372036854775807 := rfl
  apply reduce_int64_eq
  · omega
  · intro _ h
    omega

/-- The least `int64_t` has no negation, so `Content::reduce` has no defined
behaviour there, whatever the tree. -/
theorem reduce_int64_least (M : Methods) (c : Content) (reducer : Reducer)
    (mask keepdims : Bool) :
    Content.reduce_int64 M c reducer INT64_MIN mask keepdims = none := by
  unfold Content.reduce_int64 reduce_negaxis_int64 negate_int64
  simp

/-- C14: for a tree that branches, with least leaf depth `d`, `reduce` on
`int64_t` throws the `std::invalid_argument` of line 666 for every
`axis ≥ 0` and that of line 672 for every `axis` above the least `int64_t`
with `-axis > d`; for `-d ≤ axis ≤ -1` the validation passes and
`negaxis = -axis` is handed to `reduce_next` unchanged.  At the least
`int64_t`, where `-axis > d` too, the negation of line 659 overflows: no
behaviour is defined, and where the negation wraps the exception is that of
line 666, the one for a non-negative axis. -/
theorem reduce_branching_axis_int64 (M : Methods) (c : Content)
    (reducer : Reducer) (mask keepdims : Bool) (d : Int)
    (hb : M.branch_depth c = (true, d)) (hd : d ≤ INT64_MAX) :
    (∀ axis, 0 ≤ axis →
      Content.reduce_int64 M c reducer axis mask keepdims
        = some (.error (.invalid_argument
            ("cannot use non-negative axis on a nested list structure "
            ++ "of variable depth (negative axis counts from the leaves of the tree; "
            ++ "non-negative from the root)")))) ∧
    (∀ axis, INT64_MIN < axis → axis < 0 → -axis > d →
      Content.reduce_int64 M c reducer axis mask keepdims
        = some (.error (.invalid_argument
            ("cannot use axis=" ++ to_string axis
            ++ (" on a nested list structure that splits into "
                ++ "different depths, the minimum of which is depth=")
            ++ to_string d ++ " from the leaves")))) ∧
    (∀ axis, -d ≤ axis → axis ≤ -1 →
      reduce_negaxis_int64 axis (M.branch_depth c) = some (.ok (-axis)) ∧
      Content.reduce_int64 M c reducer axis mask keepdims
        = some (M.reduce_next c reducer (-axis) [0]
            (List.replicate (M.length c).toNat 0) 1 mask keepdims
            >>= fun next => M.getitem_at_nowrap next 0)) ∧
    (INT64_MIN < 0 ∧ -INT64_MIN > d ∧
      negate_int64 INT64_MIN = none ∧
      Content.reduce_int64 M c reducer INT64_MIN mask keepdims = none ∧
      wrap_int64 (-INT64_MIN) = INT64_MIN ∧
      reduce_validate INT64_MIN (wrap_int64 (-INT64_MIN)) (M.branch_depth c)
        = some (.error (.invalid_argument
            ("cannot use non-negative axis on a nested list structure "
            ++ "of variable depth (negative axis counts from the leaves of the tree; "
            ++ "non-negative from the root)")))) := by
  have hmin : INT64_MIN = -9223372036854775808 := rfl
  have hmax : INT64_MAX = 9223372036854775807 := rfl
  have hbranch : (M.branch_depth c).1 = false → ∀ axis : Int, 0 ≤ axis →
      INT64_MIN ≤ -axis + (M.branch_depth c).2 ∧
      -axis + (M.branch_depth c).2 ≤ INT64_MAX := by
    intro h
    rw [hb] at h
    cases h
  refine ⟨?_, ?_, ?_, ?_⟩
  · intro axis h
    have h0 : axis ≠ INT64_MIN := by omega
    rw [reduce_int64_eq M c reducer axis mask keepdims h0
      (fun hf => hbranch hf axis), reduce_eq, hb, reduce_negaxis_branching]
    simp only [h, if_true]
    rfl
  · intro axis hlow h h'
    have h0 : axis ≠ INT64_MIN := by omega
    have h1 : ¬ (0 ≤ axis) := by omega
    rw [reduce_int64_eq M c reducer axis mask keepdims h0
      (fun hf => hbranch hf axis), reduce_eq, hb, reduce_negaxis_branching]
    simp only [h1, h', if_true, if_false]
    rfl
  · intro axis h h'
    have h0 : axis ≠ INT64_MIN := by omega
    have h1 : ¬ (0 ≤ axis) := by omega
    have h2 : ¬ (-axis > d) := by omega
    have h4 : reduce_negaxis axis (M.branch_depth c) = .ok (-axis) := by
      rw [hb, reduce_negaxis_branching]
      simp only [h1, h2, if_false]
    refine ⟨?_, ?_⟩
    · rw [reduce_negaxis_int64_eq axis _ h0 (fun hf => hbranch hf axis), h4]
    · rw [reduce_int64_eq M c reducer axis mask keepdims h0
        (fun hf => hbranch hf axis), reduce_eq, h4]
      rfl
  · refine ⟨by decide, by omega, by simp [negate_int64],
      reduce_int64_least M c reducer mask keepdims, by decide, ?_⟩
    have hw : wrap_int64 (-INT64_MIN) = INT64_MIN := by decide
    have hle : INT64_MIN ≤ 0 := by decide
    rw [hw, hb]
    unfold reduce_validate
    simp only [if_true, hle]

/-- C14 on a union of branches of depths 2 and 3: `axis = -2` reaches
`reduce_next` with `negaxis = 2`, `axis = -3` and the `int64_t` next to the
least throw the exception of line 672, and the least `int64_t` has no
defined outcome. -/
theorem reduce_branching_axis_int64_witness :
    model.branch_depth two_and_three = (true, 2) ∧
    Content.reduce_int64 model two_and_three ⟨"sum"⟩ (-2) false false
      = some (model.reduce_next two_and_three ⟨"sum"⟩ (- (-2)) [0]
          (List.replicate (model.length two_and_three).toNat 0) 1 false false
          >>= fun next => model.getitem_at_nowrap next 0) ∧
    Content.reduce_int64 model two_and_three ⟨"sum"⟩ (-3) false false
      = some (.error (.invalid_argument
          ("cannot use axis=" ++ to_string (-3)
          ++ (" on a nested list structure that splits into "
              ++ "different depths, the minimum of which is depth=")
          ++ to_string 2 ++ " from the leaves"))) ∧
    Content.reduce_int64 model two_and_three ⟨"sum"⟩ (INT64_MIN + 1) false
        false
      = some (.error (.invalid_argument
          ("cannot use axis=" ++ to_string (INT64_MIN + 1)
          ++ (" on a nested list structure that splits into "
              ++ "different depths, the minimum of which is depth=")
          ++ to_string 2 ++ " from the leaves"))) ∧
    Content.reduce_int64 model two_and_three ⟨"sum"⟩ INT64_MIN false false
      = none :=
  have h := reduce_branching_axis_int64 model two_and_three ⟨"sum"⟩ false
    false 2 rfl (by decide)
  ⟨rfl, (h.2.2.1 (-2) (by decide) (by decide)).2,
    h.2.1 (-3) (by decide) (by decide) (by decide),
    h.2.1 (INT64_MIN + 1) (by decide) (by decide) (by decide),
    h.2.2.2.2.2.2.1⟩

/-! ## The count of `combinations_axis0` -/

/-- The loop of lines 857-860 holds a binomial coefficient after each
iteration: started from `size`, after the iterations `j = 2, ..., k + 1` it
holds `C(size, k + 1)`. -/
theorem combinationslen_loop_choose (s k : Nat) (hk : k + 1 ≤ s) :
    combinationslen_loop (s : Int) ((k : Int) + 1) (s : Int)
      = ((Nat.choose s (k + 1) : Nat) : Int) := by
  unfold combinationslen_loop
  have h0 : ((k : Int) + 1 - 1).toNat = k := by omega
  rw [h0]
  clear h0
  induction k with
  | zero => simp
  | succ k ih =>
    have ih' := ih (by omega)
    rw [List.range_succ, List.foldl_append, ih']
    simp only [List.foldl_cons, List.foldl_nil]
    have h1 : (s : Int) - ((k : Int) + 2) + 1 = ((s - (k + 1) : Nat) : Int) := by
      omega
    have h2 : ((k : Int) + 2) = ((k + 1 + 1 : Nat) : Int) := by omega
    rw [h1, h2, ← Int.natCast_mul, ← Nat.choose_succ_right_eq]
    rw [Int.natCast_mul]
    rw [Int.tdiv_eq_ediv (by positivity) (by positivity)]
    rw [Int.mul_ediv_cancel _ (by omega)]


/-- One more iteration of the loop of lines 857-860. -/
theorem combinationslen_loop_step (size j start : Int) (hj : 2 ≤ j) :
    combinationslen_loop size j start
      = (combinationslen_loop size (j - 1) start * (size - j + 1)).tdiv j := by
  unfold combinationslen_loop
  obtain ⟨k, rfl⟩ : ∃ k : Nat, j = (k : Int) + 2 := ⟨(j - 2).toNat, by omega⟩
  have h1 : ((k : Int) + 2 - 1).toNat = k + 1 := by omega
  have h2 : ((k : Int) + 2 - 1 - 1).toNat = k := by omega
  rw [h1, h2, List.range_succ, List.foldl_append]
  simp only [List.foldl_cons, List.foldl_nil]

/-- The count of lines 844-861 is the binomial coefficient `C(size, n)`. -/
theorem combinationslen_eq_choose (size n : Int) (hsize : 0 ≤ size)
    (hn : 1 ≤ n) :
    combinationslen size n = ((Nat.choose size.toNat n.toNat : Nat) : Int) := by
  obtain ⟨s, rfl⟩ : ∃ s : Nat, size = (s : Int) := ⟨size.toNat, by omega⟩
  obtain ⟨m, rfl⟩ : ∃ m : Nat, n = (m : Int) := ⟨n.toNat, by omega⟩
  simp only [Int.toNat_ofNat]
  unfold combinationslen
  by_cases h1 : (m : Int) > (s : Int)
  · simp only [h1, if_true]
    rw [Nat.choose_eq_zero_of_lt (by omega)]
    rfl
  · simp only [h1, if_false]
    by_cases h2 : (m : Int) = (s : Int)
    · simp only [h2, if_true]
      have h3 : m = s := by omega
      rw [h3, Nat.choose_self]
      rfl
    · simp only [h2, if_false]
      by_cases h3 : (m : Int) * 2 > (s : Int)
      · simp only [h3, if_true]
        obtain ⟨k, hk⟩ : ∃ k : Nat, s - m = k + 1 := ⟨s - m - 1, by omega⟩
        have h4 : (s : Int) - (m : Int) = (k : Int) + 1 := by omega
        rw [h4, combinationslen_loop_choose s k (by omega), ← hk,
          Nat.choose_symm (by omega)]
      · simp only [h3, if_false]
        obtain ⟨k, hk⟩ : ∃ k : Nat, m = k + 1 := ⟨m - 1, by omega⟩
        have h4 : (m : Int) = (k : Int) + 1 := by omega
        rw [h4, combinationslen_loop_choose s k (by omega), ← hk]

/-- The divisions of the loop of lines 857-860 are exact: entering the
iteration `j ≤ size`, `combinationslen` holds `C(size, j - 1)`, and `j`
divides its product with `size - j + 1`. -/
theorem combinationslen_loop_exact (size j : Int) (hj : 2 ≤ j)
    (hsize : j ≤ size) :
    combinationslen_loop size (j - 1) size
      = ((Nat.choose size.toNat (j - 1).toNat : Nat) : Int) ∧
    j ∣ combinationslen_loop size (j - 1) size * (size - j + 1) := by
  obtain ⟨s, rfl⟩ : ∃ s : Nat, size = (s : Int) := ⟨size.toNat, by omega⟩
  obtain ⟨k, rfl⟩ : ∃ k : Nat, j = (k : Int) + 2 := ⟨(j - 2).toNat, by omega⟩
  have h1 : (k : Int) + 2 - 1 = (k : Int) + 1 := by omega
  have h2 : ((k : Int) + 1).toNat = k + 1 := by omega
  rw [h1, combinationslen_loop_choose s k (by omega), Int.toNat_ofNat, h2]
  refine ⟨rfl, ?_⟩
  have h3 : (s : Int) - ((k : Int) + 2) + 1 = ((s - (k + 1) : Nat) : Int) := by
    omega
  have h4 : ((k : Int) + 2) = ((k + 1 + 1 : Nat) : Int) := by omega
  rw [h3, h4, ← Int.natCast_mul, ← Nat.choose_succ_right_eq, Int.natCast_mul]
  exact Dvd.intro_left _ rfl

/-- C15: for a node of length `L ≥ 0` and `n ≥ 1`, with unbounded integers,
`combinations_axis0` builds a `RecordArray` of exactly `n` columns, each an
`IndexedArray64` over the node whose index has `C(L, n)` slots without
replacement and `C(L + n - 1, n)` slots with it; every division of the loop
of lines 857-860 is exact: iteration `j` multiplies `C(size, j - 1)` by
`size - j + 1`, and `j` divides the product. -/
theorem combinations_count (M : Methods) (c : Content) (n : Int)
    (replacement : Bool) (recordlookup : Option (List String))
    (parameters : Parameters) (hL : 0 ≤ M.length c) (hn : 1 ≤ n) :
    (∃ columns : List Index,
      Content.combinations_axis0 M c n replacement recordlookup parameters
        = .RecordArray none parameters
            (columns.map fun column =>
              .IndexedArray64 none [] column (M.shallow_copy c))
            recordlookup ∧
      (columns.length : Int) = n ∧
      ∀ column ∈ columns,
        column.length
          = if replacement = true then
              Nat.choose ((M.length c).toNat + n.toNat - 1) n.toNat
            else Nat.choose (M.length c).toNat n.toNat) ∧
    (∀ size j : Int, 2 ≤ j → j ≤ size →
      combinationslen_loop size j size
        = (combinationslen_loop size (j - 1) size * (size - j + 1)).tdiv j ∧
      combinationslen_loop size (j - 1) size
        = ((Nat.choose size.toNat (j - 1).toNat : Nat) : Int) ∧
      j ∣ combinationslen_loop size (j - 1) size * (size - j + 1)) := by
  refine ⟨⟨_, rfl, ?_, ?_⟩, ?_⟩
  · simp only [List.length_map, List.length_range]
    omega
  · intro column hcolumn
    simp only [List.mem_map, List.mem_range] at hcolumn
    obtain ⟨j, _, rfl⟩ := hcolumn
    simp only [List.length_map, List.length_range]
    cases replacement with
    | true =>
      simp only [if_true]
      rw [combinationslen_eq_choose _ _ (by omega) hn, Int.toNat_ofNat]
      congr 1
      omega
    | false =>
      simp only [Bool.false_eq_true, if_false]
      rw [combinationslen_eq_choose _ _ hL hn, Int.toNat_ofNat]
  · intro size j hj hsize
    exact ⟨combinationslen_loop_step size j size hj,
      combinationslen_loop_exact size j hj hsize⟩

/-- C15 on a leaf of length 5 with `n = 2`: columns of `C(5, 2) = 10` slots
without replacement and of `C(6, 2) = 15` slots with it. -/
theorem combinations_count_witness :
    (0 ≤ model.length five ∧ (1 : Int) ≤ 2) ∧
    (∃ columns : List Index,
      Content.combinations_axis0 model five 2 false none []
        = .RecordArray none []
            (columns.map fun column =>
              .IndexedArray64 none [] column (model.shallow_copy five))
            none ∧
      (columns.length : Int) = 2 ∧
      ∀ column ∈ columns, column.length = 10) ∧
    (∃ columns : List Index,
      Content.combinations_axis0 model five 2 true none []
        = .RecordArray none []
            (columns.map fun column =>
              .IndexedArray64 none [] column (model.shallow_copy five))
            none ∧
      (columns.length : Int) = 2 ∧
      ∀ column ∈ columns, column.length = 15) :=
  ⟨⟨by decide, by decide⟩,
    (combinations_count model five 2 false none [] (by decide) (by decide)).1,
    (combinations_count model five 2 true none [] (by decide) (by decide)).1⟩

/-! ## `merge_as_union` -/

/-- Two fill loops one after the other over a fresh buffer of `m + k` slots:
the first writes `m` slots from the start, the second `k` slots from `m`
on. -/
theorem two_fill_loops (M : Methods) (m k : Int) (hm : 0 ≤ m) (hk : 0 ≤ k)
    (first second : Nat → Int) :
    (fill_loop (fill_loop (Index.allocate M (m + k)) 0 m first) m k
        second).length = (m + k).toNat ∧
    (∀ i : Nat, (i : Int) < m →
      (fill_loop (fill_loop (Index.allocate M (m + k)) 0 m first) m k
        second)[i]? = some (first i)) ∧
    (∀ j : Nat, (j : Int) < k →
      (fill_loop (fill_loop (Index.allocate M (m + k)) 0 m first) m k
        second)[m.toNat + j]? = some (second j)) := by
  refine ⟨?_, ?_, ?_⟩
  · rw [length_fill_loop, length_fill_loop, length_allocate]
  · intro i hi
    rw [getElem?_fill_loop, length_fill_loop, length_allocate]
    have h1 : ¬ (m.toNat ≤ i ∧ i < m.toNat + k.toNat ∧ i < (m + k).toNat) := by
      omega
    rw [if_neg h1, getElem?_fill_loop, length_allocate]
    have h2 : (0 : Int).toNat ≤ i ∧ i < (0 : Int).toNat + m.toNat
        ∧ i < (m + k).toNat := by
      refine ⟨?_, ?_, ?_⟩ <;> omega
    rw [if_pos h2]
    simp
  · intro j hj
    rw [getElem?_fill_loop, length_fill_loop, length_allocate]
    have h1 : m.toNat ≤ m.toNat + j ∧ m.toNat + j < m.toNat + k.toNat
        ∧ m.toNat + j < (m + k).toNat := by
      refine ⟨?_, ?_, ?_⟩ <;> omega
    rw [if_pos h1]
    simp

/-- C16: for nodes `a` of length `m` and `b` of length `k`,
`a.merge_as_union(b)` is a `UnionArray8_64` with no identities and no
parameters whose contents are the shallow copy of `a` and `b`, and whose
`tags` and `index` have `m + k` slots each, with `tags[i] = 0` and
`index[i] = i` for `i < m`, and `tags[m + j] = 1` and `index[m + j] = j` for
`j < k`. -/
theorem merge_as_union_layout (M : Methods) (a b : Content)
    (hm : 0 ≤ M.length a) (hk : 0 ≤ M.length b) :
    ∃ tags index : Index,
      Content.merge_as_union M a b
        = .UnionArray8_64 none [] tags index [M.shallow_copy a, b] ∧
      (tags.length : Int) = M.length a + M.length b ∧
      (index.length : Int) = M.length a + M.length b ∧
      (∀ i : Nat, (i : Int) < M.length a →
        tags[i]? = some 0 ∧ index[i]? = some (i : Int)) ∧
      (∀ j : Nat, (j : Int) < M.length b →
        tags[(M.length a).toNat + j]? = some 1 ∧
        index[(M.length a).toNat + j]? = some (j : Int)) := by
  have ht := two_fill_loops M (M.length a) (M.length b) hm hk
    (fun _ => 0) (fun _ => 1)
  have hi := two_fill_loops M (M.length a) (M.length b) hm hk
    (fun i => (i : Int)) (fun i => (i : Int))
  refine ⟨_, _, rfl, ?_, ?_, ?_, ?_⟩
  · unfold awkward_unionarray_filltags_to8_const
    rw [ht.1]
    omega
  · unfold awkward_unionarray_fillindex_to64_count
    rw [hi.1]
    omega
  · intro i h
    exact ⟨ht.2.1 i h, hi.2.1 i h⟩
  · intro j h
    exact ⟨ht.2.2 j h, hi.2.2 j h⟩

/-- C16 on leaves of lengths 3 and 4: tags `0, 0, 0, 1, 1, 1, 1` and index
`0, 1, 2, 0, 1, 2, 3`. -/
theorem merge_as_union_layout_witness :
    (0 ≤ model.length three ∧ 0 ≤ model.length four) ∧
    Content.merge_as_union model three four
      = .UnionArray8_64 none [] [0, 0, 0, 1, 1, 1, 1] [0, 1, 2, 0, 1, 2, 3]
          [three, four] ∧
    ∃ tags index : Index,
      Content.merge_as_union model three four
        = .UnionArray8_64 none [] tags index [model.shallow_copy three, four] ∧
      (tags.length : Int) = model.length three + model.length four ∧
      (index.length : Int) = model.length three + model.length four ∧
      (∀ i : Nat, (i : Int) < model.length three →
        tags[i]? = some 0 ∧ index[i]? = some (i : Int)) ∧
      (∀ j : Nat, (j : Int) < model.length four →
        tags[(model.length three).toNat + j]? = some 1 ∧
        index[(model.length three).toNat + j]? = some (j : Int)) :=
  ⟨⟨by decide, by decide⟩, rfl,
    merge_as_union_layout model three four (by decide) (by decide)⟩

/-! ## `rpad_axis0` -/

/-- The index the kernel `awkward_index_rpad_and_clip_axis0_64` leaves in a
fresh buffer of `target` slots. -/
theorem rpad_and_clip_allocate (M : Methods) (target length : Int)
    (ht : 0 ≤ target) :
    (awkward_index_rpad_and_clip_axis0_64 (Index.allocate M target) target
        length).length = target.toNat ∧
    ∀ i : Nat, (i : Int) < target →
      (awkward_index_rpad_and_clip_axis0_64 (Index.allocate M target) target
        length)[i]? = some (if (i : Int) < length then (i : Int) else -1) := by
  unfold awkward_index_rpad_and_clip_axis0_64
  refine ⟨?_, ?_⟩
  · simp only [length_fill_loop, length_allocate]
  · intro i hi
    simp only [getElem?_fill_loop, length_fill_loop, length_allocate]
    by_cases h : target < length
    · simp only [h, if_true]
      have h1 : ¬ (target.toNat ≤ i ∧ i < target.toNat + (target - target).toNat
          ∧ i < target.toNat) := by omega
      have h2 : (0 : Int).toNat ≤ i ∧ i < (0 : Int).toNat + target.toNat
          ∧ i < target.toNat := by
        refine ⟨?_, ?_, ?_⟩ <;> omega
      have h3 : (i : Int) < length := by omega
      rw [if_neg h1, if_pos h2, if_pos h3]
      simp
    · simp only [h, if_false]
      by_cases h3 : (i : Int) < length
      · have h1 : ¬ (length.toNat ≤ i ∧ i < length.toNat + (target - length).toNat
            ∧ i < target.toNat) := by omega
        have h2 : (0 : Int).toNat ≤ i ∧ i < (0 : Int).toNat + length.toNat
            ∧ i < target.toNat := by
          refine ⟨?_, ?_, ?_⟩ <;> omega
        rw [if_neg h1, if_pos h2, if_pos h3]
        simp
      · have h1 : length.toNat ≤ i ∧ i < length.toNat + (target - length).toNat
            ∧ i < target.toNat := by
          refine ⟨?_, ?_, ?_⟩ <;> omega
        rw [if_pos h1, if_neg h3]

/-- C17: for `target ≥ 0` and a node of length `L`, when `clip` is true or
`target ≥ L` the result of `rpad_axis0` is `simplify_optiontype` of an
`IndexedOptionArray64` over the shallow copy of the node whose index has
exactly `target` slots, slot `i` holding `i` for `i < min(target, L)` and
`-1` for `L ≤ i < target`: with `target ≥ L` the first `L` slots are the
elements and the last `target - L` are missing, and with `target ≤ L` there
are `target` slots, none missing. -/
theorem rpad_axis0_index (M : Methods) (c : Content) (target : Int)
    (clip : Bool) (ht : 0 ≤ target)
    (h : clip = true ∨ M.length c ≤ target) :
    ∃ index : Index,
      Content.rpad_axis0 M c target clip
        = M.simplify_optiontype
            (.IndexedOptionArray64 none [] index (M.shallow_copy c)) ∧
      (index.length : Int) = target ∧
      (∀ i : Nat, (i : Int) < target → (i : Int) < M.length c →
        index[i]? = some (i : Int)) ∧
      (∀ i : Nat, M.length c ≤ (i : Int) → (i : Int) < target →
        index[i]? = some (-1)) ∧
      (target ≤ M.length c →
        ∀ i : Nat, (i : Int) < target → index[i]? = some (i : Int)) := by
  have hk := rpad_and_clip_allocate M target (M.length c) ht
  refine ⟨awkward_index_rpad_and_clip_axis0_64 (Index.allocate M target)
    target (M.length c), ?_, ?_, ?_, ?_, ?_⟩
  · unfold Content.rpad_axis0
    have h1 : (!clip && decide (target < M.length c)) = false := by
      rcases h with h | h
      · simp [h]
      · have h2 : ¬ (target < M.length c) := by omega
        simp [h2]
    rw [h1]
    rfl
  · rw [hk.1]
    omega
  · intro i hi hL
    rw [hk.2 i hi, if_pos hL]
  · intro i hL hi
    have h2 : ¬ ((i : Int) < M.length c) := by omega
    rw [hk.2 i hi, if_neg h2]
  · intro hL i hi
    have h2 : (i : Int) < M.length c := by omega
    rw [hk.2 i hi, if_pos h2]

/-- C17 on a leaf of length 4 padded to 6, and on a leaf of length 8 clipped
to 6. -/
theorem rpad_axis0_index_witness :
    Content.rpad_axis0 model four 6 false
      = .ok (.IndexedOptionArray64 none [] [0, 1, 2, 3, -1, -1] four) ∧
    Content.rpad_axis0 model eight 6 true
      = .ok (.IndexedOptionArray64 none [] [0, 1, 2, 3, 4, 5] eight) ∧
    ∃ index : Index,
      Content.rpad_axis0 model four 6 false
        = model.simplify_optiontype
            (.IndexedOptionArray64 none [] index (model.shallow_copy four)) ∧
      (index.length : Int) = 6 ∧
      (∀ i : Nat, (i : Int) < 6 → (i : Int) < model.length four →
        index[i]? = some (i : Int)) ∧
      (∀ i : Nat, model.length four ≤ (i : Int) → (i : Int) < 6 →
        index[i]? = some (-1)) ∧
      (6 ≤ model.length four →
        ∀ i : Nat, (i : Int) < 6 → index[i]? = some (i : Int)) :=
  ⟨by rfl, by rfl, rpad_axis0_index model four 6 false (by decide)
    (show false = true ∨ model.length four ≤ 6 from .inr (by decide))⟩

/-! ## The handler of an ellipsis -/

/-- The three branches of `getitem_next(ellipsis, tail, advanced)`. -/
theorem ellipsis_branches (M : Methods) (c : Content) (tail : Slice)
    (advanced : Index) :
    ((tail.length = 0 ∨
        ((M.minmax_depth c).1 - 1 = M.dimlength tail ∧
         (M.minmax_depth c).2 - 1 = M.dimlength tail)) →
      Content.getitem_next_SliceEllipsis M c tail advanced
        = M.getitem_next c tail.head tail.tail advanced) ∧
    (tail.length ≠ 0 →
      ((M.minmax_depth c).1 - 1 = M.dimlength tail ∧
        (M.minmax_depth c).2 - 1 ≠ M.dimlength tail) ∨
      ((M.minmax_depth c).1 - 1 ≠ M.dimlength tail ∧
        (M.minmax_depth c).2 - 1 = M.dimlength tail) →
      Content.getitem_next_SliceEllipsis M c tail advanced
        = .error (.invalid_argument
            "ellipsis (...) can't be used on a data structure of different depths")) ∧
    (tail.length ≠ 0 →
      (M.minmax_depth c).1 - 1 ≠ M.dimlength tail →
      (M.minmax_depth c).2 - 1 ≠ M.dimlength tail →
      Content.getitem_next_SliceEllipsis M c tail advanced
        = M.getitem_next c (some (.SliceRange none none 1))
            ⟨.SliceEllipsis :: tail.items⟩ advanced) := by
  refine ⟨?_, ?_, ?_⟩
  · intro h
    unfold Content.getitem_next_SliceEllipsis
    simp only [h, if_true]
  · intro h0 h
    unfold Content.getitem_next_SliceEllipsis
    have h1 : ¬ (tail.length = 0 ∨
        ((M.minmax_depth c).1 - 1 = M.dimlength tail ∧
         (M.minmax_depth c).2 - 1 = M.dimlength tail)) := by
      rintro (h1 | h1)
      · exact h0 h1
      · rcases h with h | h
        · exact h.2 h1.2
        · exact h.1 h1.1
    have h2 : (M.minmax_depth c).1 - 1 = M.dimlength tail ∨
        (M.minmax_depth c).2 - 1 = M.dimlength tail := by
      rcases h with h | h
      · exact .inl h.1
      · exact .inr h.2
    simp only [h1, h2, if_true, if_false]
    rfl
  · intro h0 hmin hmax
    unfold Content.getitem_next_SliceEllipsis
    have h1 : ¬ (tail.length = 0 ∨
        ((M.minmax_depth c).1 - 1 = M.dimlength tail ∧
         (M.minmax_depth c).2 - 1 = M.dimlength tail)) := by
      rintro (h1 | h1)
      · exact h0 h1
      · exact hmin h1.1
    have h2 : ¬ ((M.minmax_depth c).1 - 1 = M.dimlength tail ∨
        (M.minmax_depth c).2 - 1 = M.dimlength tail) := by
      rintro (h2 | h2)
      · exact hmin h2
      · exact hmax h2
    simp only [h1, h2, if_false]
    rfl

/-- C20, as stated, fails for an empty tail: on a node of least and greatest
depth 2 and the empty tail, whose dimension count is 0, neither depth less
one equals the count, and yet the handler does not rewrite: it drops the
ellipsis and calls `getitem_next` with the null head of the empty tail, not
with a full range and the ellipsis. -/
theorem ellipsis_with_empty_tail_is_dropped :
    reporting.minmax_depth two_by_three = (2, 2) ∧
    reporting.dimlength ⟨[]⟩ = 0 ∧
    Content.getitem_next_SliceEllipsis reporting two_by_three ⟨[]⟩ []
      = reporting.getitem_next two_by_three none ⟨[]⟩ [] ∧
    Content.getitem_next_SliceEllipsis reporting two_by_three ⟨[]⟩ []
      ≠ reporting.getitem_next two_by_three (some (.SliceRange none none 1))
          ⟨[.SliceEllipsis]⟩ [] := by
  refine ⟨rfl, rfl, rfl, ?_⟩
  have h1 : Content.getitem_next_SliceEllipsis reporting two_by_three ⟨[]⟩ []
      = .ok (.other "getitem_next" none [] [0, 0]) := rfl
  have h2 : reporting.getitem_next two_by_three
        (some (.SliceRange none none 1)) ⟨[.SliceEllipsis]⟩ []
      = .ok (.other "getitem_next" none [] [1, 1]) := rfl
  rw [h1, h2]
  intro h
  cases h

/-- C20, amended: the handler of an ellipsis throws the
`std::invalid_argument` of line 1002 when the tail is not empty and exactly
one of `mindepth - 1`, `maxdepth - 1` is the dimension count of the tail,
which needs `mindepth ≠ maxdepth`; in every other case it throws nothing
itself and answers with a call of `getitem_next` on the same node: with the
head and the rest of the tail, the ellipsis dropped, when the tail is empty
or both are the count; with a full range as head and the ellipsis followed by
the tail as tail when the tail is not empty and neither is the count. -/
theorem ellipsis_cases (M : Methods) (c : Content) (tail : Slice)
    (advanced : Index) :
    (tail.length ≠ 0 →
      ((M.minmax_depth c).1 - 1 = M.dimlength tail ∧
        (M.minmax_depth c).2 - 1 ≠ M.dimlength tail) ∨
      ((M.minmax_depth c).1 - 1 ≠ M.dimlength tail ∧
        (M.minmax_depth c).2 - 1 = M.dimlength tail) →
      (M.minmax_depth c).1 ≠ (M.minmax_depth c).2 ∧
      Content.getitem_next_SliceEllipsis M c tail advanced
        = .error (.invalid_argument
            "ellipsis (...) can't be used on a data structure of different depths")) ∧
    ((M.minmax_depth c).1 - 1 = M.dimlength tail →
      (M.minmax_depth c).2 - 1 = M.dimlength tail →
      Content.getitem_next_SliceEllipsis M c tail advanced
        = M.getitem_next c tail.head tail.tail advanced) ∧
    (tail.length = 0 →
      Content.getitem_next_SliceEllipsis M c tail advanced
        = M.getitem_next c tail.head tail.tail advanced) ∧
    (tail.length ≠ 0 →
      (M.minmax_depth c).1 - 1 ≠ M.dimlength tail →
      (M.minmax_depth c).2 - 1 ≠ M.dimlength tail →
      Content.getitem_next_SliceEllipsis M c tail advanced
        = M.getitem_next c (some (.SliceRange none none 1))
            ⟨.SliceEllipsis :: tail.items⟩ advanced) := by
  have h := ellipsis_branches M c tail advanced
  refine ⟨?_, ?_, ?_, h.2.2⟩
  · intro h0 h1
    refine ⟨?_, h.2.1 h0 h1⟩
    intro heq
    rcases h1 with h1 | h1
    · exact h1.2 (heq ▸ h1.1)
    · exact h1.1 (heq ▸ h1.2)
  · intro hmin hmax
    exact h.1 (.inr ⟨hmin, hmax⟩)
  · intro h0
    exact h.1 (.inl h0)

/-- C20, amended, in its four cases: a union of depths 2 and 3 in front of
one position; rows of depth 2 in front of one position and in front of
nothing; rows of depth 3 in front of one position. -/
theorem ellipsis_cases_witness :
    Content.getitem_next_SliceEllipsis model two_and_three ⟨[.SliceAt 0]⟩ []
      = .error (.invalid_argument
          "ellipsis (...) can't be used on a data structure of different depths") ∧
    Content.getitem_next_SliceEllipsis model two_by_three ⟨[.SliceAt 0]⟩ []
      = model.getitem_next two_by_three (some (.SliceAt 0)) ⟨[]⟩ [] ∧
    Content.getitem_next_SliceEllipsis model two_by_three ⟨[]⟩ []
      = model.getitem_next two_by_three none ⟨[]⟩ [] ∧
    Content.getitem_next_SliceEllipsis model
        (.RegularArray none [] two_by_three 2) ⟨[.SliceAt 0]⟩ []
      = model.getitem_next (.RegularArray none [] two_by_three 2)
          (some (.SliceRange none none 1))
          ⟨[.SliceEllipsis, .SliceAt 0]⟩ [] :=
  ⟨((ellipsis_cases model two_and_three ⟨[.SliceAt 0]⟩ []).1 (by decide)
      (.inl ⟨by decide, by decide⟩)).2,
    (ellipsis_cases model two_by_three ⟨[.SliceAt 0]⟩ []).2.1 (by decide)
      (by decide),
    (ellipsis_cases model two_by_three ⟨[]⟩ []).2.2.1 (by decide),
    (ellipsis_cases model (.RegularArray none [] two_by_three 2)
      ⟨[.SliceAt 0]⟩ []).2.2.2 (by decide) (by decide) (by decide)⟩

/-! ## A slice of no item -/

/-- No class of the small model overrides `getitem_next(head, tail,
advanced)`. -/
theorem model_inherits_getitem_next (c : Content) :
    inherits_getitem_next model c := by
  intro head tail advanced
  cases head with
  | none =>
    show model_getitem_next c none tail advanced = _
    rw [model_getitem_next]
    rfl
  | some item => cases item <;> first | rfl | (show model_getitem_next c _ tail advanced = _; rw [model_getitem_next]; rfl)

/-- C18: `getitem` with a slice of no item wraps the node in a `RegularArray`
of size `length()`, the null head makes `getitem_next` answer with the
shallow copy of that wrapper, and the result is row 0 of the copy, or its
empty selection when it has no row; so when shallow copies are equal to
their originals, the class of the wrapper inherits `getitem_next`, and
unwrapping the wrapper gives the node, `getitem` gives back the node, of
length 0 or not. -/
theorem getitem_of_no_item (M : Methods) (c : Content)
    (hcopy : ∀ x, M.shallow_copy x = x)
    (hnext : inherits_getitem_next M
      (.RegularArray none [] (M.shallow_copy c) (M.length c)))
    (hunwrap : unwraps_to M (.RegularArray none [] c (M.length c)) c) :
    M.getitem_next (.RegularArray none [] (M.shallow_copy c) (M.length c))
        (Slice.head ⟨[]⟩) (Slice.tail ⟨[]⟩) (Index.allocate M 0)
      = .ok (M.shallow_copy
          (.RegularArray none [] (M.shallow_copy c) (M.length c))) ∧
    Content.getitem M c ⟨[]⟩ = .ok c := by
  have h1 : M.getitem_next
        (.RegularArray none [] (M.shallow_copy c) (M.length c))
        (Slice.head ⟨[]⟩) (Slice.tail ⟨[]⟩) (Index.allocate M 0)
      = .ok (M.shallow_copy
          (.RegularArray none [] (M.shallow_copy c) (M.length c))) := by
    rw [hnext]
    rfl
  refine ⟨h1, ?_⟩
  unfold Content.getitem
  simp only [h1]
  rw [hcopy, hcopy]
  show (if M.length (.RegularArray none [] c (M.length c)) = 0 then
      M.getitem_nothing (.RegularArray none [] c (M.length c))
    else M.getitem_at_nowrap (.RegularArray none [] c (M.length c)) 0) = _
  by_cases h : M.length (.RegularArray none [] c (M.length c)) = 0
  · rw [if_pos h]
    exact hunwrap.2 h
  · rw [if_neg h]
    exact hunwrap.1 h

/-- C18 on the rows `[1, 2, 3]` and `[4, 5, 6]` and on a leaf with no
element. -/
theorem getitem_of_no_item_witness :
    Content.getitem model two_by_three ⟨[]⟩ = .ok two_by_three ∧
    Content.getitem model empty_leaf ⟨[]⟩ = .ok empty_leaf :=
  ⟨(getitem_of_no_item model two_by_three (fun _ => rfl)
      (model_inherits_getitem_next _)
      ⟨fun _ => by rfl, fun h => absurd h (by decide)⟩).2,
    (getitem_of_no_item model empty_leaf (fun _ => rfl)
      (model_inherits_getitem_next _)
      ⟨fun h => absurd (by rfl) h, fun _ => by rfl⟩).2⟩

/-! ## An ellipsis level by level -/

/-- On a node of uniform depth 2 the ellipsis in front of one position is
dropped. -/
theorem ellipsis_dropped_at_depth_two (M : Methods) (k : Int)
    (hdim : M.dimlength ⟨[.SliceAt k]⟩ = 1) (x : Content) (advanced : Index)
    (hx : uniform_depth M 2 x) :
    M.getitem_next x (some .SliceEllipsis) ⟨[.SliceAt k]⟩ advanced
      = M.getitem_next x (some (.SliceAt k)) ⟨[]⟩ advanced := by
  obtain ⟨hminmax, hnext, hellipsis, _⟩ := hx
  rw [hnext]
  show M.getitem_next_SliceEllipsis x .SliceEllipsis _ advanced = _
  rw [hellipsis,
    (ellipsis_branches M x ⟨[.SliceAt k]⟩ advanced).1
      (.inr (by rw [hminmax, hdim]; constructor <;> rfl))]
  rfl

/-- On a node of uniform depth other than 2 the ellipsis in front of one
position is kept behind a full range. -/
theorem ellipsis_kept_at_other_depths (M : Methods) (k : Int)
    (hdim : M.dimlength ⟨[.SliceAt k]⟩ = 1) (x : Content) (advanced : Index)
    (d : Nat) (hd : d ≠ 1) (hx : uniform_depth M (d + 1) x) :
    M.getitem_next x (some .SliceEllipsis) ⟨[.SliceAt k]⟩ advanced
      = M.getitem_next x (some (.SliceRange none none 1))
          ⟨[.SliceEllipsis, .SliceAt k]⟩ advanced := by
  obtain ⟨hminmax, hnext, hellipsis, _⟩ := hx
  rw [hnext]
  show M.getitem_next_SliceEllipsis x .SliceEllipsis _ advanced = _
  have h1 : (M.minmax_depth x).1 - 1 ≠ M.dimlength ⟨[.SliceAt k]⟩ := by
    rw [hminmax, hdim]
    show ((d + 1 : Nat) : Int) - 1 ≠ 1
    omega
  have h2 : (M.minmax_depth x).2 - 1 ≠ M.dimlength ⟨[.SliceAt k]⟩ := by
    rw [hminmax, hdim]
    show ((d + 1 : Nat) : Int) - 1 ≠ 1
    omega
  rw [hellipsis,
    (ellipsis_branches M x ⟨[.SliceAt k]⟩ advanced).2.2
      (by simp [Slice.length]) h1 h2]

/-- Level by level: on a node of uniform depth `d + 2`, an ellipsis in front
of one position is `d` full ranges in front of it. -/
theorem ellipsis_is_full_ranges (M : Methods) (k : Int)
    (hdim : M.dimlength ⟨[.SliceAt k]⟩ = 1) (d : Nat) :
    ∀ (x : Content) (advanced : Index), uniform_depth M (d + 2) x →
      M.getitem_next x (some .SliceEllipsis) ⟨[.SliceAt k]⟩ advanced
        = M.getitem_next x
            (Slice.head ⟨List.replicate d (.SliceRange none none 1)
              ++ [.SliceAt k]⟩)
            (Slice.tail ⟨List.replicate d (.SliceRange none none 1)
              ++ [.SliceAt k]⟩) advanced := by
  induction d with
  | zero =>
    intro x advanced hx
    exact ellipsis_dropped_at_depth_two M k hdim x advanced hx
  | succ d ih =>
    intro x advanced hx
    rw [ellipsis_kept_at_other_depths M k hdim x advanced (d + 2) (by omega) hx]
    obtain ⟨_, hnext, _, hrange⟩ := hx
    obtain ⟨content, nextadvanced, wrap, hcontent, hrange⟩ :=
      hrange (by omega) advanced
    have h1 : M.getitem_next x (some (.SliceRange none none 1))
          ⟨[.SliceEllipsis, .SliceAt k]⟩ advanced
        = M.getitem_next content (some .SliceEllipsis) ⟨[.SliceAt k]⟩
            nextadvanced >>= wrap := by
      rw [hnext]
      exact hrange _
    have h2 : M.getitem_next x
          (Slice.head ⟨List.replicate (d + 1) (.SliceRange none none 1)
            ++ [.SliceAt k]⟩)
          (Slice.tail ⟨List.replicate (d + 1) (.SliceRange none none 1)
            ++ [.SliceAt k]⟩) advanced
        = M.getitem_next content
            (Slice.head ⟨List.replicate d (.SliceRange none none 1)
              ++ [.SliceAt k]⟩)
            (Slice.tail ⟨List.replicate d (.SliceRange none none 1)
              ++ [.SliceAt k]⟩) nextadvanced >>= wrap := by
      rw [hnext]
      exact hrange _
    rw [h1, h2, ih content nextadvanced hcontent]


/-- C19: for a tree of uniform depth `D ≥ 1`, whose wrapper in `getitem` is
then of uniform depth `D + 1`, slicing with `[..., k]` gives what slicing
with `D - 1` full ranges in front of `k` gives: on a node where depth less
one is not the one dimension of the tail the handler of the ellipsis calls
`getitem_next` with the full range `SliceRange(none, none, 1)` as head and the
ellipsis in front of the tail, and on the node of depth 2 it drops the
ellipsis. -/
theorem ellipsis_expansion (M : Methods) (c : Content) (D : Nat) (k : Int)
    (hD : 1 ≤ D) (hdim : M.dimlength ⟨[.SliceAt k]⟩ = 1)
    (h : uniform_depth M (D + 1)
      (.RegularArray none [] (M.shallow_copy c) (M.length c))) :
    Content.getitem M c ⟨[.SliceEllipsis, .SliceAt k]⟩
      = Content.getitem M c
          ⟨List.replicate (D - 1) (.SliceRange none none 1)
            ++ [.SliceAt k]⟩ ∧
    (∀ (x : Content) (advanced : Index) (d : Nat), d ≠ 1 →
      uniform_depth M (d + 1) x →
      M.getitem_next x (some .SliceEllipsis) ⟨[.SliceAt k]⟩ advanced
        = M.getitem_next x (some (.SliceRange none none 1))
            ⟨[.SliceEllipsis, .SliceAt k]⟩ advanced) ∧
    (∀ (x : Content) (advanced : Index), uniform_depth M 2 x →
      M.getitem_next x (some .SliceEllipsis) ⟨[.SliceAt k]⟩ advanced
        = M.getitem_next x (some (.SliceAt k)) ⟨[]⟩ advanced) := by
  refine ⟨?_, ?_, ?_⟩
  · obtain ⟨d, rfl⟩ : ∃ d, D = d + 1 := ⟨D - 1, by omega⟩
    have h1 := ellipsis_is_full_ranges M k hdim d _ (Index.allocate M 0) h
    unfold Content.getitem
    simp only [Nat.add_sub_cancel]
    have h2 : Slice.head ⟨[.SliceEllipsis, .SliceAt k]⟩
        = some .SliceEllipsis := rfl
    have h3 : Slice.tail ⟨[.SliceEllipsis, .SliceAt k]⟩
        = ⟨[.SliceAt k]⟩ := rfl
    rw [h2, h3, h1]
  · intro x advanced d hd hx
    exact ellipsis_kept_at_other_depths M k hdim x advanced d hd hx
  · intro x advanced hx
    exact ellipsis_dropped_at_depth_two M k hdim x advanced hx

/-- The full range of the small model. -/
theorem model_full_range_unfold (c : Content) (tail : Slice)
    (advanced : Index) :
    model_getitem_next c (some (.SliceRange none none 1)) tail advanced
      = match c with
        | .RegularArray _ _ content size =>
          (model_getitem_next content tail.head tail.tail advanced).map
            fun next => .RegularArray none [] next size
        | _ => .error (.runtime_error "not modelled") := by
  rw [model_getitem_next.eq_def]
  rfl

/-- No class of the small model overrides `getitem_next(ellipsis, tail,
advanced)`. -/
theorem model_inherits_getitem_next_SliceEllipsis (c : Content) :
    inherits_getitem_next_SliceEllipsis model c := by
  intro tail advanced
  show model_getitem_next c (some .SliceEllipsis) tail advanced = _
  unfold Content.getitem_next_SliceEllipsis
  rw [model_getitem_next.eq_def c (some .SliceEllipsis) tail advanced]
  show (if tail.length = 0 ∨
        ((model_minmax_depth c).1 - 1 = model_dimlength tail ∧
         (model_minmax_depth c).2 - 1 = model_dimlength tail) then _
      else _) = (if tail.length = 0 ∨
        ((model_minmax_depth c).1 - 1 = model_dimlength tail ∧
         (model_minmax_depth c).2 - 1 = model_dimlength tail) then _
      else _)
  split
  · rfl
  · show (if (model_minmax_depth c).1 - 1 = model_dimlength tail ∨
          (model_minmax_depth c).2 - 1 = model_dimlength tail then _
        else _) = (if (model_minmax_depth c).1 - 1 = model_dimlength tail ∨
          (model_minmax_depth c).2 - 1 = model_dimlength tail then _
        else _)
    split
    · rfl
    · show _ = model_getitem_next c (some (.SliceRange none none 1))
          ⟨.SliceEllipsis :: tail.items⟩ advanced
      rw [model_full_range_unfold]
      cases c <;> rfl

/-- The full range of the small model on a `RegularArray`: the content is
sliced with the rest and what comes back is wrapped. -/
theorem model_full_range (content : Content) (size : Int) (tail : Slice)
    (advanced : Index) :
    model.getitem_next_SliceRange (.RegularArray none [] content size)
        (.SliceRange none none 1) tail advanced
      = model.getitem_next content tail.head tail.tail advanced
        >>= fun next => .ok (.RegularArray none [] next size) := by
  show model_getitem_next _ (some (.SliceRange none none 1)) tail advanced = _
  rw [model_full_range_unfold]
  show Except.map _ (model_getitem_next content tail.head tail.tail advanced)
    = (model_getitem_next content tail.head tail.tail advanced >>= _)
  cases model_getitem_next content tail.head tail.tail advanced <;> rfl

/-- The rows `[1, 2, 3]` and `[4, 5, 6]` are a tree of uniform depth 2. -/
theorem uniform_depth_two_by_three : uniform_depth model 2 two_by_three :=
  ⟨rfl, model_inherits_getitem_next _,
    model_inherits_getitem_next_SliceEllipsis _, fun _ advanced =>
      ⟨six, advanced, fun next => .ok (.RegularArray none [] next 3),
        ⟨rfl, model_inherits_getitem_next _,
          model_inherits_getitem_next_SliceEllipsis _,
          fun h => absurd h (by decide)⟩,
        fun tail => model_full_range six 3 tail advanced⟩⟩

/-- C19 on the rows `[1, 2, 3]` and `[4, 5, 6]`, of depth 2: `[..., 1]` is
`[:, 1]`, the column `2, 5`. -/
theorem ellipsis_expansion_witness :
    Content.getitem model two_by_three ⟨[.SliceEllipsis, .SliceAt 1]⟩
      = Content.getitem model two_by_three
          ⟨[.SliceRange none none 1, .SliceAt 1]⟩ ∧
    Content.getitem model two_by_three ⟨[.SliceEllipsis, .SliceAt 1]⟩
      = .ok (.other "NumpyArray" none [] [2, 5]) :=
  ⟨(ellipsis_expansion model two_by_three 2 1 (by decide) rfl
    ⟨rfl, model_inherits_getitem_next _,
      model_inherits_getitem_next_SliceEllipsis _, fun _ advanced =>
        ⟨two_by_three, advanced,
          fun next => .ok (.RegularArray none [] next 2),
          uniform_depth_two_by_three,
          fun tail => model_full_range two_by_three 2 tail advanced⟩⟩).1, by
    simp [Content.getitem, model, two_by_three, six, Slice.head, Slice.tail,
      model_getitem_next, model_length, model_getitem_at_nowrap,
      model_getitem_range_nowrap, Index.allocate, Except.map,
      model_minmax_depth, model_dimlength, Slice.length]
    rfl⟩

/-! ## Missing values in a slice -/

/-- C21: with a non-empty `advanced`, the handler of a `SliceMissing64`
throws the `std::invalid_argument` of line 1163, for every node, every
missing item and every tail, whatever the methods of the node and the kernels
do: nothing else is reached. -/
theorem missing_with_advanced (M : Methods) (K : Kernels) (c : Content)
    (index : Index) (content : SliceItem) (tail : Slice) (advanced : Index)
    (h : advanced.length ≠ 0) :
    Content.getitem_next_SliceMissing64 M K c index content tail advanced
      = .error (.invalid_argument
          "cannot mix missing values in slice with NumPy-style advanced indexing") := by
  unfold Content.getitem_next_SliceMissing64
  have h1 : (advanced.length : Int) ≠ 0 := by omega
  rw [if_pos h1]
  rfl

/-- C21 on the rows `[1, 2, 3]` and `[4, 5, 6]`, with one position already
taken by an array. -/
theorem missing_with_advanced_witness :
    Content.getitem_next_SliceMissing64 model kernels_model two_by_three
        [0, -1] (.SliceRange none none 1) ⟨[]⟩ [0]
      = .error (.invalid_argument
          "cannot mix missing values in slice with NumPy-style advanced indexing") :=
  missing_with_advanced model kernels_model two_by_three [0, -1]
    (.SliceRange none none 1) ⟨[]⟩ [0] (by decide)

/-- The index `outindex` of `getitem_next_regular_missing` has
`index.length() * length` slots. -/
theorem getitem_next_regular_missing_eq (M : Methods) (K : Kernels)
    (index : Index) (raw_content : Content) (raw_size length : Int) :
    getitem_next_regular_missing M K index raw_content raw_size length
      = (M.simplify_optiontype
          (.IndexedOptionArray64 none []
            ((List.range ((index.length : Int) * length).toNat).map
              (K.awkward_missing_repeat_64 index length raw_size))
            raw_content)).map
          fun simplified => .RegularArray none [] simplified index.length := by
  unfold getitem_next_regular_missing
  dsimp only
  generalize M.simplify_optiontype _ = r
  cases r <;> rfl

/-- C28: for a missing index of `m` slots, a node of length `L ≥ 0` and a
`RegularArray` `raw`, `getitem_next_regular_missing` hands to
`simplify_optiontype` an `IndexedOptionArray64`, with no identities and no
parameters, over the content of `raw` whose index has `m * L` slots, and
returns the `RegularArray` of size `m`, with no identities and no
parameters, over what `simplify_optiontype` returns. -/
theorem regular_missing_layout (M : Methods) (K : Kernels) (index : Index)
    (raw_content : Content) (raw_size L : Int) (hL : 0 ≤ L) :
    ∃ outindex : Index,
      (outindex.length : Int) = (index.length : Int) * L ∧
      (∀ simplified,
        M.simplify_optiontype
            (.IndexedOptionArray64 none [] outindex raw_content)
          = .ok simplified →
        getitem_next_regular_missing M K index raw_content raw_size L
          = .ok (.RegularArray none [] simplified index.length)) ∧
      (∀ e,
        M.simplify_optiontype
            (.IndexedOptionArray64 none [] outindex raw_content)
          = .error e →
        getitem_next_regular_missing M K index raw_content raw_size L
          = .error e) := by
  refine ⟨(List.range ((index.length : Int) * L).toNat).map
    (K.awkward_missing_repeat_64 index L raw_size), ?_, ?_, ?_⟩
  · simp only [List.length_map, List.length_range]
    have : 0 ≤ (index.length : Int) * L := by positivity
    omega
  · intro simplified h
    rw [getitem_next_regular_missing_eq, h]
    rfl
  · intro e h
    rw [getitem_next_regular_missing_eq, h]
    rfl

/-- C28 on a missing index of 2 slots, a node of length 2 and rows of 3: an
index of 4 slots, the second row moved on by 3. -/
theorem regular_missing_layout_witness :
    getitem_next_regular_missing model kernels_model [0, -1] six 3 2
      = .ok (.RegularArray none []
          (.IndexedOptionArray64 none [] [0, -1, 3, -1] six) 2) ∧
    ∃ outindex : Index,
      (outindex.length : Int) = (([0, -1] : Index).length : Int) * 2 ∧
      (∀ simplified,
        model.simplify_optiontype
            (.IndexedOptionArray64 none [] outindex six)
          = .ok simplified →
        getitem_next_regular_missing model kernels_model [0, -1] six 3 2
          = .ok (.RegularArray none [] simplified ([0, -1] : Index).length)) ∧
      (∀ e,
        model.simplify_optiontype
            (.IndexedOptionArray64 none [] outindex six)
          = .error e →
        getitem_next_regular_missing model kernels_model [0, -1] six 3 2
          = .error e) :=
  ⟨by rfl, regular_missing_layout model kernels_model [0, -1] six 3 2
    (by decide)⟩

/-! ## `check_missing_jagged` -/

/-- The four branches of lines 1119-1146 do the same. -/
theorem check_missing_jagged_eq (M : Methods) (K : Kernels) (that : Content)
    (index : Index) (content : SliceItem) :
    check_missing_jagged M K that index content
      = if M.length that = 1 ∧ content.is_SliceJagged64 = true then
          M.getitem_at_nowrap that 0 >>= fun tmp1 =>
            if tmp1.is_optiontype = true then
              check_missing_jagged_option M K that index tmp1
            else pure that
        else pure that := by
  unfold check_missing_jagged
  split
  · cases M.getitem_at_nowrap that 0 with
    | error e => rfl
    | ok tmp1 => cases tmp1 <;> rfl
  · rfl

/-- What `check_missing_jagged_same` reports. -/
theorem check_missing_jagged_same_eq (K : Kernels) (bytemask index : Index) :
    check_missing_jagged_same K bytemask index
      = (decide (bytemask.length = index.length) &&
          K.awkward_slicemissing_check_same bytemask index bytemask.length) := by
  unfold check_missing_jagged_same
  by_cases h : bytemask.length = index.length
  · simp [h]
  · have h1 : (bytemask.length : Int) ≠ (index.length : Int) := by omega
    simp [h, h1]

/-- C27: `check_missing_jagged` returns its input node when the node is not of
length 1, when the content of the missing item is no jagged slice, when
element 0 of the node is of none of the four option-type classes, and when
the byte mask of element 0 has not the length of the missing index or the
kernel does not report the two the same; when all of these hold it returns a
`RegularArray` with the parameters of the input whose content is the
projection of element 0 and whose size is the length of the projection; and
whenever it returns, it returns one of the two. -/
theorem check_missing_jagged_cases (M : Methods) (K : Kernels)
    (that : Content) (index : Index) (content : SliceItem) :
    (M.length that ≠ 1 ∨ content.is_SliceJagged64 = false →
      check_missing_jagged M K that index content = .ok that) ∧
    (M.length that = 1 → content.is_SliceJagged64 = true →
      ∀ tmp1, M.getitem_at_nowrap that 0 = .ok tmp1 →
        (tmp1.is_optiontype = false →
          check_missing_jagged M K that index content = .ok that) ∧
        (tmp1.is_optiontype = true →
          ∀ tmp2, M.project tmp1 = .ok tmp2 →
            ((M.bytemask tmp1).length ≠ index.length ∨
              K.awkward_slicemissing_check_same (M.bytemask tmp1) index
                (M.bytemask tmp1).length = false →
              check_missing_jagged M K that index content = .ok that) ∧
            ((M.bytemask tmp1).length = index.length →
              K.awkward_slicemissing_check_same (M.bytemask tmp1) index
                (M.bytemask tmp1).length = true →
              check_missing_jagged M K that index content
                = .ok (.RegularArray none that.parameters tmp2
                    (M.length tmp2))))) ∧
    (∀ r, check_missing_jagged M K that index content = .ok r →
      r = that ∨
      (M.length that = 1 ∧ content.is_SliceJagged64 = true ∧
        ∃ tmp1 tmp2, M.getitem_at_nowrap that 0 = .ok tmp1 ∧
          tmp1.is_optiontype = true ∧ M.project tmp1 = .ok tmp2 ∧
          (M.bytemask tmp1).length = index.length ∧
          K.awkward_slicemissing_check_same (M.bytemask tmp1) index
            (M.bytemask tmp1).length = true ∧
          r = .RegularArray none that.parameters tmp2 (M.length tmp2))) := by
  refine ⟨?_, ?_, ?_⟩
  · intro h
    rw [check_missing_jagged_eq]
    have h1 : ¬ (M.length that = 1 ∧ content.is_SliceJagged64 = true) := by
      rintro ⟨h1, h2⟩
      rcases h with h | h
      · exact h h1
      · rw [h] at h2
        cases h2
    rw [if_neg h1]
    rfl
  · intro hlen hjag tmp1 htmp1
    have h0 : check_missing_jagged M K that index content
        = if tmp1.is_optiontype = true then
            check_missing_jagged_option M K that index tmp1
          else pure that := by
      rw [check_missing_jagged_eq, if_pos ⟨hlen, hjag⟩, htmp1]
      rfl
    refine ⟨?_, ?_⟩
    · intro h
      rw [h0, h]
      rfl
    · intro h tmp2 htmp2
      have h2 : check_missing_jagged M K that index content
          = if (!check_missing_jagged_same K (M.bytemask tmp1) index) = true
            then pure that
            else pure (.RegularArray none that.parameters tmp2
              (M.length tmp2)) := by
        rw [h0, if_pos h]
        unfold check_missing_jagged_option
        rw [htmp2]
        rfl
      refine ⟨?_, ?_⟩
      · intro hne
        rw [h2, check_missing_jagged_same_eq]
        rcases hne with hne | hne
        · simp [hne]
          rfl
        · simp [hne]
          rfl
      · intro heq hsame
        rw [h2, check_missing_jagged_same_eq, hsame]
        simp [heq]
        rfl
  · intro r hr
    rw [check_missing_jagged_eq] at hr
    by_cases hc : M.length that = 1 ∧ content.is_SliceJagged64 = true
    · rw [if_pos hc] at hr
      cases htmp1 : M.getitem_at_nowrap that 0 with
      | error e =>
        rw [htmp1] at hr
        cases hr
      | ok tmp1 =>
        rw [htmp1] at hr
        change (if tmp1.is_optiontype = true then
            check_missing_jagged_option M K that index tmp1
          else pure that) = Except.ok r at hr
        by_cases ho : tmp1.is_optiontype = true
        · rw [if_pos ho] at hr
          unfold check_missing_jagged_option at hr
          cases htmp2 : M.project tmp1 with
          | error e =>
            rw [htmp2] at hr
            cases hr
          | ok tmp2 =>
            rw [htmp2] at hr
            change (if (!check_missing_jagged_same K (M.bytemask tmp1) index)
                = true then pure that
              else pure (.RegularArray none that.parameters tmp2
                (M.length tmp2))) = Except.ok r at hr
            cases hs : check_missing_jagged_same K (M.bytemask tmp1) index with
            | false =>
              rw [hs] at hr
              left
              cases hr
              rfl
            | true =>
              rw [hs] at hr
              right
              rw [check_missing_jagged_same_eq] at hs
              simp only [Bool.and_eq_true, decide_eq_true_eq] at hs
              refine ⟨hc.1, hc.2, tmp1, tmp2, rfl, ho, htmp2, hs.1, hs.2, ?_⟩
              cases hr
              rfl
        · rw [if_neg ho] at hr
          left
          cases hr
          rfl
    · rw [if_neg hc] at hr
      left
      cases hr
      rfl

/-- C27 on one row of optional numbers `1`, missing, `2` and a jagged slice
whose missing index is negative at the same place: the result is one row of
the two numbers, with the parameter of the input; with a missing index that
is negative elsewhere the input comes back. -/
theorem check_missing_jagged_cases_witness :
    check_missing_jagged option_model kernels_model one_optional_row
        [0, -1, 1] (.SliceJagged64 [0, 1] .SliceEllipsis)
      = .ok (.RegularArray none [("k", "1")]
          (.other "NumpyArray" none [] [1, 2]) 2) ∧
    check_missing_jagged option_model kernels_model one_optional_row
        [-1, 0, 1] (.SliceJagged64 [0, 1] .SliceEllipsis)
      = .ok one_optional_row ∧
    check_missing_jagged option_model kernels_model one_optional_row
        [0, -1, 1] .SliceEllipsis
      = .ok one_optional_row :=
  ⟨(((check_missing_jagged_cases option_model kernels_model
      one_optional_row [0, -1, 1] (.SliceJagged64 [0, 1] .SliceEllipsis)).2.1
      (by rfl) rfl (.IndexedOptionArray64 none [] [0, -1, 1] three)
      (by rfl)).2 rfl (.other "NumpyArray" none [] [1, 2]) (by rfl)).2
      (by rfl) (by rfl),
    (((check_missing_jagged_cases option_model kernels_model
      one_optional_row [-1, 0, 1] (.SliceJagged64 [0, 1] .SliceEllipsis)).2.1
      (by rfl) rfl (.IndexedOptionArray64 none [] [0, -1, 1] three)
      (by rfl)).2 rfl (.other "NumpyArray" none [] [1, 2]) (by rfl)).1
      (.inr (by rfl)),
    (check_missing_jagged_cases option_model kernels_model
      one_optional_row [0, -1, 1] .SliceEllipsis).1 (.inr rfl)⟩

/-! ## The result of slicing with missing values -/

/-- The loop over the fields returns exactly when every field is a
`RegularArray` whose missing-repeat transform returns, with the transforms in
the order of the fields. -/
theorem getitem_next_missing_loop_ok_iff (M : Methods) (K : Kernels)
    (index : Index) (length : Int) :
    ∀ (contents outs : List Content),
      getitem_next_missing_loop M K index length contents = .ok outs
        ↔ List.Forall₂ (missing_repeat_of M K index length) contents outs
  | [], outs => by
    cases outs <;> simp [getitem_next_missing_loop]
  | content :: rest, outs => by
    have ih := getitem_next_missing_loop_ok_iff M K index length rest
    by_cases hc : ∃ i p rc rs, content = .RegularArray i p rc rs
    · obtain ⟨i, p, rc, rs, rfl⟩ := hc
      rw [getitem_next_missing_loop]
      cases h1 : getitem_next_regular_missing M K index rc rs length with
      | error e =>
        constructor
        · intro h
          cases h
        · intro h
          cases h with
          | cons hx _ =>
            obtain ⟨_, _, _, _, heq, hx⟩ := hx
            cases heq
            rw [h1] at hx
            cases hx
      | ok out =>
        cases h2 : getitem_next_missing_loop M K index length rest with
        | error e =>
          constructor
          · intro h
            cases h
          · intro h
            cases h with
            | cons _ hr =>
              rw [← ih] at hr
              rw [h2] at hr
              cases hr
        | ok rest_outs =>
          constructor
          · intro h
            cases h
            exact .cons ⟨i, p, rc, rs, rfl, h1⟩ ((ih _).1 h2)
          · intro h
            cases h with
            | cons hx hr =>
              obtain ⟨_, _, _, _, heq, hx⟩ := hx
              cases heq
              rw [h1] at hx
              cases hx
              rw [← ih, h2] at hr
              cases hr
              rfl
    · have h0 : getitem_next_missing_loop M K index length (content :: rest)
          = .error (.runtime_error
              ("FIXME: unhandled case of SliceMissing with "
              ++ "RecordArray containing\n"
              ++ M.tostring content)) := by
        cases content with
        | RegularArray i p rc rs => exact (hc ⟨i, p, rc, rs, rfl⟩).elim
        | _ => rfl
      rw [h0]
      constructor
      · intro h
        cases h
      · intro h
        cases h with
        | cons hx _ =>
          obtain ⟨i, p, rc, rs, heq, _⟩ := hx
          exact (hc ⟨i, p, rc, rs, heq⟩).elim

/-- The loop over the fields throws at the first field that is no
`RegularArray`, once the transforms of the fields before it returned. -/
theorem getitem_next_missing_loop_irregular (M : Methods) (K : Kernels)
    (index : Index) (length : Int) (x : Content) (post : List Content)
    (hx : x.is_RegularArray = false) :
    ∀ (pre outs : List Content),
      getitem_next_missing_loop M K index length pre = .ok outs →
      getitem_next_missing_loop M K index length (pre ++ x :: post)
        = .error (.runtime_error
            ("FIXME: unhandled case of SliceMissing with RecordArray containing\n"
            ++ M.tostring x))
  | [], _, _ => by
    cases x with
    | RegularArray i p rc rs => cases hx
    | _ => rfl
  | content :: rest, outs, h => by
    cases content with
    | RegularArray i p rc rs =>
      rw [List.cons_append, getitem_next_missing_loop]
      rw [getitem_next_missing_loop] at h
      cases h1 : getitem_next_regular_missing M K index rc rs length with
      | error e =>
        rw [h1] at h
        cases h
      | ok out =>
        rw [h1] at h
        cases h2 : getitem_next_missing_loop M K index length rest with
        | error e =>
          rw [h2] at h
          cases h
        | ok rest_outs =>
          rw [getitem_next_missing_loop_irregular M K index length x post hx
            rest rest_outs h2]
          rfl
    | _ => cases h

/-- The handler of a `SliceMissing64` once `advanced` is empty and the slice
with the content of the missing item returned `next`. -/
theorem getitem_next_SliceMissing64_eq (M : Methods) (K : Kernels)
    (c : Content) (index : Index) (content : SliceItem) (tail : Slice)
    (advanced : Index) (tmp next : Content) (hadv : advanced.length = 0)
    (htmp : check_missing_jagged M K (M.shallow_copy c) index content
      = .ok tmp)
    (hnext : M.getitem_next tmp (some content) tail advanced = .ok next) :
    Content.getitem_next_SliceMissing64 M K c index content tail advanced
      = getitem_next_missing_result M K index (M.length c) next := by
  unfold Content.getitem_next_SliceMissing64
  have h1 : ¬ ((advanced.length : Int) ≠ 0) := by omega
  rw [if_neg h1, htmp]
  show (M.getitem_next tmp (some content) tail advanced >>= _) = _
  rw [hnext]
  rfl

/-- C22: with an empty `advanced`, once `check_missing_jagged` returned `tmp`
and slicing `tmp` with the content of the missing item returned `next`, the
handler of a `SliceMissing64` goes by the class of `next`.  A `RegularArray`
gives its missing-repeat `RegularArray`.  A `RecordArray` without fields is
returned as it is.  A `RecordArray` with fields gives exactly when every
field is a `RegularArray` whose transform returns, and then a `RecordArray`
with the same lookup, no identities and no parameters, whose fields are the
transforms in order; with a field that is no `RegularArray` the handler never
returns, and it throws the `std::runtime_error` of line 1196 on the first
such field once the transforms of the fields before it returned.  Any other
`next` throws the `std::runtime_error` of line 1209. -/
theorem missing_outcome (M : Methods) (K : Kernels) (c : Content)
    (index : Index) (content : SliceItem) (tail : Slice) (advanced : Index)
    (tmp next : Content) (hadv : advanced.length = 0)
    (htmp : check_missing_jagged M K (M.shallow_copy c) index content
      = .ok tmp)
    (hnext : M.getitem_next tmp (some content) tail advanced = .ok next) :
    (∀ i p raw_content raw_size,
      next = .RegularArray i p raw_content raw_size →
      Content.getitem_next_SliceMissing64 M K c index content tail advanced
        = getitem_next_regular_missing M K index raw_content raw_size
            (M.length c)) ∧
    (∀ i p recordlookup, next = .RecordArray i p [] recordlookup →
      Content.getitem_next_SliceMissing64 M K c index content tail advanced
        = .ok next) ∧
    (∀ i p contents recordlookup,
      next = .RecordArray i p contents recordlookup → contents ≠ [] →
      (∀ r,
        Content.getitem_next_SliceMissing64 M K c index content tail advanced
            = .ok r
          ↔ ∃ outs,
              List.Forall₂ (missing_repeat_of M K index (M.length c))
                contents outs ∧
              r = .RecordArray none [] outs recordlookup) ∧
      ((∃ x ∈ contents, x.is_RegularArray = false) →
        ∃ e,
          Content.getitem_next_SliceMissing64 M K c index content tail
            advanced = .error e) ∧
      (∀ pre x post outs, contents = pre ++ x :: post →
        x.is_RegularArray = false →
        List.Forall₂ (missing_repeat_of M K index (M.length c)) pre outs →
        Content.getitem_next_SliceMissing64 M K c index content tail advanced
          = .error (.runtime_error
              ("FIXME: unhandled case of SliceMissing with RecordArray containing\n"
              ++ M.tostring x)))) ∧
    (next.is_RegularArray = false → next.is_RecordArray = false →
      Content.getitem_next_SliceMissing64 M K c index content tail advanced
        = .error (.runtime_error
            ("FIXME: unhandled case of SliceMissing with\n"
            ++ M.tostring next))) := by
  have h0 := getitem_next_SliceMissing64_eq M K c index content tail advanced
    tmp next hadv htmp hnext
  refine ⟨?_, ?_, ?_, ?_⟩
  · intro i p raw_content raw_size h
    rw [h0, h]
    rfl
  · intro i p recordlookup h
    rw [h0, h]
    rfl
  · intro i p contents recordlookup h hne
    have hlen : ¬ ((contents.length : Int) = 0) := by
      cases contents with
      | nil => exact (hne rfl).elim
      | cons x rest =>
        simp only [List.length_cons]
        omega
    have h1 : Content.getitem_next_SliceMissing64 M K c index content tail
          advanced
        = (getitem_next_missing_loop M K index (M.length c) contents
            >>= fun outs => pure (.RecordArray none [] outs recordlookup)) := by
      rw [h0, h]
      show (if (contents.length : Int) = 0 then _ else _) = _
      rw [if_neg hlen]
    refine ⟨?_, ?_, ?_⟩
    · intro r
      rw [h1]
      cases hl : getitem_next_missing_loop M K index (M.length c) contents with
      | error e =>
        constructor
        · intro h2
          cases h2
        · rintro ⟨outs, h2, _⟩
          rw [← getitem_next_missing_loop_ok_iff, hl] at h2
          cases h2
      | ok outs =>
        constructor
        · intro h2
          cases h2
          exact ⟨outs, (getitem_next_missing_loop_ok_iff _ _ _ _ _ _).1 hl,
            rfl⟩
        · rintro ⟨outs2, h2, rfl⟩
          rw [← getitem_next_missing_loop_ok_iff, hl] at h2
          cases h2
          rfl
    · rintro ⟨x, hx, hxr⟩
      rw [h1]
      cases hl : getitem_next_missing_loop M K index (M.length c) contents with
      | error e => exact ⟨e, rfl⟩
      | ok outs =>
        have h2 := (getitem_next_missing_loop_ok_iff _ _ _ _ _ _).1 hl
        have h3 : ∀ (l1 l2 : List Content),
            List.Forall₂ (missing_repeat_of M K index (M.length c)) l1 l2 →
            x ∈ l1 → False := by
          intro l1 l2 hf
          induction hf with
          | nil =>
            intro hm
            cases hm
          | cons hhead _ ih =>
            intro hm
            rcases List.mem_cons.1 hm with hm | hm
            · obtain ⟨_, _, _, _, heq, _⟩ := hhead
              rw [hm, heq] at hxr
              cases hxr
            · exact ih hm
        exact (h3 _ _ h2 hx).elim
    · intro pre x post outs hsplit hx hpre
      rw [h1, hsplit,
        getitem_next_missing_loop_irregular M K index (M.length c) x post hx
          pre outs ((getitem_next_missing_loop_ok_iff _ _ _ _ _ _).2 hpre)]
      rfl
  · intro h1 h2
    rw [h0]
    cases next with
    | RegularArray _ _ _ _ => cases h1
    | RecordArray _ _ _ _ => cases h2
    | _ => rfl

/-- The full range of the small model on the rows `[1, 2, 3]` and
`[4, 5, 6]`. -/
theorem model_full_range_two_by_three :
    model.getitem_next two_by_three (some (.SliceRange none none 1)) ⟨[]⟩ []
      = .ok (.RegularArray none [] six 3) := by
  show model_getitem_next two_by_three (some (.SliceRange none none 1)) ⟨[]⟩ []
    = _
  rw [model_full_range_unfold]
  show Except.map _ (model_getitem_next six none ⟨[]⟩ []) = _
  rw [model_getitem_next.eq_def]
  rfl

/-- C22 on the rows `[1, 2, 3]` and `[4, 5, 6]` with a missing item over a
full range, whose slice is a `RegularArray`; and with a class that answers
every slice with a node of another class. -/
theorem missing_outcome_witness :
    Content.getitem_next_SliceMissing64 model kernels_model two_by_three
        [0, -1] (.SliceRange none none 1) ⟨[]⟩ []
      = getitem_next_regular_missing model kernels_model [0, -1] six 3
          (model.length two_by_three) ∧
    getitem_next_regular_missing model kernels_model [0, -1] six 3
        (model.length two_by_three)
      = .ok (.RegularArray none []
          (.IndexedOptionArray64 none [] [0, -1, 3, -1] six) 2) ∧
    Content.getitem_next_SliceMissing64 reporting kernels_model two_by_three
        [0, -1] (.SliceRange none none 1) ⟨[]⟩ []
      = .error (.runtime_error
          ("FIXME: unhandled case of SliceMissing with\n"
          ++ reporting.tostring
              (.other "getitem_next" none [] [1, 0]))) :=
  ⟨(missing_outcome model kernels_model two_by_three [0, -1]
      (.SliceRange none none 1) ⟨[]⟩ [] two_by_three
      (.RegularArray none [] six 3) rfl (by rfl)
      model_full_range_two_by_three).1 none [] six 3 rfl,
    by rfl,
    (missing_outcome reporting kernels_model two_by_three [0, -1]
      (.SliceRange none none 1) ⟨[]⟩ [] two_by_three
      (.other "getitem_next" none [] [1, 0]) rfl (by rfl) (by rfl)).2.2.2
      rfl rfl⟩

/-! ## The dispatcher, the new axis and the axes -/

/-- C23: `getitem_next(head, tail, advanced)` returns the shallow copy of the
node for a null head; for a head of each of the nine classes it is the
handler of that class on the same node, with the same item, tail and
`advanced`; for a head of any other class it throws the `std::runtime_error`
`unrecognized slice type`, which is no `std::invalid_argument`. -/
theorem getitem_next_dispatch (M : Methods) (c : Content) (tail : Slice)
    (advanced : Index) :
    Content.getitem_next M c none tail advanced = .ok (M.shallow_copy c) ∧
    (∀ x, Content.getitem_next M c (some (.SliceAt x)) tail advanced
      = M.getitem_next_SliceAt c (.SliceAt x) tail advanced) ∧
    (∀ start stop step,
      Content.getitem_next M c (some (.SliceRange start stop step)) tail
          advanced
        = M.getitem_next_SliceRange c (.SliceRange start stop step) tail
            advanced) ∧
    Content.getitem_next M c (some .SliceEllipsis) tail advanced
      = M.getitem_next_SliceEllipsis c .SliceEllipsis tail advanced ∧
    Content.getitem_next M c (some .SliceNewAxis) tail advanced
      = M.getitem_next_SliceNewAxis c .SliceNewAxis tail advanced ∧
    (∀ index shape strides frombool,
      Content.getitem_next M c
          (some (.SliceArray64 index shape strides frombool)) tail advanced
        = M.getitem_next_SliceArray64 c
            (.SliceArray64 index shape strides frombool) tail advanced) ∧
    (∀ key, Content.getitem_next M c (some (.SliceField key)) tail advanced
      = M.getitem_next_SliceField c (.SliceField key) tail advanced) ∧
    (∀ keys, Content.getitem_next M c (some (.SliceFields keys)) tail advanced
      = M.getitem_next_SliceFields c (.SliceFields keys) tail advanced) ∧
    (∀ index originalmask content,
      Content.getitem_next M c
          (some (.SliceMissing64 index originalmask content)) tail advanced
        = M.getitem_next_SliceMissing64 c
            (.SliceMissing64 index originalmask content) tail advanced) ∧
    (∀ offsets content,
      Content.getitem_next M c (some (.SliceJagged64 offsets content)) tail
          advanced
        = M.getitem_next_SliceJagged64 c (.SliceJagged64 offsets content)
            tail advanced) ∧
    (∀ name,
      Content.getitem_next M c (some (.other name)) tail advanced
        = .error (.runtime_error "unrecognized slice type") ∧
      (Failure.runtime_error "unrecognized slice type").is_invalid_argument
        = false) :=
  ⟨rfl, fun _ => rfl, fun _ _ _ => rfl, rfl, rfl, fun _ _ _ _ => rfl,
    fun _ => rfl, fun _ => rfl, fun _ _ _ => rfl, fun _ _ => rfl,
    fun _ => ⟨rfl, rfl⟩⟩

/-- C24: `getitem_next` with a `SliceNewAxis` head calls `getitem_next` on
the same node with the head and the rest of the tail and the same
`advanced`; when that returns a node, the result is the `RegularArray` of
size 1, with no identities and no parameters, over exactly that node, and
when that throws, the exception goes through. -/
theorem newaxis_wraps (M : Methods) (c : Content) (tail : Slice)
    (advanced : Index) :
    (∀ content,
      M.getitem_next c tail.head tail.tail advanced = .ok content →
      Content.getitem_next_SliceNewAxis M c tail advanced
        = .ok (.RegularArray none [] content 1)) ∧
    (∀ e,
      M.getitem_next c tail.head tail.tail advanced = .error e →
      Content.getitem_next_SliceNewAxis M c tail advanced = .error e) := by
  refine ⟨?_, ?_⟩
  · intro content h
    unfold Content.getitem_next_SliceNewAxis
    dsimp only
    rw [h]
    rfl
  · intro e h
    unfold Content.getitem_next_SliceNewAxis
    dsimp only
    rw [h]
    rfl

/-- C24 on the rows `[1, 2, 3]` and `[4, 5, 6]` with nothing after the new
axis: one row holding the two rows. -/
theorem newaxis_wraps_witness :
    Content.getitem_next_SliceNewAxis model two_by_three ⟨[]⟩ []
      = .ok (.RegularArray none [] two_by_three 1) :=
  (newaxis_wraps model two_by_three ⟨[]⟩ []).1 two_by_three
    (model_inherits_getitem_next two_by_three none ⟨[]⟩ [])

/-- C25: `axis_wrap_if_negative` throws the `std::runtime_error` of line 1218
for every `axis < 0` and returns `axis` itself for every `axis ≥ 0`. -/
theorem axis_wrap_if_negative_cases (axis : Int) :
    (axis < 0 →
      Content.axis_wrap_if_negative axis
        = .error (.runtime_error "FIXME: negative axis not implemented yet")) ∧
    (0 ≤ axis → Content.axis_wrap_if_negative axis = .ok axis) := by
  unfold Content.axis_wrap_if_negative
  refine ⟨?_, ?_⟩
  · intro h
    rw [if_pos h]
  · intro h
    have h1 : ¬ (axis < 0) := by omega
    rw [if_neg h1]

/-- C25 at `axis = -1` and at `axis = 2`. -/
theorem axis_wrap_if_negative_cases_witness :
    Content.axis_wrap_if_negative (-1)
      = .error (.runtime_error "FIXME: negative axis not implemented yet") ∧
    Content.axis_wrap_if_negative 2 = .ok 2 :=
  ⟨(axis_wrap_if_negative_cases (-1)).1 (by decide),
    (axis_wrap_if_negative_cases 2).2 (by decide)⟩

/-- C26: for a tree of depth `D` that does not branch, the axis validation of
`reduce` passes exactly for `-D ≤ axis ≤ D - 1`; the `negaxis` it hands on is
`-axis` for `axis < 0` and `D - axis` for `axis ≥ 0`, in both cases more than
0 and at most `D`; so for `0 ≤ a < D` the calls with `axis = a` and with
`axis = a - D` hand the same `negaxis = D - a` to `reduce_next` and are the
same reduction. -/
theorem reduce_axis_range (M : Methods) (c : Content) (reducer : Reducer)
    (mask keepdims : Bool) (D : Int) (hb : M.branch_depth c = (false, D)) :
    (∀ axis,
      (∃ negaxis, reduce_negaxis axis (M.branch_depth c) = .ok negaxis)
        ↔ -D ≤ axis ∧ axis ≤ D - 1) ∧
    (∀ axis, -D ≤ axis → axis < 0 →
      reduce_negaxis axis (M.branch_depth c) = .ok (-axis)) ∧
    (∀ axis, 0 ≤ axis → axis ≤ D - 1 →
      reduce_negaxis axis (M.branch_depth c) = .ok (D - axis)) ∧
    (∀ axis negaxis,
      reduce_negaxis axis (M.branch_depth c) = .ok negaxis →
      0 < negaxis ∧ negaxis ≤ D) ∧
    (∀ a, 0 ≤ a → a < D →
      reduce_negaxis a (M.branch_depth c) = .ok (D - a) ∧
      reduce_negaxis (a - D) (M.branch_depth c) = .ok (D - a) ∧
      Content.reduce M c reducer a mask keepdims
        = Content.reduce M c reducer (a - D) mask keepdims ∧
      Content.reduce M c reducer a mask keepdims
        = (M.reduce_next c reducer (D - a) [0]
            (List.replicate (M.length c).toNat 0) 1 mask keepdims
            >>= fun next => M.getitem_at_nowrap next 0)) := by
  have hneg : ∀ axis, -D ≤ axis → axis < 0 →
      reduce_negaxis axis (M.branch_depth c) = .ok (-axis) := by
    intro axis h1 h2
    rw [hb, reduce_negaxis_uniform]
    have h3 : ¬ (0 ≤ axis) := by omega
    have h4 : -axis ≤ D := by omega
    simp only [h3, h4, if_true, if_false]
  have hpos : ∀ axis, 0 ≤ axis → axis ≤ D - 1 →
      reduce_negaxis axis (M.branch_depth c) = .ok (D - axis) := by
    intro axis h1 h2
    rw [hb, reduce_negaxis_uniform]
    have h4 : axis < D := by omega
    simp only [h1, h4, if_true]
  have hok : ∀ axis negaxis,
      reduce_negaxis axis (M.branch_depth c) = .ok negaxis →
      (-D ≤ axis ∧ axis ≤ D - 1) ∧ 0 < negaxis ∧ negaxis ≤ D := by
    intro axis negaxis h
    rw [hb, reduce_negaxis_uniform] at h
    by_cases h1 : 0 ≤ axis
    · rw [if_pos h1] at h
      by_cases h2 : axis < D
      · rw [if_pos h2] at h
        cases h
        omega
      · rw [if_neg h2] at h
        cases h
    · rw [if_neg h1] at h
      by_cases h2 : -axis ≤ D
      · rw [if_pos h2] at h
        cases h
        omega
      · rw [if_neg h2] at h
        cases h
  refine ⟨?_, hneg, hpos, ?_, ?_⟩
  · intro axis
    constructor
    · rintro ⟨negaxis, h⟩
      exact (hok axis negaxis h).1
    · rintro ⟨h1, h2⟩
      by_cases h0 : 0 ≤ axis
      · exact ⟨_, hpos axis h0 h2⟩
      · exact ⟨_, hneg axis h1 (by omega)⟩
  · intro axis negaxis h
    exact (hok axis negaxis h).2
  · intro a h1 h2
    have h3 := hpos a h1 (by omega)
    have h4 : reduce_negaxis (a - D) (M.branch_depth c) = .ok (D - a) := by
      rw [hneg (a - D) (by omega) (by omega)]
      congr 1
      omega
    refine ⟨h3, h4, ?_, ?_⟩
    · rw [reduce_eq, reduce_eq, h3, h4]
    · rw [reduce_eq, h3]
      rfl

/-- C26 on the rows `[1, 2, 3]` and `[4, 5, 6]`, of depth 2: `axis = 0` and
`axis = -2` both hand `negaxis = 2` to `reduce_next`. -/
theorem reduce_axis_range_witness :
    model.branch_depth two_by_three = (false, 2) ∧
    Content.reduce model two_by_three ⟨"sum"⟩ 0 false false
      = Content.reduce model two_by_three ⟨"sum"⟩ (0 - 2) false false ∧
    Content.reduce model two_by_three ⟨"sum"⟩ 0 false false
      = .ok (.other "sum" none [] [2]) :=
  ⟨rfl, ((reduce_axis_range model two_by_three ⟨"sum"⟩ false false 2
    rfl).2.2.2.2 0 (by decide) (by decide)).2.2.1, by rfl⟩

/-! ## The classes `RecordArray` and `NumpyArray` -/

/-- An object of class `NumpyArray` reaches lines 124-155. -/
theorem fromjson_part_NumpyArray {env : Env} {ms : List (String × JSON)}
    {p : Parameters} {h : Bool}
    (hcls : JSON.string_at ms "class" = some "NumpyArray")
    (hp : fromjson_parameters env ms = .ok p)
    (hh : fromjson_has_identities ms = .ok h) :
    fromjson_part env (.obj ms) = fromjson_NumpyArray env ms h p := by
  rw [fromjson_part_obj hcls hp hh]
  unfold fromjson_class
  exact if_pos rfl

/-- An object of class `RecordArray` reaches lines 157-177. -/
theorem fromjson_part_RecordArray {env : Env} {ms : List (String × JSON)}
    {p : Parameters} {h : Bool}
    (hcls : JSON.string_at ms "class" = some "RecordArray")
    (hp : fromjson_parameters env ms = .ok p)
    (hh : fromjson_has_identities ms = .ok h) :
    fromjson_part env (.obj ms)
      = fromjson_RecordArray h p (fromjson_array_at env "contents" ms)
          (fromjson_object_at env "contents" ms) := by
  rw [fromjson_part_obj hcls hp hh]
  unfold fromjson_class
  have h1 : ¬ ("RecordArray" = "NumpyArray") := by decide
  exact (if_neg h1).trans (if_pos rfl)

/-- The loop over the members of `contents` returns exactly when every value
is parsed, with the Forms in document order. -/
theorem fromjson_values_ok_iff (env : Env) :
    ∀ (pairs : List (String × JSON)) (forms : List Form),
      fromjson_values env pairs = .ok forms
        ↔ List.Forall₂ (fun pair f => fromjson_part env pair.2 = .ok f)
            pairs forms
  | [], forms => by
    cases forms <;> simp [fromjson_values]
  | (name, value) :: rest, forms => by
    have ih := fromjson_values_ok_iff env rest
    rw [fromjson_values]
    cases hx : fromjson_part env value with
    | error e =>
      constructor
      · intro h
        cases h
      · intro h
        cases h with
        | cons h1 _ =>
          rw [hx] at h1
          cases h1
    | ok f =>
      cases hr : fromjson_values env rest with
      | error e =>
        constructor
        · intro h
          cases h
        · intro h
          cases h with
          | cons _ h2 =>
            rw [← ih, hr] at h2
            cases h2
      | ok fs =>
        constructor
        · intro h
          cases h
          exact .cons hx ((ih _).1 hr)
        · intro h
          cases h with
          | cons h1 h2 =>
            rw [hx] at h1
            cases h1
            rw [← ih, hr] at h2
            cases h2
            rfl

/-- C29: for an object of class `RecordArray` whose parameters and
`has_identities` are read.  When `contents` is a JSON list, `fromjson_part`
returns exactly when every item is parsed, and then a `RecordForm` with no
lookup whose contents are the parsed items in order.  When `contents` is a
JSON object, it returns exactly when every value is parsed, and then a
`RecordForm` whose lookup holds the names of the members in document order
and whose contents are the parsed values in the same order: one name per
content, the name at a position being the key of the content at that
position. -/
theorem record_contents (env : Env) (ms : List (String × JSON))
    (h : Bool) (p : Parameters)
    (hcls : JSON.string_at ms "class" = some "RecordArray")
    (hp : fromjson_parameters env ms = .ok p)
    (hh : fromjson_has_identities ms = .ok h) :
    (∀ items, JSON.member ms "contents" = some (.arr items) →
      ∀ f, fromjson_part env (.obj ms) = .ok f
        ↔ ∃ forms,
            List.Forall₂ (fun item form => fromjson_part env item = .ok form)
              items forms ∧
            f = .RecordForm h p none forms) ∧
    (∀ pairs, JSON.member ms "contents" = some (.obj pairs) →
      ∀ f, fromjson_part env (.obj ms) = .ok f
        ↔ ∃ forms,
            List.Forall₂
              (fun (pair : String × JSON) form =>
                fromjson_part env pair.2 = .ok form)
              pairs forms ∧
            (pairs.map Prod.fst).length = forms.length ∧
            f = .RecordForm h p (some (pairs.map Prod.fst)) forms) := by
  have h0 := @fromjson_part_RecordArray env ms p h hcls hp hh
  refine ⟨?_, ?_⟩
  · intro items hitems f
    rw [h0, fromjson_array_at_eq, hitems]
    show fromjson_RecordArray h p (some (fromjson_array env items)) _ = _ ↔ _
    unfold fromjson_RecordArray
    cases hr : fromjson_array env items with
    | error e =>
      constructor
      · intro h1
        cases h1
      · rintro ⟨forms, h1, _⟩
        rw [← fromjson_array_ok_iff, hr] at h1
        cases h1
    | ok forms =>
      constructor
      · intro h1
        cases h1
        exact ⟨forms, (fromjson_array_ok_iff env _ _).1 hr, rfl⟩
      · rintro ⟨forms2, h1, rfl⟩
        rw [← fromjson_array_ok_iff, hr] at h1
        cases h1
        rfl
  · intro pairs hpairs f
    rw [h0, fromjson_array_at_eq, fromjson_object_at_eq, hpairs]
    show fromjson_RecordArray h p none
      (some (pairs.map Prod.fst, fromjson_values env pairs)) = _ ↔ _
    unfold fromjson_RecordArray
    cases hr : fromjson_values env pairs with
    | error e =>
      constructor
      · intro h1
        cases h1
      · rintro ⟨forms, h1, _⟩
        rw [← fromjson_values_ok_iff, hr] at h1
        cases h1
    | ok forms =>
      have h2 := (fromjson_values_ok_iff env _ _).1 hr
      constructor
      · intro h1
        cases h1
        refine ⟨forms, h2, ?_, rfl⟩
        rw [List.length_map]
        exact h2.length_eq
      · rintro ⟨forms2, h1, _, rfl⟩
        rw [← fromjson_values_ok_iff, hr] at h1
        cases h1
        rfl

/-- C29 at a record given as a list of two primitives and at the same record
given as an object with the keys `x` and `y`. -/
theorem record_contents_witness :
    fromjson_part lp64 (.obj [("class", .str "RecordArray"),
        ("contents", .arr [.str "float64", .str "bool"])])
      = .ok (.RecordForm false [] none
          [.NumpyForm false [] [] 8 "d", .NumpyForm false [] [] 1 "?"]) ∧
    fromjson_part lp64 (.obj [("class", .str "RecordArray"),
        ("contents", .obj [("x", .str "float64"), ("y", .str "bool")])])
      = .ok (.RecordForm false [] (some ["x", "y"])
          [.NumpyForm false [] [] 8 "d", .NumpyForm false [] [] 1 "?"]) :=
  ⟨((record_contents lp64 [("class", .str "RecordArray"),
        ("contents", .arr [.str "float64", .str "bool"])] false [] rfl rfl
      rfl).1 [.str "float64", .str "bool"] rfl _).2
      ⟨_, .cons rfl (.cons rfl .nil), rfl⟩,
    ((record_contents lp64 [("class", .str "RecordArray"),
        ("contents", .obj [("x", .str "float64"), ("y", .str "bool")])]
      false [] rfl rfl rfl).2 [("x", .str "float64"), ("y", .str "bool")]
      rfl _).2 ⟨_, .cons rfl (.cons rfl .nil), rfl, rfl⟩⟩

/-- The loop over `inner_shape` returns exactly on a list of integers that
fit an `int`, with these integers in order. -/
theorem inner_shape_loop_ok_iff :
    ∀ (items : List JSON) (s : List Int),
      inner_shape_loop items = .ok s
        ↔ items = s.map JSON.int ∧ ∀ n ∈ s, fits_int n
  | [], s => by
    cases s <;> simp [inner_shape_loop]
  | item :: rest, s => by
    have ih := inner_shape_loop_ok_iff rest
    cases item with
    | int n =>
      rw [inner_shape_loop]
      by_cases hn : fits_int n
      · have h1 : JSON.IsInt (.int n) = true := by
          simpa [JSON.IsInt, fits_int] using hn
        rw [if_pos h1]
        cases hr : inner_shape_loop rest with
        | error e =>
          constructor
          · intro h
            cases h
          · rintro ⟨h2, h3⟩
            cases s with
            | nil => cases h2
            | cons m s2 =>
              simp only [List.map_cons, List.cons.injEq] at h2
              have h4 := (ih s2).2 ⟨h2.2, fun k hk =>
                h3 k (List.mem_cons_of_mem _ hk)⟩
              rw [hr] at h4
              cases h4
        | ok s1 =>
          have h5 := (ih s1).1 hr
          constructor
          · intro h
            cases h
            refine ⟨by rw [List.map_cons, ← h5.1], ?_⟩
            intro k hk
            rcases List.mem_cons.1 hk with hk | hk
            · rw [hk]
              exact hn
            · exact h5.2 k hk
          · rintro ⟨h2, h3⟩
            cases s with
            | nil => cases h2
            | cons m s2 =>
              simp only [List.map_cons, List.cons.injEq, JSON.int.injEq] at h2
              have h4 := (ih s2).2 ⟨h2.2, fun k hk =>
                h3 k (List.mem_cons_of_mem _ hk)⟩
              rw [hr] at h4
              cases h4
              rw [h2.1]
              rfl
      · have h1 : ¬ (JSON.IsInt (.int n) = true) := by
          simpa [JSON.IsInt, fits_int] using hn
        rw [if_neg h1]
        constructor
        · intro h
          cases h
        · rintro ⟨h2, h3⟩
          cases s with
          | nil => cases h2
          | cons m s2 =>
            simp only [List.map_cons, List.cons.injEq, JSON.int.injEq] at h2
            exact (hn (h2.1 ▸ h3 m (List.mem_cons_self _ _))).elim
    | null | bool _ | double _ | str _ | arr _ | obj _ =>
      rw [inner_shape_loop]
      constructor
      · intro h
        cases h
      · rintro ⟨h2, _⟩
        cases s with
        | nil => cases h2
        | cons m s2 => cases h2
      all_goals (intro n hn; cases hn)

/-- What `JSON.int_at` gives for an integer member: the integer when it fits
an `int`, nothing when it does not. -/
theorem int_at_of_int {ms : List (String × JSON)} {key : String} {n : Int}
    (h : JSON.member ms key = some (.int n)) :
    (fits_int n → JSON.int_at ms key = some n) ∧
    (¬ fits_int n → JSON.int_at ms key = none) := by
  unfold JSON.int_at
  rw [h]
  refine ⟨?_, ?_⟩
  · intro hn
    have h1 : JSON.IsInt (.int n) = true := by
      simpa [JSON.IsInt, fits_int] using hn
    simp [h1]
  · intro hn
    have h1 : JSON.IsInt (.int n) = false := by
      simpa [JSON.IsInt, fits_int] using hn
    simp [h1]

/-- The class `NumpyArray`, branch by branch. -/
theorem fromjson_NumpyArray_cases (env : Env) (ms : List (String × JSON))
    (h : Bool) (p : Parameters) :
    (∀ s itemsize format, JSON.string_at ms "primitive" = some s →
      primitive env s = some (itemsize, format) →
      fromjson_NumpyArray env ms h p
        = (inner_shape ms).map fun shape =>
            .NumpyForm h p shape itemsize format) ∧
    (∀ s, JSON.string_at ms "primitive" = some s → primitive env s = none →
      fromjson_NumpyArray env ms h p = .error (unrecognized env (.str s))) ∧
    (JSON.string_at ms "primitive" = none →
      ∀ format itemsize, JSON.string_at ms "format" = some format →
        JSON.int_at ms "itemsize" = some itemsize →
        fromjson_NumpyArray env ms h p
          = (inner_shape ms).map fun shape =>
              .NumpyForm h p shape itemsize format) ∧
    (JSON.string_at ms "primitive" = none →
      JSON.string_at ms "format" = none ∨ JSON.int_at ms "itemsize" = none →
      fromjson_NumpyArray env ms h p
        = .error (.invalid_argument
            "NumpyForm must have a 'primitive' field or 'format' and 'itemsize'")) := by
  refine ⟨?_, ?_, ?_, ?_⟩
  · intro s itemsize format hs hprim
    unfold fromjson_NumpyArray inner_shape
    simp only [hs, hprim]
    cases JSON.member ms "inner_shape" with
    | none => rfl
    | some v =>
      cases v with
      | arr items => cases inner_shape_loop items <;> rfl
      | _ => rfl
  · intro s hs hprim
    unfold fromjson_NumpyArray
    simp only [hs, hprim]
    rfl
  · intro hs format itemsize hformat hitemsize
    unfold fromjson_NumpyArray inner_shape
    simp only [hs, hformat, hitemsize]
    cases JSON.member ms "inner_shape" with
    | none => rfl
    | some v =>
      cases v with
      | arr items => cases inner_shape_loop items <;> rfl
      | _ => rfl
  · intro hs hno
    unfold fromjson_NumpyArray
    simp only [hs]
    rcases hno with hno | hno
    · rw [hno]
      rfl
    · rw [hno]
      cases JSON.string_at ms "format" <;> rfl


/-- C30: an `itemsize` or an element of `inner_shape` that is an integer but
does not fit a 32-bit `int` is not used as given.  With `itemsize` 8 the
object with `format` and `itemsize` is parsed, with `itemsize`
`2147483648 = 2^31` it is rejected as having neither a `primitive` nor
`format` and `itemsize`; with `inner_shape` `[2, 3]` the object is parsed,
with `[2, 2147483648]` it is rejected as holding a non-integer: lines 134 and
145 test `IsInt()`, a 32-bit test, before lines 136 and 146 read the value
with `GetInt64()`.  For integers that fit an `int` the class is as stated: a
string `primitive` gives its item size and format, whatever `format` and
`itemsize` are, and an unknown name throws; otherwise a string `format` and
an `itemsize` that fits are used as given; otherwise the
`std::invalid_argument` of line 139 is thrown; the inner shape is the list of
the elements of an array `inner_shape`, all of which must be integers that
fit, and is empty when the member is absent or no array. -/
theorem NumpyArray_integers_must_fit_int (env : Env) :
    fromjson_part env (.obj [("class", .str "NumpyArray"),
        ("format", .str "d"), ("itemsize", .int 8)])
      = .ok (.NumpyForm false [] [] 8 "d") ∧
    fromjson_part env (.obj [("class", .str "NumpyArray"),
        ("format", .str "d"), ("itemsize", .int 2147483648)])
      = .error (.invalid_argument
          "NumpyForm must have a 'primitive' field or 'format' and 'itemsize'") ∧
    fromjson_part env (.obj [("class", .str "NumpyArray"),
        ("primitive", .str "float64"), ("inner_shape", .arr [.int 2, .int 3])])
      = .ok (.NumpyForm false [] [2, 3] 8 "d") ∧
    fromjson_part env (.obj [("class", .str "NumpyArray"),
        ("primitive", .str "float64"),
        ("inner_shape", .arr [.int 2, .int 2147483648])])
      = .error (.invalid_argument
          "NumpyForm 'inner_shape' must only contain integers") ∧
    ∀ (ms : List (String × JSON)) (h : Bool) (p : Parameters),
      JSON.string_at ms "class" = some "NumpyArray" →
      fromjson_parameters env ms = .ok p →
      fromjson_has_identities ms = .ok h →
      (∀ s itemsize format, JSON.string_at ms "primitive" = some s →
        primitive env s = some (itemsize, format) →
        fromjson_part env (.obj ms)
          = (inner_shape ms).map fun shape =>
              .NumpyForm h p shape itemsize format) ∧
      (∀ s, JSON.string_at ms "primitive" = some s →
        primitive env s = none →
        fromjson_part env (.obj ms) = .error (unrecognized env (.str s))) ∧
      (JSON.string_at ms "primitive" = none →
        ∀ format itemsize, JSON.string_at ms "format" = some format →
          JSON.member ms "itemsize" = some (.int itemsize) →
          (fits_int itemsize →
            fromjson_part env (.obj ms)
              = (inner_shape ms).map fun shape =>
                  .NumpyForm h p shape itemsize format) ∧
          (¬ fits_int itemsize →
            fromjson_part env (.obj ms)
              = .error (.invalid_argument
                  "NumpyForm must have a 'primitive' field or 'format' and 'itemsize'"))) ∧
      (JSON.string_at ms "primitive" = none →
        JSON.string_at ms "format" = none ∨
          JSON.int_at ms "itemsize" = none →
        fromjson_part env (.obj ms)
          = .error (.invalid_argument
              "NumpyForm must have a 'primitive' field or 'format' and 'itemsize'")) ∧
      (∀ items, JSON.member ms "inner_shape" = some (.arr items) →
        ∀ shape, inner_shape ms = .ok shape
          ↔ items = shape.map JSON.int ∧ ∀ n ∈ shape, fits_int n) ∧
      ((∀ items, JSON.member ms "inner_shape" ≠ some (.arr items)) →
        inner_shape ms = .ok []) := by
  refine ⟨rfl, rfl, rfl, rfl, ?_⟩
  intro ms h p hcls hp hh
  have h0 := @fromjson_part_NumpyArray env ms p h hcls hp hh
  have hc := fromjson_NumpyArray_cases env ms h p
  refine ⟨?_, ?_, ?_, ?_, ?_, ?_⟩
  · intro s itemsize format hs hprim
    rw [h0]
    exact hc.1 s itemsize format hs hprim
  · intro s hs hprim
    rw [h0]
    exact hc.2.1 s hs hprim
  · intro hs format itemsize hformat hitemsize
    refine ⟨?_, ?_⟩
    · intro hfits
      rw [h0]
      exact hc.2.2.1 hs format itemsize hformat
        ((int_at_of_int hitemsize).1 hfits)
    · intro hfits
      rw [h0]
      exact hc.2.2.2 hs (.inr ((int_at_of_int hitemsize).2 hfits))
  · intro hs hno
    rw [h0]
    exact hc.2.2.2 hs hno
  · intro items hitems shape
    unfold inner_shape
    rw [hitems]
    exact inner_shape_loop_ok_iff items shape
  · intro hno
    unfold inner_shape
    cases hm : JSON.member ms "inner_shape" with
    | none => rfl
    | some v =>
      cases v with
      | arr items => exact (hno items hm).elim
      | _ => rfl

/-! ## The parameters of a node -/

/-- The node with its parameters assigned has these parameters. -/
theorem parameters_setparameters (c : Content) (p : Parameters) :
    (c.setparameters p).parameters = p := by
  cases c <;> rfl

/-- A second assignment of the parameters replaces the first. -/
theorem setparameters_setparameters (c : Content) (p q : Parameters) :
    (c.setparameters p).setparameters q = c.setparameters q := by
  cases c <;> rfl

/-- A key that is not in the map is not erased. -/
theorem erase_of_find_none :
    ∀ (p : Parameters) (key : String), Parameters.find p key = none →
      Parameters.erase p key = p
  | [], _, _ => rfl
  | (k, v) :: rest, key, h => by
    by_cases hk : k = key
    · simp [Parameters.find, hk] at h
    · simp only [Parameters.find, hk, if_false] at h
      simp only [Parameters.erase, hk, if_false]
      rw [erase_of_find_none rest key h]

/-- A key that is not among the keys is not found. -/
theorem find_of_not_mem :
    ∀ (p : Parameters) (key : String), key ∉ p.map Prod.fst →
      Parameters.find p key = none
  | [], _, _ => rfl
  | (k, v) :: rest, key, h => by
    simp only [List.map_cons, List.mem_cons, not_or] at h
    have hk : ¬ k = key := fun hk => h.1 hk.symm
    simp only [Parameters.find, hk, if_false]
    exact find_of_not_mem rest key h.2

/-- An erased key of a map is not found. -/
theorem find_erase_self :
    ∀ (p : Parameters) (key : String), p.is_map →
      Parameters.find (Parameters.erase p key) key = none
  | [], _, _ => rfl
  | (k, v) :: rest, key, h => by
    have h1 : k ∉ rest.map Prod.fst ∧ (rest.map Prod.fst).Nodup := by
      simpa [Parameters.is_map] using h
    by_cases hk : k = key
    · simp only [Parameters.erase, hk, if_true]
      exact find_of_not_mem rest key (hk ▸ h1.1)
    · simp only [Parameters.erase, hk, if_false, Parameters.find]
      exact find_erase_self rest key h1.2

/-- Erasing a key leaves the other keys as they were. -/
theorem find_erase_other :
    ∀ (p : Parameters) (key k : String), k ≠ key →
      Parameters.find (Parameters.erase p key) k = Parameters.find p k
  | [], _, _, _ => rfl
  | (k0, v) :: rest, key, k, h => by
    by_cases hk : k0 = key
    · have h2 : ¬ key = k := fun h2 => h h2.symm
      simp only [Parameters.erase, hk, if_true, Parameters.find]
      rw [if_neg h2]
    · simp only [Parameters.erase, hk, if_false, Parameters.find]
      rw [find_erase_other rest key k h]

/-- Assigning the same value to the same key twice is assigning it once. -/
theorem assign_assign :
    ∀ (p : Parameters) (key value : String),
      Parameters.assign (Parameters.assign p key value) key value
        = Parameters.assign p key value
  | [], key, value => by
    simp [Parameters.assign]
  | (k, v) :: rest, key, value => by
    by_cases h0 : key = k
    · simp [Parameters.assign, h0]
    · by_cases hlt : key.data < k.data
      · simp [Parameters.assign, h0, hlt]
      · simp only [Parameters.assign, h0, hlt, if_false]
        rw [assign_assign rest key value]

/-- C31: for a node whose parameters are a map and every key `k` and value
`v`: after `setparameter(k, v)`, `parameter(k)` returns `v`, where the text
`null` erases the key and a key that is not there reads as `null`;
`parameter(k')` of every other key `k'` is as it was; and a second
`setparameter(k, v)` changes nothing. -/
theorem setparameter_then_parameter (c : Content) (k v : String)
    (hmap : c.parameters.is_map) :
    (c.setparameter k v).parameter k = v ∧
    (v = "null" → Parameters.find (c.setparameter k v).parameters k = none) ∧
    (∀ key, Parameters.find c.parameters key = none →
      c.parameter key = "null") ∧
    (∀ k2, k2 ≠ k → (c.setparameter k v).parameter k2 = c.parameter k2) ∧
    (c.setparameter k v).setparameter k v = c.setparameter k v := by
  by_cases hv : v = "null"
  · have h1 : (c.setparameter k v).parameters
        = Parameters.erase c.parameters k := by
      unfold Content.setparameter
      rw [if_pos hv, parameters_setparameters]
    have h2 := find_erase_self c.parameters k hmap
    refine ⟨?_, ?_, ?_, ?_, ?_⟩
    · unfold Content.parameter
      rw [h1, h2, hv]
    · intro _
      rw [h1, h2]
    · intro key hkey
      unfold Content.parameter
      rw [hkey]
    · intro k2 hk2
      unfold Content.parameter
      rw [h1, find_erase_other _ _ _ hk2]
    · have e : c.setparameter k v
          = c.setparameters (Parameters.erase c.parameters k) := by
        unfold Content.setparameter
        rw [if_pos hv]
      rw [e]
      unfold Content.setparameter
      rw [if_pos hv, parameters_setparameters, setparameters_setparameters,
        erase_of_find_none _ _ h2]
  · have h1 : (c.setparameter k v).parameters
        = Parameters.assign c.parameters k v := by
      unfold Content.setparameter
      rw [if_neg hv, parameters_setparameters]
    refine ⟨?_, ?_, ?_, ?_, ?_⟩
    · unfold Content.parameter
      rw [h1, find_assign, if_pos rfl]
    · intro h
      exact (hv h).elim
    · intro key hkey
      unfold Content.parameter
      rw [hkey]
    · intro k2 hk2
      unfold Content.parameter
      rw [h1, find_assign, if_neg hk2]
    · have e : c.setparameter k v
          = c.setparameters (Parameters.assign c.parameters k v) := by
        unfold Content.setparameter
        rw [if_neg hv]
      rw [e]
      unfold Content.setparameter
      rw [if_neg hv, parameters_setparameters, setparameters_setparameters,
        assign_assign]

/-- C31 on a leaf with the parameters `a` and `c`: setting `b`, and erasing
`a` by setting it to `null`. -/
theorem setparameter_then_parameter_witness :
    leaf_with_parameters.setparameter "b" "2"
      = .other "NumpyArray" none [("a", "1"), ("b", "2"), ("c", "\"x\"")]
          [1, 2, 3] ∧
    (leaf_with_parameters.setparameter "b" "2").parameter "b" = "2" ∧
    leaf_with_parameters.setparameter "a" "null"
      = .other "NumpyArray" none [("c", "\"x\"")] [1, 2, 3] ∧
    (leaf_with_parameters.setparameter "a" "null").parameter "a" = "null" :=
  ⟨by rfl,
    (setparameter_then_parameter leaf_with_parameters "b" "2"
      (by unfold Parameters.is_map; decide)).1,
    by rfl,
    (setparameter_then_parameter leaf_with_parameters "a" "null"
      (by unfold Parameters.is_map; decide)).1⟩

/-! ## Padding, combinations of nothing and a trailing ellipsis -/

/-- C32: `rpad_axis0` with `clip = false` and `target < length()` returns the
shallow copy of the node, which is no option-type node made by the call; so,
when a shallow copy has the length of its node and a simplified option-type
node one element per slot of its index, with `clip = false` whatever
`rpad_axis0` returns has `max(target, length)` elements, never fewer than the
node. -/
theorem rpad_axis0_never_shortens (M : Methods) (c : Content) (target : Int)
    (hL : 0 ≤ M.length c) (hlen : padding_keeps_lengths M c) :
    (target < M.length c →
      Content.rpad_axis0 M c target false = .ok (M.shallow_copy c)) ∧
    (∀ r, Content.rpad_axis0 M c target false = .ok r →
      M.length r = max target (M.length c) ∧ M.length c ≤ M.length r) := by
  have h1 : target < M.length c →
      Content.rpad_axis0 M c target false = .ok (M.shallow_copy c) := by
    intro h
    unfold Content.rpad_axis0
    have h2 : (!false && decide (target < M.length c)) = true := by
      simp [h]
    rw [if_pos h2]
  refine ⟨h1, ?_⟩
  intro r hr
  by_cases h : target < M.length c
  · rw [h1 h] at hr
    cases hr
    rw [hlen.1, max_eq_right (le_of_lt h)]
    exact ⟨rfl, le_refl _⟩
  · have ht : 0 ≤ target := by omega
    unfold Content.rpad_axis0 at hr
    have h2 : ¬ ((!false && decide (target < M.length c)) = true) := by
      simp [h]
    rw [if_neg h2] at hr
    have h3 := hlen.2 _ _ r hr
    have h4 := (rpad_and_clip_allocate M target (M.length c) ht).1
    rw [h3, h4, max_eq_left (by omega)]
    exact ⟨by omega, by omega⟩

/-- The small model keeps the lengths as `rpad_axis0` needs them. -/
theorem model_padding_keeps_lengths (c : Content) :
    padding_keeps_lengths model c := by
  refine ⟨rfl, ?_⟩
  intro index content r h
  cases content with
  | RegularArray i p x s =>
    cases h
    rfl
  | other cls i p state =>
    cases h
    rfl
  | _ => cases h

/-- C32 on a leaf of length 4: padded to 2 it comes back as it is, padded to
6 it has 6 elements. -/
theorem rpad_axis0_never_shortens_witness :
    Content.rpad_axis0 model four 2 false = .ok four ∧
    (∀ r, Content.rpad_axis0 model four 6 false = .ok r →
      model.length r = max 6 (model.length four) ∧
      model.length four ≤ model.length r) :=
  ⟨(rpad_axis0_never_shortens model four 2 (by decide)
      (model_padding_keeps_lengths four)).1 (by decide),
    (rpad_axis0_never_shortens model four 6 (by decide)
      (model_padding_keeps_lengths four)).2⟩

/-- C33: without replacement and with `n = 0`, lines 844-861 compute the
count `L` on a node of length `L ≥ 1`: the loop runs from `j = 2` to
`thisn = 0`, that is not at all, and the count stays at `size = L`, where
`C(L, 0) = 1`; on a node of length 0 they compute 1; and whatever the length,
no column is allocated and the `RecordArray` has no field. -/
theorem combinations_of_none (M : Methods) (c : Content)
    (recordlookup : Option (List String)) (parameters : Parameters) :
    (∀ L : Int, 1 ≤ L →
      combinationslen L 0 = L ∧
      combinationslen_loop L 0 L = L ∧
      Nat.choose L.toNat 0 = 1 ∧
      (2 ≤ L → combinationslen L 0 ≠ ((Nat.choose L.toNat 0 : Nat) : Int))) ∧
    combinationslen 0 0 = 1 ∧
    Content.combinations_axis0 M c 0 false recordlookup parameters
      = .RecordArray none parameters [] recordlookup := by
  refine ⟨?_, rfl, rfl⟩
  intro L hL
  have h1 : combinationslen_loop L 0 L = L := by
    unfold combinationslen_loop
    rfl
  have h2 : combinationslen L 0 = L := by
    unfold combinationslen
    have h3 : ¬ ((0 : Int) > L) := by omega
    have h4 : ¬ ((0 : Int) = L) := by omega
    have h5 : ¬ ((0 : Int) * 2 > L) := by omega
    simp only [h3, h4, h5, if_false]
    exact h1
  refine ⟨h2, h1, Nat.choose_zero_right _, ?_⟩
  intro hL2
  rw [h2, Nat.choose_zero_right]
  omega

/-- C33 on a leaf of length 5: the count is 5, and the record has no
field. -/
theorem combinations_of_none_witness :
    combinationslen (model.length five) 0 = 5 ∧
    Content.combinations_axis0 model five 0 false none []
      = .RecordArray none [] [] none :=
  ⟨((combinations_of_none model five none []).1 (model.length five)
      (by decide)).1,
    (combinations_of_none model five none []).2.2⟩

/-- C34: whatever the least and greatest depths of the node, the handler of
an ellipsis with an empty tail does not throw the error of line 1002: it
calls `getitem_next` on the same node with the null head of the empty tail,
which `Content::getitem_next` answers with the shallow copy of the node; so
on a node whose class inherits `getitem_next(head, tail, advanced)` the
handler returns the shallow copy of the node, and so does `getitem_next`
with an ellipsis as head when the class inherits the handler too. -/
theorem trailing_ellipsis (M : Methods) (c : Content) (advanced : Index) :
    Content.getitem_next_SliceEllipsis M c ⟨[]⟩ advanced
      = M.getitem_next c none ⟨[]⟩ advanced ∧
    Content.getitem_next M c none ⟨[]⟩ advanced = .ok (M.shallow_copy c) ∧
    (inherits_getitem_next M c →
      Content.getitem_next_SliceEllipsis M c ⟨[]⟩ advanced
        = .ok (M.shallow_copy c)) ∧
    (inherits_getitem_next M c → inherits_getitem_next_SliceEllipsis M c →
      Content.getitem_next M c (some .SliceEllipsis) ⟨[]⟩ advanced
        = .ok (M.shallow_copy c) ∧
      M.getitem_next c (some .SliceEllipsis) ⟨[]⟩ advanced
        = .ok (M.shallow_copy c)) := by
  have h1 : Content.getitem_next_SliceEllipsis M c ⟨[]⟩ advanced
      = M.getitem_next c none ⟨[]⟩ advanced :=
    (ellipsis_branches M c ⟨[]⟩ advanced).1 (.inl rfl)
  refine ⟨h1, rfl, ?_, ?_⟩
  · intro hnext
    rw [h1, hnext]
    rfl
  · intro hnext hellipsis
    have h2 : Content.getitem_next M c (some .SliceEllipsis) ⟨[]⟩ advanced
        = .ok (M.shallow_copy c) := by
      show M.getitem_next_SliceEllipsis c .SliceEllipsis ⟨[]⟩ advanced = _
      rw [hellipsis, h1, hnext]
      rfl
    refine ⟨h2, ?_⟩
    rw [hnext]
    exact h2

/-- C34 on a union of branches of depths 2 and 3. -/
theorem trailing_ellipsis_witness :
    model.minmax_depth two_and_three = (2, 3) ∧
    Content.getitem_next_SliceEllipsis model two_and_three ⟨[]⟩ []
      = .ok two_and_three ∧
    model.getitem_next two_and_three (some .SliceEllipsis) ⟨[]⟩ []
      = .ok two_and_three :=
  ⟨rfl,
    (trailing_ellipsis model two_and_three []).2.2.1
      (model_inherits_getitem_next two_and_three),
    ((trailing_ellipsis model two_and_three []).2.2.2
      (model_inherits_getitem_next two_and_three)
      (model_inherits_getitem_next_SliceEllipsis two_and_three)).2⟩

end Awkward
